import Mathlib

/-!
# echocicd: build-publish / watch-reconcile protocol

A shallow embedding of the Go sources `internal/etcd.go`, `internal/webhooks.go`,
`internal/runner.go`, `internal/agent.go` and `internal/builder.go`
(`ScanForDockerError`), followed by theorems about them.

Conventions of the embedding.

* Go `string` is `String` (valid UTF-8 text); string functions work on the list of runes.
* Go `int` / `int64` is `Int` (a 64-bit platform; ranges are stated where they matter).
* Go `map[string]V` is `GoMap V`: a list of entries with pairwise distinct keys.
* `error` is `Option String` (`none` is `nil`); `(T, error)` is `Except String T`.
* External services (etcd, the docker engine, `encoding/json`) are parameters:
  a store state, an engine state with the outcome of each request, a codec.
  For the docker status lines the decoder is also written out (`UnmarshalErrorLine`).
* Logging (`slog`) is left out; it has no effect on the results.
-/

set_option autoImplicit false
set_option maxRecDepth 100000

deriving instance DecidableEq for Except

/-! ## Go maps -/

/-- A Go `map[string]V`: entries with distinct keys. -/
structure GoMap (V : Type) where
  entries : List (String × V)
  nodup : (entries.map Prod.fst).Nodup

namespace GoMap
variable {V : Type}

/-- The empty map (`map[string]V{}`; a nil map reads the same). -/
def empty : GoMap V := ⟨[], List.nodup_nil⟩

/-- The read `v, ok := m[k]`. -/
def lookup (m : GoMap V) (k : String) : Option V := m.entries.lookup k

/-- The assignment `m[k] = v`. -/
def set (m : GoMap V) (k : String) (v : V) : GoMap V :=
  ⟨(k, v) :: m.entries.filter (fun e => e.1 != k), by
    rw [List.map_cons, List.nodup_cons]
    refine ⟨?_, m.nodup.sublist ((List.filter_sublist _).map _)⟩
    simp [List.mem_map, List.mem_filter]⟩

/-- The keys of the map. -/
def keys (m : GoMap V) : List String := m.entries.map Prod.fst

/-- A map literal. -/
def ofList (l : List (String × V)) : GoMap V := l.foldl (fun m e => m.set e.1 e.2) empty

instance [DecidableEq V] : DecidableEq (GoMap V) := fun a b =>
  match a, b with
  | ⟨ea, _⟩, ⟨eb, _⟩ =>
    if h : ea = eb then isTrue (by subst h; rfl)
    else isFalse (fun h2 => h (congrArg GoMap.entries h2))

end GoMap

/-! ## `strings` and `strconv` -/

/-- Worker of `ReplaceAll`: `skip` runes of a matched occurrence are still to be dropped. -/
def replaceAllAux (old new : List Char) : List Char → Nat → List Char
  | [], _ => []
  | _ :: cs, skip + 1 => replaceAllAux old new cs skip
  | c :: cs, 0 =>
    if old.isPrefixOf (c :: cs) then new ++ replaceAllAux old new cs (old.length - 1)
    else c :: replaceAllAux old new cs 0

/-- Go `strings.ReplaceAll(s, old, new)` for a non-empty `old`: the non-overlapping
occurrences of `old`, found left to right, are replaced by `new`. -/
def ReplaceAll (s old new : String) : String := ⟨replaceAllAux old.data new.data s.data 0⟩

/-- First position of the rune `sep` in a list of runes. -/
def indexRune : List Char → Char → Option Nat
  | [], _ => none
  | c :: cs, sep => if c = sep then some 0 else (indexRune cs sep).map (fun i => i + 1)

/-- Go `strings.Index(s, sep)` for a one-rune `sep`: the first position of `sep`, or `-1`. -/
def Index (s : String) (sep : Char) : Int :=
  match indexRune s.data sep with
  | some i => (i : Int)
  | none => -1

/-- The decimal digit `d` as a rune. -/
def digitChar (d : Nat) : Char := Char.ofNat (48 + d)

/-- Worker of `formatNat`, most significant digit first. -/
def natDigitsAux : Nat → Nat → List Char → List Char
  | 0, _, acc => acc
  | fuel + 1, n, acc =>
    if n < 10 then digitChar n :: acc
    else natDigitsAux fuel (n / 10) (digitChar (n % 10) :: acc)

/-- Decimal rendering of a natural number. -/
def formatNat (n : Nat) : List Char := natDigitsAux (n + 1) n []

/-- Go `strconv.FormatInt(i, 10)`. -/
def FormatInt (i : Int) : String :=
  match i with
  | Int.ofNat n => ⟨formatNat n⟩
  | Int.negSucc n => ⟨'-' :: formatNat (n + 1)⟩

/-- Go `strconv.Itoa(i)`, which is `FormatInt(int64(i), 10)`. -/
def Itoa (i : Int) : String := FormatInt i

/-- Value of a decimal digit rune. -/
def digitVal (c : Char) : Option Nat :=
  if 48 ≤ c.toNat ∧ c.toNat ≤ 57 then some (c.toNat - 48) else none

/-- Digit loop of `strconv.ParseUint` in base 10: any other rune is a syntax error. -/
def parseUintAux : List Char → Nat → Option Nat
  | [], acc => some acc
  | c :: cs, acc =>
    match digitVal c with
    | some d => parseUintAux cs (acc * 10 + d)
    | none => none

/-- Go `strconv.ParseUint(s, 10, 64)` without the range check (`ParseInt` applies its own,
tighter one): the empty string is a syntax error. -/
def ParseUint (cs : List Char) : Option Nat :=
  match cs with
  | [] => none
  | _ :: _ => parseUintAux cs 0

/-- Go `strconv.ParseInt(s, 10, 64)`: an optional sign, then digits; the value must fit
`int64`. `none` stands for a syntax or range error. -/
def ParseInt (s : String) : Option Int :=
  match s.data with
  | [] => none
  | c :: rest =>
    let neg := c == '-'
    let body := if c == '+' || c == '-' then rest else c :: rest
    match ParseUint body with
    | none => none
    | some un =>
      if !neg && un ≥ 2 ^ 63 then none
      else if neg && un > 2 ^ 63 then none
      else some (if neg then -(un : Int) else (un : Int))

/-- Go `errors.Join`: `nil` when every argument is `nil`, else the non-nil messages joined
by newlines. -/
def errorsJoin (errs : List (Option String)) : Option String :=
  match errs.filterMap id with
  | [] => none
  | e :: es => some ("\n".intercalate (e :: es))

/-! ## `configs/deploy-config.go`: the exec spec -/

structure VolumeMount where
  ReadOnly : Bool
  Host : String
  BindTo : String
  Mode : String
deriving DecidableEq

structure DomainConfiguration where
  Port : Int
  Host : String
deriving DecidableEq

structure ExecProperties where
  Args : List String
  Ports : GoMap Int
  Volumes : List VolumeMount
  Domain : Option DomainConfiguration
deriving DecidableEq

/-! ## `internal/runner.go`, `internal/webhooks.go`, `internal/builder.go`: records -/

structure PublishedBuild where
  Name : String
  Version : String
  Timestamp : Int
  Tag : String
  Registry : String
  Exec : ExecProperties
deriving DecidableEq

structure Repository where
  CloneUrl : String
  FullName : String
deriving DecidableEq

structure PushPayload where
  Repository : Repository
  Ref : String
deriving DecidableEq

structure ErrorDetail where
  Message : String
deriving DecidableEq

structure ErrorLine where
  Error : String
  ErrorDetail : ErrorDetail
deriving DecidableEq

/-- The uses this program makes of `encoding/json`: `json.Marshal` of an exec spec and
`json.Unmarshal` into an exec spec, a push payload and a docker status line. -/
structure Json where
  marshalExec : ExecProperties → Except String String
  unmarshalExec : String → Except String ExecProperties
  unmarshalPush : String → Except String PushPayload
  unmarshalErrorLine : String → Except String ErrorLine

/-! ## `encoding/json`: `json.Unmarshal` into an `ErrorLine`

The codec is a parameter of the embedding (`Json`). For the docker status lines its
behaviour is written out: the scanner of `encoding/json` (`scanner.go`), the unquoting of
string literals and the decoding of a value into the two structs of `internal/builder.go`
(`decode.go`). The input is a Go string holding valid UTF-8, so the scanner is run on
runes: a byte `>= 0x80` is accepted inside a string literal and rejected anywhere else,
which is what happens to each rune above `0x7f`. -/

/-- A JSON value as the decoder reads it: strings unquoted, numbers as their text. -/
inductive JsonValue where
  | null : JsonValue
  | bool (b : Bool) : JsonValue
  | number (text : String) : JsonValue
  | string (s : String) : JsonValue
  | array (items : List JsonValue) : JsonValue
  | object (members : List (String × JsonValue)) : JsonValue

/-- Go `parseObjectKey`, `parseObjectValue`, `parseArrayValue`: what an open composite
value is waiting for. -/
inductive ParseState where
  | parseObjectKey
  | parseObjectValue
  | parseArrayValue
deriving DecidableEq

/-- The step functions of the scanner (`scanner.step`). -/
inductive Step where
  | stateBeginValueOrEmpty
  | stateBeginValue
  | stateBeginStringOrEmpty
  | stateBeginString
  | stateEndValue
  | stateEndTop
  | stateInString
  | stateInStringEsc
  | stateInStringEscU
  | stateInStringEscU1
  | stateInStringEscU12
  | stateInStringEscU123
  | stateNeg
  | state1
  | state0
  | stateDot
  | stateDot0
  | stateE
  | stateESign
  | stateE0
  | stateT
  | stateTr
  | stateTru
  | stateF
  | stateFa
  | stateFal
  | stateFals
  | stateN
  | stateNu
  | stateNul
deriving DecidableEq

/-- An entry of `scanner.parseState`, with what has been read of the open value: the
members of an object and the key of the member being read, or the elements of an array. -/
structure Frame where
  state : ParseState
  members : List (String × JsonValue)
  key : String
  items : List JsonValue

/-- Go `scanner`, with the text of the literal being read and the top-level value once it
is complete. `parseState` is kept innermost first. -/
structure Scanner where
  step : Step
  parseState : List Frame
  literal : List Char
  value : Option JsonValue

/-- Go `maxNestingDepth`. -/
def maxNestingDepth : Nat := 10000

/-- Go `isSpace`. -/
def isSpace (c : Char) : Bool := c = ' ' || c = '\t' || c = '\r' || c = '\n'

/-- A decimal digit. -/
def isDigit (c : Char) : Bool := 48 ≤ c.toNat && c.toNat ≤ 57

/-- A hexadecimal digit, of either case. -/
def isHex (c : Char) : Bool :=
  isDigit c || (97 ≤ c.toNat && c.toNat ≤ 102) || (65 ≤ c.toNat && c.toNat ≤ 70)

/-- Value of a hexadecimal digit. -/
def hexVal (c : Char) : Nat :=
  if isDigit c then c.toNat - 48
  else if 97 ≤ c.toNat ∧ c.toNat ≤ 102 then c.toNat - 87
  else c.toNat - 55

/-- Go `getu4` on the four digits after a backslash and `u`. -/
def getu4 (a b c d : Char) : Nat := ((hexVal a * 16 + hexVal b) * 16 + hexVal c) * 16 + hexVal d

/-- The rune and the number of further runes to skip for the escape that follows a
backslash: a pair of surrogate escapes gives one rune, a lone surrogate gives `U+FFFD`. -/
def unquoteEscape (rest : List Char) : Char × Nat :=
  match rest with
  | [] => (Char.ofNat 0xfffd, 0)
  | e :: rest1 =>
    if e = 'u' then
      match rest1 with
      | a :: b :: c :: d :: rest2 =>
        let rr := getu4 a b c d
        if 0xd800 ≤ rr ∧ rr < 0xe000 then
          match rest2 with
          | b1 :: u1 :: a2 :: b2 :: c2 :: d2 :: _ =>
            let rr1 := getu4 a2 b2 c2 d2
            if b1 = '\\' ∧ u1 = 'u' ∧ isHex a2 ∧ isHex b2 ∧ isHex c2 ∧ isHex d2 ∧
                rr < 0xdc00 ∧ 0xdc00 ≤ rr1 ∧ rr1 < 0xe000 then
              (Char.ofNat ((rr - 0xd800) * 0x400 + (rr1 - 0xdc00) + 0x10000), 11)
            else (Char.ofNat 0xfffd, 5)
          | _ => (Char.ofNat 0xfffd, 5)
        else (Char.ofNat rr, 5)
      | _ => (Char.ofNat 0xfffd, 0)
    else if e = 'b' then (Char.ofNat 8, 1)
    else if e = 'f' then (Char.ofNat 12, 1)
    else if e = 'n' then ('\n', 1)
    else if e = 'r' then ('\r', 1)
    else if e = 't' then ('\t', 1)
    else (e, 1)

/-- Worker of `unquote`: `skip` runes of an escape already replaced are still to be
dropped. -/
def unquoteAux : List Char → Nat → List Char
  | [], _ => []
  | _ :: cs, skip + 1 => unquoteAux cs skip
  | c :: cs, 0 =>
    if c = '\\' then (unquoteEscape cs).1 :: unquoteAux cs (unquoteEscape cs).2
    else c :: unquoteAux cs 0

/-- Go `unquoteBytes`, on the text between the quotes of a literal the scanner accepted:
the escapes are replaced by the runes they stand for. -/
def unquote (s : List Char) : List Char := unquoteAux s 0

/-- The decoder storing a value that is complete: as the top-level value, as the key or
the value of the member being read, or as the next element of the array. -/
def Scanner.store (s : Scanner) (v : JsonValue) : Scanner :=
  match s.parseState with
  | [] => { s with value := some v }
  | f :: rest =>
    match f.state with
    | .parseObjectKey =>
      { s with parseState := { f with key := match v with
                                              | .string k => k
                                              | _ => "" } :: rest }
    | .parseObjectValue =>
      { s with parseState := { f with members := f.members ++ [(f.key, v)] } :: rest }
    | .parseArrayValue =>
      { s with parseState := { f with items := f.items ++ [v] } :: rest }

/-- Go `scanner.pushParseState`: at most `maxNestingDepth` values may be open. -/
def Scanner.pushParseState (s : Scanner) (newParseState : ParseState) (successState : Step) :
    Except String Scanner :=
  let parseState := { state := newParseState, members := [], key := "", items := [] } ::
    s.parseState
  if parseState.length ≤ maxNestingDepth then
    .ok { s with step := successState, parseState := parseState }
  else .error "exceeded max depth"

/-- Go `scanner.popParseState`: the innermost open value is complete. -/
def Scanner.popParseState (s : Scanner) : Scanner :=
  match s.parseState with
  | [] => s
  | f :: rest =>
    let v := match f.state with
      | .parseArrayValue => JsonValue.array f.items
      | _ => JsonValue.object f.members
    let s1 := ({ s with parseState := rest } : Scanner).store v
    { s1 with step := if rest.isEmpty then .stateEndTop else .stateEndValue }

/-- Go `stateEndTop`: only space may follow the top-level value. -/
def stateEndTop (s : Scanner) (c : Char) : Except String Scanner :=
  if isSpace c then .ok { s with step := .stateEndTop }
  else .error "invalid character after top-level value"

/-- Go `stateEndValue`: after a complete value. -/
def stateEndValue (s : Scanner) (c : Char) : Except String Scanner :=
  match s.parseState with
  | [] => stateEndTop s c
  | f :: rest =>
    if isSpace c then .ok { s with step := .stateEndValue }
    else
      match f.state with
      | .parseObjectKey =>
        if c = ':' then
          .ok { s with parseState := { f with state := .parseObjectValue } :: rest,
                       step := .stateBeginValue }
        else .error "invalid character after object key"
      | .parseObjectValue =>
        if c = ',' then
          .ok { s with parseState := { f with state := .parseObjectKey } :: rest,
                       step := .stateBeginString }
        else if c = '}' then .ok s.popParseState
        else .error "invalid character after object key:value pair"
      | .parseArrayValue =>
        if c = ',' then .ok { s with step := .stateBeginValue }
        else if c = ']' then .ok s.popParseState
        else .error "invalid character after array element"

/-- Go `stateBeginValue`: at the beginning of a value. -/
def stateBeginValue (s : Scanner) (c : Char) : Except String Scanner :=
  if isSpace c then .ok s
  else if c = '{' then s.pushParseState .parseObjectKey .stateBeginStringOrEmpty
  else if c = '[' then s.pushParseState .parseArrayValue .stateBeginValueOrEmpty
  else if c = '"' then .ok { s with step := .stateInString, literal := [] }
  else if c = '-' then .ok { s with step := .stateNeg, literal := [c] }
  else if c = '0' then .ok { s with step := .state0, literal := [c] }
  else if c = 't' then .ok { s with step := .stateT }
  else if c = 'f' then .ok { s with step := .stateF }
  else if c = 'n' then .ok { s with step := .stateN }
  else if isDigit c then .ok { s with step := .state1, literal := [c] }
  else .error "invalid character looking for beginning of value"

/-- Go `stateBeginValueOrEmpty`: after `[`. -/
def stateBeginValueOrEmpty (s : Scanner) (c : Char) : Except String Scanner :=
  if isSpace c then .ok s
  else if c = ']' then stateEndValue s c
  else stateBeginValue s c

/-- Go `stateBeginString`: at the beginning of an object key. -/
def stateBeginString (s : Scanner) (c : Char) : Except String Scanner :=
  if isSpace c then .ok s
  else if c = '"' then .ok { s with step := .stateInString, literal := [] }
  else .error "invalid character looking for beginning of object key string"

/-- Go `stateBeginStringOrEmpty`: after `{`. -/
def stateBeginStringOrEmpty (s : Scanner) (c : Char) : Except String Scanner :=
  if isSpace c then .ok s
  else if c = '}' then
    match s.parseState with
    | [] => stateEndValue s c
    | f :: rest =>
      stateEndValue { s with parseState := { f with state := .parseObjectValue } :: rest } c
  else stateBeginString s c

/-- The number literal being read is complete. -/
def Scanner.storeNumber (s : Scanner) : Scanner :=
  ({ s with step := .stateEndValue } : Scanner).store (.number ⟨s.literal⟩)

/-- Go `state0`: after a leading `0`, or after the integer part. -/
def state0 (s : Scanner) (c : Char) : Except String Scanner :=
  if c = '.' then .ok { s with step := .stateDot, literal := s.literal ++ [c] }
  else if c = 'e' ∨ c = 'E' then .ok { s with step := .stateE, literal := s.literal ++ [c] }
  else stateEndValue s.storeNumber c

/-- Go `stateESign`: after `e` and an optional sign. -/
def stateESign (s : Scanner) (c : Char) : Except String Scanner :=
  if isDigit c then .ok { s with step := .stateE0, literal := s.literal ++ [c] }
  else .error "invalid character in exponent of numeric literal"

/-- A rune of a literal name (`true`, `false`, `null`): `expected` moves to `next`. -/
def stateLiteral (s : Scanner) (c expected : Char) (next : Step) (name : String) :
    Except String Scanner :=
  if c = expected then .ok { s with step := next }
  else .error ("invalid character in literal " ++ name)

/-- The last rune of a literal name: the value `v` is complete. -/
def stateLiteralEnd (s : Scanner) (c expected : Char) (v : JsonValue) (name : String) :
    Except String Scanner :=
  if c = expected then .ok (({ s with step := .stateEndValue } : Scanner).store v)
  else .error ("invalid character in literal " ++ name)

/-- One call `scan.step(scan, c)`. -/
def Scanner.next (s : Scanner) (c : Char) : Except String Scanner :=
  match s.step with
  | .stateBeginValueOrEmpty => stateBeginValueOrEmpty s c
  | .stateBeginValue => stateBeginValue s c
  | .stateBeginStringOrEmpty => stateBeginStringOrEmpty s c
  | .stateBeginString => stateBeginString s c
  | .stateEndValue => stateEndValue s c
  | .stateEndTop => stateEndTop s c
  | .stateInString =>
    if c = '"' then
      .ok (({ s with step := .stateEndValue } : Scanner).store (.string ⟨unquote s.literal⟩))
    else if c = '\\' then .ok { s with step := .stateInStringEsc, literal := s.literal ++ [c] }
    else if c.toNat < 0x20 then .error "invalid character in string literal"
    else .ok { s with literal := s.literal ++ [c] }
  | .stateInStringEsc =>
    if c = 'b' ∨ c = 'f' ∨ c = 'n' ∨ c = 'r' ∨ c = 't' ∨ c = '\\' ∨ c = '/' ∨ c = '"' then
      .ok { s with step := .stateInString, literal := s.literal ++ [c] }
    else if c = 'u' then .ok { s with step := .stateInStringEscU, literal := s.literal ++ [c] }
    else .error "invalid character in string escape code"
  | .stateInStringEscU =>
    if isHex c then .ok { s with step := .stateInStringEscU1, literal := s.literal ++ [c] }
    else .error "invalid character in \\u hexadecimal character escape"
  | .stateInStringEscU1 =>
    if isHex c then .ok { s with step := .stateInStringEscU12, literal := s.literal ++ [c] }
    else .error "invalid character in \\u hexadecimal character escape"
  | .stateInStringEscU12 =>
    if isHex c then .ok { s with step := .stateInStringEscU123, literal := s.literal ++ [c] }
    else .error "invalid character in \\u hexadecimal character escape"
  | .stateInStringEscU123 =>
    if isHex c then .ok { s with step := .stateInString, literal := s.literal ++ [c] }
    else .error "invalid character in \\u hexadecimal character escape"
  | .stateNeg =>
    if c = '0' then .ok { s with step := .state0, literal := s.literal ++ [c] }
    else if isDigit c then .ok { s with step := .state1, literal := s.literal ++ [c] }
    else .error "invalid character in numeric literal"
  | .state1 =>
    if isDigit c then .ok { s with step := .state1, literal := s.literal ++ [c] }
    else state0 s c
  | .state0 => state0 s c
  | .stateDot =>
    if isDigit c then .ok { s with step := .stateDot0, literal := s.literal ++ [c] }
    else .error "invalid character after decimal point in numeric literal"
  | .stateDot0 =>
    if isDigit c then .ok { s with literal := s.literal ++ [c] }
    else if c = 'e' ∨ c = 'E' then .ok { s with step := .stateE, literal := s.literal ++ [c] }
    else stateEndValue s.storeNumber c
  | .stateE =>
    if c = '+' ∨ c = '-' then .ok { s with step := .stateESign, literal := s.literal ++ [c] }
    else stateESign s c
  | .stateESign => stateESign s c
  | .stateE0 =>
    if isDigit c then .ok { s with literal := s.literal ++ [c] }
    else stateEndValue s.storeNumber c
  | .stateT => stateLiteral s c 'r' .stateTr "true"
  | .stateTr => stateLiteral s c 'u' .stateTru "true"
  | .stateTru => stateLiteralEnd s c 'e' (.bool true) "true"
  | .stateF => stateLiteral s c 'a' .stateFa "false"
  | .stateFa => stateLiteral s c 'l' .stateFal "false"
  | .stateFal => stateLiteral s c 's' .stateFals "false"
  | .stateFals => stateLiteralEnd s c 'e' (.bool false) "false"
  | .stateN => stateLiteral s c 'u' .stateNu "null"
  | .stateNu => stateLiteral s c 'l' .stateNul "null"
  | .stateNul => stateLiteralEnd s c 'l' .null "null"

/-- Go `scanner.reset`. -/
def Scanner.reset : Scanner :=
  { step := .stateBeginValue, parseState := [], literal := [], value := none }

/-- The loop of `checkValid`: every rune is given to the scanner, the first error ends it. -/
def scanAll : Scanner → List Char → Except String Scanner
  | s, [] => .ok s
  | s, c :: cs =>
    match s.next c with
    | .error e => .error e
    | .ok s1 => scanAll s1 cs

/-- Go `scanner.eof`: the input is complete if the top-level value has ended, possibly
after one more space. -/
def Scanner.eof (s : Scanner) : Except String JsonValue :=
  let s1 := if s.step = .stateEndTop then Except.ok s else s.next ' '
  match s1 with
  | .error e => .error e
  | .ok s2 =>
    match s2.step, s2.value with
    | .stateEndTop, some v => .ok v
    | _, _ => .error "unexpected end of JSON input"

/-- Go `checkValid`, keeping the value that the decoder then reads from the same text:
the text is one JSON value with optional space around it, or a syntax error. The error
text leaves out the offending byte and the offset. -/
def checkValid (data : List Char) : Except String JsonValue :=
  match scanAll Scanner.reset data with
  | .error e => .error e
  | .ok s => s.eof

/-- Go `foldRune` on the runes that matter for names made of ASCII letters: the smallest
rune of the case-folding orbit. The orbits of `k` and `s` also hold `U+212A` and `U+017F`;
no other rune folds to an ASCII letter. -/
def foldRune (c : Char) : Char :=
  if 97 ≤ c.toNat ∧ c.toNat ≤ 122 then Char.ofNat (c.toNat - 32)
  else if c.toNat = 0x212a then 'K'
  else if c.toNat = 0x17f then 'S'
  else c

/-- Go `foldName`. -/
def foldName (name : String) : String := ⟨name.data.map foldRune⟩

/-- The field lookup of `decodeState.object`: a key selects the field with that name,
else the field whose name is equal to it under case folding. -/
def fieldMatches (name key : String) : Bool := key = name || foldName key = foldName name

/-- Go `decodeState.saveError`: the first error is kept. -/
def saveError (saved : Option String) (err : String) : Option String :=
  match saved with
  | none => some err
  | some e => some e

/-- The `Value` of an `UnmarshalTypeError`. -/
def JsonValue.typeName : JsonValue → String
  | .null => "null"
  | .bool _ => "bool"
  | .number _ => "number"
  | .string _ => "string"
  | .array _ => "array"
  | .object _ => "object"

/-- Decoding a value into a field of Go type `string`: `null` leaves the field as it is,
a string sets it, any other value is a type error that is saved. -/
def storeString (v : JsonValue) (field : String) (current : String) (saved : Option String) :
    String × Option String :=
  match v with
  | .null => (current, saved)
  | .string s => (s, saved)
  | _ => (current, saveError saved ("json: cannot unmarshal " ++ v.typeName ++
      " into Go struct field " ++ field ++ " of type string"))

/-- One member of an object decoded into an `ErrorDetail`. -/
def storeDetailMember (acc : ErrorDetail × Option String) (member : String × JsonValue) :
    ErrorDetail × Option String :=
  if fieldMatches "message" member.1 then
    let r := storeString member.2 "ErrorLine.errorDetail.message" acc.1.Message acc.2
    ({ Message := r.1 }, r.2)
  else acc

/-- Decoding a value into a field of type `ErrorDetail`: `null` leaves it as it is, an
object is decoded member by member, any other value is a type error. -/
def storeErrorDetail (v : JsonValue) (current : ErrorDetail) (saved : Option String) :
    ErrorDetail × Option String :=
  match v with
  | .null => (current, saved)
  | .object members => members.foldl storeDetailMember (current, saved)
  | _ => (current, saveError saved ("json: cannot unmarshal " ++ v.typeName ++
      " into Go struct field ErrorLine.errorDetail of type internal.ErrorDetail"))

/-- One member of an object decoded into an `ErrorLine`; a key that selects no field is
skipped. -/
def storeLineMember (acc : ErrorLine × Option String) (member : String × JsonValue) :
    ErrorLine × Option String :=
  if fieldMatches "error" member.1 then
    let r := storeString member.2 "ErrorLine.error" acc.1.Error acc.2
    ({ acc.1 with Error := r.1 }, r.2)
  else if fieldMatches "errorDetail" member.1 then
    let r := storeErrorDetail member.2 acc.1.ErrorDetail acc.2
    ({ acc.1 with ErrorDetail := r.1 }, r.2)
  else acc

/-- Go `decodeState.value` for the target `&ErrorLine{}`: the record read and the saved
error. -/
def decodeErrorLine (v : JsonValue) : ErrorLine × Option String :=
  let zero : ErrorLine := { Error := "", ErrorDetail := { Message := "" } }
  match v with
  | .null => (zero, none)
  | .object members => members.foldl storeLineMember (zero, none)
  | _ => (zero, some ("json: cannot unmarshal " ++ v.typeName ++
      " into Go value of type internal.ErrorLine"))

/-- Go `json.Unmarshal([]byte(data), &ErrorLine{})`: a syntax error, else the first type
error, else the record. -/
def UnmarshalErrorLine (data : String) : Except String ErrorLine :=
  match checkValid data.data with
  | .error e => .error e
  | .ok v =>
    match decodeErrorLine v with
    | (_, some e) => .error e
    | (line, none) => .ok line

/-! ## `internal/etcd.go` -/

/-- The etcd keyspace. -/
abbrev Store := GoMap String

/-- The store a client is connected to, with the `Put` requests sent so far (attempted
writes, answered or not). -/
structure EtcdClient where
  kvs : Store
  puts : List (String × String)

/-- The request `client.Put(ctx, key, val)`: `answered` tells whether the store applies and
acknowledges it; an unanswered request leaves the keyspace as it was. -/
def EtcdClient.Put (c : EtcdClient) (answered : Bool) (key val : String) :
    EtcdClient × Option String :=
  if answered then ({ kvs := c.kvs.set key val, puts := c.puts ++ [(key, val)] }, none)
  else ({ kvs := c.kvs, puts := c.puts ++ [(key, val)] }, some ("etcd: put failed: " ++ key))

/-- The request `client.Get(ctx, key, WithPrefix())`: every entry whose key starts with `key`. -/
def EtcdClient.Get (c : EtcdClient) (answered : Bool) (key : String) :
    Except String (List (String × String)) :=
  if answered then .ok (c.kvs.entries.filter (fun e => key.data.isPrefixOf e.1.data))
  else .error "etcd: get failed"

/-- Go `CollapseToErr`: drops the value of a `(T, error)` pair. -/
def CollapseToErr {T : Type} (r : T × Option String) : Option String := r.2

/-- Go `(*EtcdClient).GetStoredConfig`; `answered` is the outcome of its one `Get` request. -/
def EtcdClient.GetStoredConfig (json : Json) (c : EtcdClient) (answered : Bool)
    (build : String) : Except String PublishedBuild :=
  match c.Get answered ("echocicd/builds/" ++ build) with
  | .error e => .error ("failed to query for build: " ++ e)
  | .ok kvs =>
    let keyMap : GoMap String := kvs.foldl (fun m kv => m.set kv.1 kv.2) GoMap.empty
    match keyMap.lookup ("echocicd/builds/" ++ build ++ "/name") with
    | none => .error "failed to find build name"
    | some name =>
    match keyMap.lookup ("echocicd/builds/" ++ build ++ "/version") with
    | none => .error "failed to find build version"
    | some version =>
    match keyMap.lookup ("echocicd/builds/" ++ build ++ "/timestamp") with
    | none => .error "failed to find build timestamp"
    | some timestamp =>
    match ParseInt timestamp with
    | none => .error ("failed to parse timestamp " ++ timestamp)
    | some t =>
    match keyMap.lookup ("echocicd/builds/" ++ build ++ "/tag") with
    | none => .error "failed to find build tag"
    | some tag =>
    match keyMap.lookup ("echocicd/builds/" ++ build ++ "/registry") with
    | none => .error "failed to find build registry"
    | some registry =>
    match keyMap.lookup ("echocicd/builds/" ++ build ++ "/exec") with
    | none => .error "failed to find build exec"
    | some execRaw =>
    match json.unmarshalExec execRaw with
    | .error e => .error ("failed to parse exec config: " ++ e)
    | .ok execConfig =>
      .ok { Name := name, Version := version, Timestamp := t, Tag := tag,
            Registry := registry, Exec := execConfig }

/-- Go `(*EtcdClient).WriteBuildInfo`. `putOk i` is the outcome of the `i`-th `Put` in source
order, `now` is `time.Now().UnixMilli()`. The seven arguments of `errors.Join` are evaluated
left to right before the call. Returns the client afterwards and the error. -/
def EtcdClient.WriteBuildInfo (json : Json) (putOk : Nat → Bool) (now : Int) (c : EtcdClient)
    (repo name hash tag registry : String) (config : ExecProperties) :
    EtcdClient × Option String :=
  match json.marshalExec config with
  | .error e => (c, some ("failed to serialise exec config: " ++ e))
  | .ok j =>
    let safeRepo := ReplaceAll repo "/" "__"
    let r0 := c.Put (putOk 0) ("echocicd/builds/" ++ safeRepo ++ "/name") name
    let r1 := r0.1.Put (putOk 1) ("echocicd/builds/" ++ safeRepo ++ "/version") hash
    let r2 := r1.1.Put (putOk 2) ("echocicd/builds/" ++ safeRepo ++ "/repo") repo
    let r3 := r2.1.Put (putOk 3) ("echocicd/builds/" ++ safeRepo ++ "/timestamp") (FormatInt now)
    let r4 := r3.1.Put (putOk 4) ("echocicd/builds/" ++ safeRepo ++ "/tag") tag
    let r5 := r4.1.Put (putOk 5) ("echocicd/builds/" ++ safeRepo ++ "/registry") registry
    let r6 := r5.1.Put (putOk 6) ("echocicd/builds/" ++ safeRepo ++ "/exec") j
    (r6.1, errorsJoin [CollapseToErr r0, CollapseToErr r1, CollapseToErr r2, CollapseToErr r3,
      CollapseToErr r4, CollapseToErr r5, CollapseToErr r6])

/-! ## `regexp`: the fragment used by `WatchForBuild` -/

/-- Regular expressions over runes; `cls p` is a character class. -/
inductive Regex where
  | zero : Regex
  | one : Regex
  | cls (p : Char → Bool) : Regex
  | alt (a b : Regex) : Regex
  | seq (a b : Regex) : Regex
  | star (a : Regex) : Regex

namespace Regex

/-- Whether the expression accepts the empty string. -/
def nullable : Regex → Bool
  | zero => false
  | one => true
  | cls _ => false
  | alt a b => a.nullable || b.nullable
  | seq a b => a.nullable && b.nullable
  | star _ => true

/-- Brzozowski derivative by one rune. -/
def deriv : Regex → Char → Regex
  | zero, _ => zero
  | one, _ => zero
  | cls p, c => if p c then one else zero
  | alt a b, c => alt (a.deriv c) (b.deriv c)
  | seq a b, c => if a.nullable then alt (seq (a.deriv c) b) (b.deriv c) else seq (a.deriv c) b
  | star a, c => seq (a.deriv c) (star a)

/-- Anchored match (`^…$` without the multi-line flag): the whole input is accepted. -/
def rmatch : Regex → List Char → Bool
  | r, [] => r.nullable
  | r, c :: cs => (r.deriv c).rmatch cs

/-- A literal string. -/
def lit : List Char → Regex
  | [] => one
  | c :: cs => seq (cls (fun x => x == c)) (lit cs)

/-- The repetition `a+`. -/
def plus (a : Regex) : Regex := seq a (star a)

/-- The strings an expression denotes. -/
def Matches : Regex → List Char → Prop
  | zero, _ => False
  | one, x => x = []
  | cls p, x => ∃ c, p c = true ∧ x = [c]
  | alt a b, x => a.Matches x ∨ b.Matches x
  | seq a b, x => ∃ t u, x = t ++ u ∧ a.Matches t ∧ b.Matches u
  | star a, x => ∃ S : List (List Char), x = S.flatten ∧ ∀ t ∈ S, a.Matches t

end Regex

/-- The expression `regexp.MustCompile("^echocicd/builds/[^/]+/exec$")`. -/
def buildKey : Regex :=
  Regex.seq (Regex.lit "echocicd/builds/".data)
    (Regex.seq (Regex.plus (Regex.cls (fun c => c != '/'))) (Regex.lit "/exec".data))

/-- The slice `s[i:]`; `none` is the run-time panic for an index out of range. -/
def sliceFrom (s : String) (i : Nat) : Option String :=
  if i ≤ s.data.length then some ⟨s.data.drop i⟩ else none

/-- The slice `s[:i]`; `none` is the run-time panic for an index out of range. -/
def sliceTo (s : String) (i : Int) : Option String :=
  if 0 ≤ i ∧ i ≤ s.data.length then some ⟨s.data.take i.toNat⟩ else none

/-! ## `WatchForBuild` -/

inductive EventType where
  | PUT
  | DELETE
deriving DecidableEq

/-- A change event of the watch feed (`mvccpb.Event`); `Typ` is its `Type` field. -/
structure Event where
  Typ : EventType
  Key : String
  Value : String

/-- An event read by the watch loop, together with the store as it is when the loop
handles the event and the outcome of the `Get` the loop may then send. -/
structure Delivered where
  event : Event
  store : EtcdClient
  answered : Bool

/-- One round of the `select`: a watch response, or `ctx.Done()`. -/
inductive Select where
  | response (events : List Delivered)
  | done

/-- What the loop has done so far: `world` is whatever the handler acts on, `spawned` the
builds handed to `go handler(build)` in async mode, `panicked` a run-time panic. -/
structure WatchState (σ : Type) where
  world : σ
  spawned : List PublishedBuild
  panicked : Bool
deriving DecidableEq

/-- The body of the inner `for _, e := range event.Events`. -/
def watchEvent {σ : Type} (json : Json) (handler : PublishedBuild → σ → σ) (async : Bool)
    (st : WatchState σ) (d : Delivered) : WatchState σ :=
  if st.panicked then st
  else if d.event.Typ == EventType.PUT && buildKey.rmatch d.event.Key.data then
    match sliceFrom d.event.Key 16 with
    | none => { st with panicked := true }
    | some key =>
      match sliceTo key (Index key '/') with
      | none => { st with panicked := true }
      | some key =>
        match d.store.GetStoredConfig json d.answered key with
        | .error _ => st
        | .ok build =>
          if async then { st with spawned := st.spawned ++ [build] }
          else { st with world := handler build st.world }
  else st

/-- The `for { select { … } }` loop over the successive outcomes of the `select`. -/
def watchLoop {σ : Type} (json : Json) (handler : PublishedBuild → σ → σ) (async : Bool) :
    List Select → WatchState σ → WatchState σ
  | [], st => st
  | Select.done :: _, st => st
  | Select.response events :: rest, st =>
    watchLoop json handler async rest (events.foldl (watchEvent json handler async) st)

/-- Go `(*EtcdClient).WatchForBuild`, run on the outcomes of its `select` from the world `w`. -/
def WatchForBuild {σ : Type} (json : Json) (handler : PublishedBuild → σ → σ) (async : Bool)
    (steps : List Select) (w : σ) : WatchState σ :=
  watchLoop json handler async steps { world := w, spawned := [], panicked := false }

/-! ## `internal/webhooks.go`: the `/hook` handler -/

/-- What the handler reads of an `*http.Request`: the method, the outcome of
`io.ReadAll(request.Body)`, and `request.Header.Get`. -/
structure Request where
  Method : String
  Body : Except String String
  Header : String → String

/-- The end of a handler run: the status passed to `WriteHeader` (`none` while the handler
is suspended on a full channel and has written nothing) and the channel buffer. -/
structure HookResult where
  status : Option Nat
  channel : List PushPayload
deriving DecidableEq

/-- The send `channel <- v` on a channel made with capacity 100: completes when the buffer
has room; `none` is the suspended sender. -/
def chanSend (buffer : List PushPayload) (v : PushPayload) : Option (List PushPayload) :=
  if buffer.length < 100 then some (buffer ++ [v]) else none

/-- The closure `LaunchWebhookServer` registers for `/hook`, run on a request with the
channel buffer `channel`. -/
def hookHandler (json : Json) (allowedRefs : GoMap (List String)) (request : Request)
    (channel : List PushPayload) : HookResult :=
  if request.Method != "POST" then { status := some 405, channel := channel }
  else
    match request.Body with
    | .error _ => { status := some 500, channel := channel }
    | .ok body =>
      match json.unmarshalPush body with
      | .error _ => { status := some 500, channel := channel }
      | .ok payloadBody =>
        let repoValidRefs := allowedRefs.lookup payloadBody.Repository.FullName
        let allValidRefs := allowedRefs.lookup "*"
        if !repoValidRefs.isSome && !allValidRefs.isSome then
          { status := some 403, channel := channel }
        else if !(repoValidRefs.getD []).contains payloadBody.Ref &&
            !(allValidRefs.getD []).contains payloadBody.Ref then
          { status := some 403, channel := channel }
        else
          let githubEvent := request.Header "X-GitHub-Event"
          if githubEvent != "push" then { status := some 400, channel := channel }
          else
            match chanSend channel payloadBody with
            | none => { status := none, channel := channel }
            | some channel2 => { status := some 200, channel := channel2 }

/-! ## The docker engine, as `internal/runner.go` uses it -/

/-- Go `nat.PortBinding`. -/
structure PortBinding where
  HostIP : String
  HostPort : String
deriving DecidableEq

/-- The fields of `container.Config` that `RunContainer` fills; `ExposedPorts` and `Volumes`
are Go sets (`map[…]struct{}`). -/
structure ContainerConfig where
  AttachStdin : Bool
  AttachStdout : Bool
  AttachStderr : Bool
  ExposedPorts : GoMap Unit
  Volumes : GoMap Unit
  Cmd : List String
  Image : String
  Labels : GoMap String
deriving DecidableEq

/-- The fields of `container.HostConfig` that `RunContainer` fills. -/
structure HostConfig where
  Binds : List String
  PortBindings : GoMap (List PortBinding)
deriving DecidableEq

/-- The part of an image's `Config` that `RunContainer` reads. -/
structure ImageConfig where
  Cmd : List String
deriving DecidableEq

/-- The part of `types.ImageInspect` that `RunContainer` reads; `Config` may be nil. -/
structure ImageInspect where
  ID : String
  Config : Option ImageConfig
deriving DecidableEq

/-- Go `container.CreateResponse`. -/
structure CreateResponse where
  ID : String
  Warnings : List String
deriving DecidableEq

/-- A container as the engine lists it. -/
structure Container where
  ID : String
  State : String
  Labels : GoMap String
deriving DecidableEq

/-- A streamed response body read by a `bufio.Scanner`: the lines it yields, then the
value of `scanner.Err()`. -/
structure ResponseStream where
  lines : List String
  scanErr : Option String
deriving DecidableEq

/-- A request sent to the engine. -/
inductive DockerCall where
  | ContainerList (all : Bool) (labelFilters : List String)
  | ContainerStop (id : String) (timeout : Int)
  | ContainerRemove (id : String) (force : Bool)
  | ImageInspectWithRaw (ref : String)
  | ImagePull (ref : String) (registryAuth : String)
  | ContainerCreate (config : ContainerConfig) (hostConfig : HostConfig)
  | ContainerStart (id : String)
deriving DecidableEq

/-- How the engine answers during one run of `CleanupExistingContainers` or `RunContainer`:
whether a request fails, and what the image and create requests return. -/
structure Replies where
  listErr : Option String
  stopErr : String → Option String
  removeErr : String → Option String
  inspectFirst : Except String ImageInspect
  pull : Except String ResponseStream
  inspectSecond : Except String ImageInspect
  create : Except String CreateResponse
  startErr : Option String

/-- The engine behind `conn`: its containers, and the requests received so far. -/
structure Docker where
  containers : List Container
  calls : List DockerCall
deriving DecidableEq

/-- The engine's test for a filter `label=<f>`: `f` is `key=value` (split at the first `=`)
or a bare `key`. -/
def labelMatches (c : Container) (f : String) : Bool :=
  let key : String := ⟨f.data.takeWhile (fun x => x != '=')⟩
  match f.data.dropWhile (fun x => x != '=') with
  | [] => (c.Labels.lookup key).isSome
  | _ :: value => c.Labels.lookup key == some ⟨value⟩

/-- The request `conn.ContainerList` with `All` and `label` filters (all of them must match). -/
def Docker.ContainerList (d : Docker) (r : Replies) (all : Bool) (labelFilters : List String) :
    Docker × Except String (List Container) :=
  let d1 := { d with calls := d.calls ++ [DockerCall.ContainerList all labelFilters] }
  match r.listErr with
  | some e => (d1, .error e)
  | none =>
    (d1, .ok (d.containers.filter (fun c =>
      (all || c.State == "running") && labelFilters.all (labelMatches c))))

/-- The request `conn.ContainerStop`: on success the container is no longer running. -/
def Docker.ContainerStop (d : Docker) (r : Replies) (id : String) (timeout : Int) :
    Docker × Option String :=
  let calls := d.calls ++ [DockerCall.ContainerStop id timeout]
  match r.stopErr id with
  | some e => ({ d with calls := calls }, some e)
  | none =>
    ({ containers := d.containers.map (fun c => if c.ID = id then { c with State := "exited" } else c),
       calls := calls }, none)

/-- The request `conn.ContainerRemove`: on success the container is gone; without `Force` a running
container is refused. -/
def Docker.ContainerRemove (d : Docker) (r : Replies) (id : String) (force : Bool) :
    Docker × Option String :=
  let calls := d.calls ++ [DockerCall.ContainerRemove id force]
  match r.removeErr id with
  | some e => ({ d with calls := calls }, some e)
  | none =>
    if !force && d.containers.any (fun c => c.ID == id && c.State == "running") then
      ({ d with calls := calls }, some "container is running")
    else ({ containers := d.containers.filter (fun c => c.ID != id), calls := calls }, none)

/-- The request `conn.ImageInspectWithRaw`, answered by `reply`. -/
def Docker.ImageInspectWithRaw (d : Docker) (reply : Except String ImageInspect) (ref : String) :
    Docker × Except String ImageInspect :=
  ({ d with calls := d.calls ++ [DockerCall.ImageInspectWithRaw ref] }, reply)

/-- The request `conn.ImagePull`, answered by `reply`. -/
def Docker.ImagePull (d : Docker) (reply : Except String ResponseStream) (ref auth : String) :
    Docker × Except String ResponseStream :=
  ({ d with calls := d.calls ++ [DockerCall.ImagePull ref auth] }, reply)

/-- The request `conn.ContainerCreate`, answered by `reply`: on success the engine holds a new container
with the submitted labels. -/
def Docker.ContainerCreate (d : Docker) (reply : Except String CreateResponse)
    (config : ContainerConfig) (hostConfig : HostConfig) : Docker × Except String CreateResponse :=
  let calls := d.calls ++ [DockerCall.ContainerCreate config hostConfig]
  match reply with
  | .error e => ({ d with calls := calls }, .error e)
  | .ok created =>
    ({ containers := d.containers ++ [{ ID := created.ID, State := "created", Labels := config.Labels }],
       calls := calls }, .ok created)

/-- The request `conn.ContainerStart`: on success the container is running. -/
def Docker.ContainerStart (d : Docker) (r : Replies) (id : String) : Docker × Option String :=
  let calls := d.calls ++ [DockerCall.ContainerStart id]
  match r.startErr with
  | some e => ({ d with calls := calls }, some e)
  | none =>
    ({ containers := d.containers.map (fun c => if c.ID = id then { c with State := "running" } else c),
       calls := calls }, none)

/-! ## `internal/builder.go`: `ScanForDockerError` -/

/-- Go `ScanForDockerError`: the last line read is decoded as an `ErrorLine`. -/
def ScanForDockerError (json : Json) (reader : ResponseStream) : Option String :=
  let lastLine := reader.lines.foldl (fun _ line => line) ""
  match json.unmarshalErrorLine lastLine with
  | .error e => some ("failed to unmarshall the final line: " ++ e)
  | .ok errLine =>
    if errLine.Error != "" then some ("failed: " ++ errLine.Error)
    else
      match reader.scanErr with
      | some e => some ("failed to scan: " ++ e)
      | none => none

/-! ## `internal/runner.go` -/

/-- Go `ConvertToPorts`. -/
def ConvertToPorts (ports : GoMap Int) : GoMap Unit :=
  ports.entries.foldl (fun result kv => result.set kv.1 ()) GoMap.empty

/-- The body of `for _, t := range containers` in `CleanupExistingContainers`, over the
containers still to handle. -/
def cleanupLoop (r : Replies) : List Container → Docker → Docker × Option String
  | [], d => (d, none)
  | t :: rest, d =>
    let stopped : Docker × Option String :=
      if t.State == "running" || t.State == "restarting" then
        match d.ContainerStop r t.ID 60 with
        | (d1, some e) => (d1, some ("failed to stop container " ++ t.ID ++ ": " ++ e))
        | (d1, none) => (d1, none)
      else (d, none)
    match stopped with
    | (d1, some e) => (d1, some e)
    | (d1, none) =>
      match d1.ContainerRemove r t.ID true with
      | (d2, some e) => (d2, some ("faield to remove container " ++ t.ID ++ ": " ++ e))
      | (d2, none) => cleanupLoop r rest d2

/-- Go `CleanupExistingContainers(name, conn)`. -/
def Docker.CleanupExistingContainers (d : Docker) (r : Replies) (name : String) :
    Docker × Option String :=
  match d.ContainerList r true ["echo-project=" ++ name, "managed-by=echocicd"] with
  | (d1, .error e) => (d1, some ("failed to list containers with filters: " ++ e))
  | (d1, .ok containers) => cleanupLoop r containers d1

/-- Lines 78–95 of `RunContainer`: the image is inspected locally and pulled when that
fails. -/
def Docker.resolveImage (d : Docker) (r : Replies) (json : Json) (build : PublishedBuild)
    (auth : String) : Docker × Except String ImageInspect :=
  match d.ImageInspectWithRaw r.inspectFirst build.Tag with
  | (d1, .ok img) => (d1, .ok img)
  | (d1, .error _) =>
    match d1.ImagePull r.pull build.Tag auth with
    | (d2, .error e) => (d2, .error ("failed to pull docker image: " ++ e))
    | (d2, .ok response) =>
      match ScanForDockerError json response with
      | some e => (d2, .error ("failed to pull docker image: " ++ e))
      | none =>
        match d2.ImageInspectWithRaw r.inspectSecond build.Tag with
        | (d3, .error e) => (d3, .error ("could not inspect container: " ++ e))
        | (d3, .ok img) => (d3, .ok img)

/-- Lines 101–141 of `RunContainer`: the two configurations passed to `ContainerCreate`
for an image with id `imgID` and default command `imgCmd`. -/
def createRequest (build : PublishedBuild) (imgID : String) (imgCmd : List String) :
    ContainerConfig × HostConfig :=
  let command := imgCmd ++ build.Exec.Args
  let binds := build.Exec.Volumes.foldl (fun binds volume =>
    let bind := volume.Host ++ ":" ++ volume.BindTo
    let bind := if volume.ReadOnly then bind ++ ":ro" else bind
    binds ++ [bind]) []
  let ports : GoMap (List PortBinding) := build.Exec.Ports.entries.foldl (fun ports kv =>
    ports.set kv.1 [{ HostIP := "0.0.0.0", HostPort := Itoa kv.2 }]) GoMap.empty
  let labels : GoMap String :=
    GoMap.ofList [("managed-by", "echocicd"), ("echo-project", build.Name)]
  let labels :=
    match build.Exec.Domain with
    | some domain => labels.set ("domain:" ++ domain.Host) (Itoa domain.Port)
    | none => labels
  ({ AttachStdin := false, AttachStdout := false, AttachStderr := false,
     ExposedPorts := ConvertToPorts build.Exec.Ports, Volumes := GoMap.empty,
     Cmd := command, Image := imgID, Labels := labels },
   { Binds := binds, PortBindings := ports })

/-- Go `RunContainer(build, conn, registryAuths)`: the engine afterwards, and the container id
or the error. -/
def Docker.RunContainer (d : Docker) (r : Replies) (json : Json) (build : PublishedBuild)
    (registryAuths : GoMap String) : Docker × Except String String :=
  let auth :=
    match registryAuths.lookup build.Registry with
    | some v => v
    | none => ""
  match d.resolveImage r json build auth with
  | (d1, .error e) => (d1, .error e)
  | (d1, .ok img) =>
    match img.Config with
    | none => (d1, .error "image has no config, cannot determine a start command")
    | some imgConfig =>
      match d1.ContainerCreate r.create (createRequest build img.ID imgConfig.Cmd).1
          (createRequest build img.ID imgConfig.Cmd).2 with
      | (d2, .error e) => (d2, .error ("failed to create the container: " ++ e))
      | (d2, .ok create) =>
        if create.Warnings.length > 0 then
          (d2, .error ("received warnings while creating container: [" ++
            " ".intercalate create.Warnings ++ "]"))
        else
          match d2.ContainerStart r create.ID with
          | (d3, some e) => (d3, .error ("failed to start created container: " ++ e))
          | (d3, none) => (d3, .ok create.ID)

/-! ## `internal/agent.go` -/

/-- The handler `LaunchAgent` passes to `WatchForBuild`; `engine` gives the engine's answers
for a run started in a given engine state. -/
def agentHandler (json : Json) (engine : Docker → Replies) (registryAuth : GoMap String)
    (config : PublishedBuild) (conn : Docker) : Docker :=
  match conn.CleanupExistingContainers (engine conn) config.Name with
  | (d1, some _) => d1
  | (d1, none) => (d1.RunContainer (engine d1) json config registryAuth).1

/-- Go `LaunchAgent`: the watch in synchronous mode with `agentHandler`. -/
def LaunchAgent (json : Json) (engine : Docker → Replies) (registryAuth : GoMap String)
    (steps : List Select) (conn : Docker) : WatchState Docker :=
  WatchForBuild json (agentHandler json engine registryAuth) false steps conn

/-! ## Definitions used to state the claims

These follow the wording of the specification, not the source; the theorems compare them
with the embedded code. -/

/-- The six entries `GetStoredConfig` requires under `echocicd/builds/<key>`. -/
def requiredFields : List String := ["/name", "/version", "/timestamp", "/tag", "/registry", "/exec"]

/-- The seven entries a publish writes, in source order (`j` is the serialised exec spec). -/
def publishedEntries (repo name hash tag registry j : String) (now : Int) : List (String × String) :=
  [("echocicd/builds/" ++ ReplaceAll repo "/" "__" ++ "/name", name),
   ("echocicd/builds/" ++ ReplaceAll repo "/" "__" ++ "/version", hash),
   ("echocicd/builds/" ++ ReplaceAll repo "/" "__" ++ "/repo", repo),
   ("echocicd/builds/" ++ ReplaceAll repo "/" "__" ++ "/timestamp", FormatInt now),
   ("echocicd/builds/" ++ ReplaceAll repo "/" "__" ++ "/tag", tag),
   ("echocicd/builds/" ++ ReplaceAll repo "/" "__" ++ "/registry", registry),
   ("echocicd/builds/" ++ ReplaceAll repo "/" "__" ++ "/exec", j)]

/-- The project key `k` of a key of the form `echocicd/builds/<k>/exec` with `k` non-empty
and free of `/`, if the key has that form. -/
def execEntryProject (key : String) : Option String :=
  let k := (key.data.drop 16).take (key.data.length - 21)
  if key.data = "echocicd/builds/".data ++ k ++ "/exec".data ∧ k ≠ [] ∧ '/' ∉ k then some ⟨k⟩
  else none

/-- The artifact an event announces: the event is a write on `echocicd/builds/<k>/exec`
and the fetch for `k` succeeds. -/
def notification (json : Json) (d : Delivered) : Option PublishedBuild :=
  if d.event.Typ = EventType.PUT then
    match execEntryProject d.event.Key with
    | some k =>
      match d.store.GetStoredConfig json d.answered k with
      | .ok build => some build
      | .error _ => none
    | none => none
  else none

/-- The ref is a member of the list stored under the repository's full name, or of the
list stored under `*`. -/
def RefAllowed (allowedRefs : GoMap (List String)) (repo ref : String) : Prop :=
  (∃ l, allowedRefs.lookup repo = some l ∧ ref ∈ l) ∨
  (∃ l, allowedRefs.lookup "*" = some l ∧ ref ∈ l)

/-- The requests `CleanupExistingContainers` sends for the listed containers when none of
them fails: a stop with timeout 60 for a running or restarting container, then a forced
remove, container by container. -/
def cleanupCalls (containers : List Container) : List DockerCall :=
  containers.flatMap (fun t =>
    (if t.State == "running" || t.State == "restarting" then [DockerCall.ContainerStop t.ID 60]
     else []) ++ [DockerCall.ContainerRemove t.ID true])

/-- The container carries both labels `echo-project=<name>` and `managed-by=echocicd`. -/
def Owned (name : String) (c : Container) : Prop :=
  c.Labels.lookup "echo-project" = some name ∧ c.Labels.lookup "managed-by" = some "echocicd"

instance (name : String) : DecidablePred (Owned name) := fun c => by
  unfold Owned; exact inferInstance

/-- A request that `CleanupExistingContainers` can send: list, stop or remove. -/
def DockerCall.isCleanupRequest : DockerCall → Bool
  | .ContainerList _ _ => true
  | .ContainerStop _ _ => true
  | .ContainerRemove _ _ => true
  | _ => false

/-- A request that `RunContainer` can send: image inspect, image pull, create or start. -/
def DockerCall.isRunRequest : DockerCall → Bool
  | .ImageInspectWithRaw _ => true
  | .ImagePull _ _ => true
  | .ContainerCreate _ _ => true
  | .ContainerStart _ => true
  | _ => false

/-- A value that a field of Go type `string` accepts: a string or `null`. -/
def JsonValue.isStringOrNull : JsonValue → Bool
  | .null => true
  | .string _ => true
  | _ => false

/-- A member of an `errorDetail` object is well typed: when it is named `message`, its
value is a string or `null`. -/
def detailMemberFits (member : String × JsonValue) : Bool :=
  !fieldMatches "message" member.1 || member.2.isStringOrNull

/-- A member of a status line is well typed: when it is named `error`, its value is a
string or `null`; when it is named `errorDetail`, its value is `null` or an object with
well-typed members; a member with any other name is. -/
def memberFits (member : String × JsonValue) : Bool :=
  if fieldMatches "error" member.1 then member.2.isStringOrNull
  else if fieldMatches "errorDetail" member.1 then
    match member.2 with
    | .null => true
    | .object members => members.all detailMemberFits
    | _ => false
  else true

/-- The strings held by the members named `error`, in order. -/
def errorStrings (members : List (String × JsonValue)) : List String :=
  members.filterMap (fun member =>
    if fieldMatches "error" member.1 then
      match member.2 with
      | .string s => some s
      | _ => none
    else none)

/-- The `error` field of an object: the string of its last member named `error` that
holds a string, the empty string when there is none. -/
def errorField (members : List (String × JsonValue)) : String :=
  (errorStrings members).getLastD ""

/-- The text is a JSON object. -/
def isJsonObject (line : String) : Bool :=
  match checkValid line.data with
  | .ok (.object _) => true
  | _ => false

/-- The final lines that are reported as a failure: a text that is not JSON, a JSON value
other than `null` and an object, an object with a member that is not well typed, and an
object whose `error` field is not empty. -/
def reportedAsFailure (line : String) : Bool :=
  match checkValid line.data with
  | .error _ => true
  | .ok .null => false
  | .ok (.object members) => !members.all memberFits || errorField members != ""
  | .ok _ => true

/-! ## Concrete values used to instantiate the theorems -/

/-- An exec spec: one extra argument, one port, one read-only volume, a domain hint. -/
def sampleExec : ExecProperties :=
  { Args := ["--verbose"], Ports := GoMap.ofList [("80/tcp", 8080)],
    Volumes := [{ ReadOnly := true, Host := "/srv/data", BindTo := "/data", Mode := "" }],
    Domain := some { Port := 8080, Host := "app.example.org" } }

/-- What `json.Marshal` gives for `sampleExec`. -/
def sampleExecBlob : String :=
  "\x7b\"args\":[\"--verbose\"],\"ports\":\x7b\"80/tcp\":8080\x7d,\"volumes\":[\x7b\"ReadOnly\":true,\"Host\":\"/srv/data\",\"BindTo\":\"/data\",\"Mode\":\"\"\x7d],\"domain\":\x7b\"port\":8080,\"host\":\"app.example.org\"\x7d\x7d"

/-- A push body. -/
def samplePushBody : String :=
  "\x7b\"repository\":\x7b\"clone_url\":\"https://example.org/org/app.git\",\"full_name\":\"org/app\"\x7d,\"ref\":\"refs/heads/main\"\x7d"

/-- The payload `samplePushBody` decodes to. -/
def samplePush : PushPayload :=
  { Repository := { CloneUrl := "https://example.org/org/app.git", FullName := "org/app" },
    Ref := "refs/heads/main" }

/-- A finite excerpt of `encoding/json`: its results on the sample values above, and a
syntax error on the inputs `""` and `"not json"`; used only to instantiate theorems that
hold for every codec. -/
def sampleJson : Json where
  marshalExec e := if e = sampleExec then .ok sampleExecBlob else .error "not tabulated"
  unmarshalExec s := if s = sampleExecBlob then .ok sampleExec else .error "invalid character"
  unmarshalPush s := if s = samplePushBody then .ok samplePush else .error "invalid character"
  unmarshalErrorLine s :=
    if s = "\x7b\"error\":\"denied\"\x7d" then .ok { Error := "denied", ErrorDetail := { Message := "" } }
    else if s = "\x7b\"status\":\"done\"\x7d" then .ok { Error := "", ErrorDetail := { Message := "" } }
    else .error "unexpected end of JSON input"

/-- An empty store with no request sent yet. -/
def emptyClient : EtcdClient := { kvs := GoMap.empty, puts := [] }

/-- The store after a complete publish of `org/app` into the empty store. -/
def publishedClient : EtcdClient :=
  (emptyClient.WriteBuildInfo sampleJson (fun _ => true) 1700000000123
    "org/app" "app" "abc" "app:abc" "registry.example.org" sampleExec).1

/-- A watch response: the write of the exec entry of `org__app` seen on the published
store, a delete of that entry, a write of another field, a write of an exec entry two
levels down, and the write of an exec entry seen while the store is still empty. -/
def sampleEvents : List Delivered :=
  [{ event := { Typ := EventType.PUT, Key := "echocicd/builds/org__app/exec", Value := sampleExecBlob },
     store := publishedClient, answered := true },
   { event := { Typ := EventType.DELETE, Key := "echocicd/builds/org__app/exec", Value := "" },
     store := publishedClient, answered := true },
   { event := { Typ := EventType.PUT, Key := "echocicd/builds/org__app/name", Value := "app" },
     store := publishedClient, answered := true },
   { event := { Typ := EventType.PUT, Key := "echocicd/builds/org/app/exec", Value := sampleExecBlob },
     store := publishedClient, answered := true },
   { event := { Typ := EventType.PUT, Key := "echocicd/builds/org__app/exec", Value := sampleExecBlob },
     store := emptyClient, answered := true }]

/-- The allow-list with the one entry `org/app ↦ [refs/heads/main]`. -/
def sampleAllowedRefs : GoMap (List String) := GoMap.ofList [("org/app", ["refs/heads/main"])]

/-- A push request carrying `samplePushBody`. -/
def sampleRequest : Request :=
  { Method := "POST", Body := .ok samplePushBody,
    Header := fun h => if h = "X-GitHub-Event" then "push" else "" }

/-- A push request whose body is not JSON. -/
def notJsonRequest : Request :=
  { Method := "POST", Body := .ok "not json",
    Header := fun h => if h = "X-GitHub-Event" then "push" else "" }

/-- An engine that answers every request, finds the image and creates container `c1`. -/
def sampleReplies : Replies :=
  { listErr := none, stopErr := fun _ => none, removeErr := fun _ => none,
    inspectFirst := .ok { ID := "sha256:1", Config := some { Cmd := ["/bin/app"] } },
    pull := .error "not needed", inspectSecond := .error "not needed",
    create := .ok { ID := "c1", Warnings := [] }, startErr := none }

/-- An engine that refuses to stop container `a` and answers every other request. -/
def stopFailsReplies : Replies :=
  { sampleReplies with stopErr := fun id => if id = "a" then some "timeout" else none }

/-- An engine with a running container of project `org__app`, a stopped one, and a
container of another project. -/
def sampleDocker : Docker :=
  { containers :=
      [{ ID := "a", State := "running",
         Labels := GoMap.ofList [("managed-by", "echocicd"), ("echo-project", "org__app")] },
       { ID := "b", State := "exited",
         Labels := GoMap.ofList [("managed-by", "echocicd"), ("echo-project", "org__app")] },
       { ID := "c", State := "running",
         Labels := GoMap.ofList [("managed-by", "echocicd"), ("echo-project", "other")] }],
    calls := [] }

/-- A published build of `org__app` with the sample exec spec. -/
def sampleBuild : PublishedBuild :=
  { Name := "org__app", Version := "abc", Timestamp := 1700000000123,
    Tag := "registry.example.org/app:abc", Registry := "registry.example.org",
    Exec := sampleExec }

/-- An engine with no container and no request received. -/
def emptyDocker : Docker := { containers := [], calls := [] }

/-- An auth table with a token for `registry.example.org`. -/
def sampleAuths : GoMap String := GoMap.ofList [("registry.example.org", "token")]

/-- A pull response whose first line reports an error and whose final line does not. -/
def donePullStream : ResponseStream :=
  { lines := ["\x7b\"error\":\"denied\"\x7d", "\x7b\"status\":\"done\"\x7d"], scanErr := none }

/-- An engine that does not find the image at first, answers the pull with `donePullStream`,
then finds the image. -/
def pullReplies : Replies :=
  { sampleReplies with
    inspectFirst := .error "No such image"
    pull := .ok donePullStream
    inspectSecond := .ok { ID := "sha256:1", Config := some { Cmd := ["/bin/app"] } } }

/-- An engine whose create answer carries a warning. -/
def warningReplies : Replies :=
  { sampleReplies with create := .ok { ID := "c1", Warnings := ["no swap limit support"] } }

/-- An engine that fails the list request. -/
def listFailsReplies : Replies :=
  { sampleReplies with listErr := some "daemon unreachable" }

/-- The agent, on an empty engine that answers with `sampleReplies`, run on the watch
response `sampleEvents` (repository `org/app` published under the name `app`). -/
def sampleAgentRun : WatchState Docker :=
  LaunchAgent sampleJson (fun _ => sampleReplies) sampleAuths
    ([sampleEvents].map Select.response ++ [Select.done]) emptyDocker

/-- The codec `sampleJson` with status lines decoded as `encoding/json` does. -/
def statusLineJson : Json := { sampleJson with unmarshalErrorLine := UnmarshalErrorLine }

/-! # Lemmas -/

/-! ## Lemmas: maps and strings -/

theorem List.lookup_filter_ne {V : Type} (l : List (String × V)) (k k' : String) (h : k' ≠ k) :
    (l.filter (fun e => e.1 != k)).lookup k' = l.lookup k' := by
  induction l with
  | nil => rfl
  | cons e t ih =>
    obtain ⟨a, b⟩ := e
    by_cases hak : a = k
    · subst hak
      have : (k' == a) = false := by simpa using h
      simp [List.filter_cons, List.lookup_cons, ih, this]
    · by_cases hk' : k' = a
      · subst hk'
        simp [List.filter_cons, List.lookup_cons, hak]
      · have : (k' == a) = false := by simpa using hk'
        simp [List.filter_cons, List.lookup_cons, hak, ih, this]

theorem GoMap.lookup_set {V : Type} (m : GoMap V) (k : String) (v : V) (k' : String) :
    (m.set k v).lookup k' = if k' = k then some v else m.lookup k' := by
  unfold GoMap.set GoMap.lookup
  by_cases h : k' = k
  · subst h; simp [List.lookup_cons]
  · have : (k' == k) = false := by simpa using h
    simp [List.lookup_cons, this, h, List.lookup_filter_ne _ _ _ h]

theorem GoMap.lookup_empty {V : Type} (k : String) : (GoMap.empty : GoMap V).lookup k = none := rfl

theorem List.lookup_eq_none_of_not_mem_keys {V : Type} (l : List (String × V)) (k : String)
    (h : k ∉ l.map Prod.fst) : l.lookup k = none := by
  induction l with
  | nil => rfl
  | cons e t ih =>
    obtain ⟨a, b⟩ := e
    simp only [List.map_cons, List.mem_cons, not_or] at h
    have : (k == a) = false := by simpa using h.1
    simp [List.lookup_cons, this, ih h.2]

/-- Rebuilding a Go map from a duplicate-free list of entries reads like the list. -/
theorem GoMap.lookup_foldl_set {V : Type} (l : List (String × V)) (hl : (l.map Prod.fst).Nodup)
    (m : GoMap V) (k : String) :
    (l.foldl (fun m kv => m.set kv.1 kv.2) m).lookup k =
      match l.lookup k with
      | some v => some v
      | none => m.lookup k := by
  induction l generalizing m with
  | nil => rfl
  | cons e t ih =>
    obtain ⟨a, b⟩ := e
    rw [List.map_cons, List.nodup_cons] at hl
    rw [List.foldl_cons, ih hl.2]
    by_cases hk : k = a
    · subst hk
      simp [List.lookup_cons, List.lookup_eq_none_of_not_mem_keys t k hl.1, GoMap.lookup_set]
    · have : (k == a) = false := by simpa using hk
      simp [List.lookup_cons, this, GoMap.lookup_set, hk]

theorem List.lookup_filter_key {V : Type} (l : List (String × V)) (P : String → Bool) (k : String)
    (hk : P k = true) : (l.filter (fun e => P e.1)).lookup k = l.lookup k := by
  induction l with
  | nil => rfl
  | cons e t ih =>
    obtain ⟨a, b⟩ := e
    by_cases hak : k = a
    · subst hak; simp [List.filter_cons, hk, List.lookup_cons]
    · have h2 : (k == a) = false := by simpa using hak
      by_cases hp : P a = true
      · simp [List.filter_cons, hp, List.lookup_cons, h2, ih]
      · simp [List.filter_cons, hp, List.lookup_cons, h2, ih]

theorem String.append_left_cancel_iff (p a b : String) : p ++ a = p ++ b ↔ a = b := by
  constructor
  · intro h
    have h2 := congrArg String.data h
    simp only [String.data_append] at h2
    exact String.ext (List.append_cancel_left h2)
  · intro h; rw [h]

theorem isPrefixOf_append (p s : String) : p.data.isPrefixOf (p ++ s).data = true := by
  rw [List.isPrefixOf_iff_prefix, String.data_append]
  exact List.prefix_append _ _

/-- What `GetStoredConfig` reads at a key under its prefix is what the store holds there. -/
theorem keyMap_lookup (c : EtcdClient) (build sfx : String) :
    ((c.kvs.entries.filter (fun e => ("echocicd/builds/" ++ build).data.isPrefixOf e.1.data)).foldl
        (fun m kv => m.set kv.1 kv.2) (GoMap.empty : GoMap String)).lookup
      ("echocicd/builds/" ++ build ++ sfx) = c.kvs.lookup ("echocicd/builds/" ++ build ++ sfx) := by
  rw [GoMap.lookup_foldl_set _ (c.kvs.nodup.sublist ((List.filter_sublist _).map _))]
  rw [List.lookup_filter_key c.kvs.entries
    (fun key => ("echocicd/builds/" ++ build).data.isPrefixOf key.data) _ (isPrefixOf_append _ _)]
  unfold GoMap.lookup
  cases List.lookup ("echocicd/builds/" ++ build ++ sfx) c.kvs.entries <;> rfl

/-! ## Lemmas: decimal rendering and parsing -/

theorem digitVal_digitChar (d : Nat) (h : d < 10) : digitVal (digitChar d) = some d := by
  interval_cases d <;> rfl

theorem parseUintAux_append (xs ys : List Char) (a : Nat) :
    parseUintAux (xs ++ ys) a = (parseUintAux xs a).bind (fun b => parseUintAux ys b) := by
  induction xs generalizing a with
  | nil => rfl
  | cons c t ih =>
    simp only [List.cons_append, parseUintAux]
    cases digitVal c with
    | none => rfl
    | some d => exact ih _

/-- The digits produced for `n` are a non-empty block of digit runes put in front of the
accumulator, and reading them back continues a parse by `n`. -/
theorem natDigitsAux_spec (fuel n : Nat) (h : n < fuel) (acc : List Char) :
    ∃ ds : List Char, natDigitsAux fuel n acc = ds ++ acc ∧ ds ≠ [] ∧
      (∀ c ∈ ds, digitVal c ≠ none) ∧
      ∀ a, parseUintAux ds a = some (a * 10 ^ ds.length + n) := by
  induction fuel generalizing n acc with
  | zero => omega
  | succ f ih =>
    unfold natDigitsAux
    by_cases h10 : n < 10
    · refine ⟨[digitChar n], by simp [h10], by simp, ?_, ?_⟩
      · intro c hc
        simp only [List.mem_singleton] at hc
        subst hc
        simp [digitVal_digitChar n h10]
      · intro a
        simp [parseUintAux, digitVal_digitChar n h10]
    · have hlt : n / 10 < f := by omega
      obtain ⟨ds, h1, h2, h3, h4⟩ := ih (n / 10) hlt (digitChar (n % 10) :: acc)
      have hm : n % 10 < 10 := Nat.mod_lt _ (by decide)
      refine ⟨ds ++ [digitChar (n % 10)], by simp [h10, h1], by simp, ?_, ?_⟩
      · intro c hc
        rcases List.mem_append.mp hc with hc | hc
        · exact h3 c hc
        · simp only [List.mem_singleton] at hc
          subst hc
          simp [digitVal_digitChar _ hm]
      · intro a
        rw [parseUintAux_append, h4]
        simp only [Option.bind, parseUintAux, digitVal_digitChar _ hm, List.length_append,
          List.length_singleton]
        congr 1
        have := Nat.div_add_mod n 10
        rw [pow_succ]
        nlinarith [this]

theorem formatNat_spec (n : Nat) :
    ∃ c cs, formatNat n = c :: cs ∧ digitVal c ≠ none ∧ parseUintAux (c :: cs) 0 = some n := by
  obtain ⟨ds, h1, h2, h3, h4⟩ := natDigitsAux_spec (n + 1) n (Nat.lt_succ_self n) []
  cases ds with
  | nil => exact absurd rfl h2
  | cons c cs =>
    refine ⟨c, cs, by simpa [formatNat] using h1, h3 c (List.mem_cons_self _ _), ?_⟩
    simpa using h4 0

theorem digit_ne_sign (c : Char) (h : digitVal c ≠ none) : (c == '+') = false ∧ (c == '-') = false := by
  unfold digitVal at h
  split at h
  · rename_i hc
    constructor
    · rw [beq_eq_false_iff_ne]; rintro rfl; revert hc; decide
    · rw [beq_eq_false_iff_ne]; rintro rfl; revert hc; decide
  · exact absurd rfl h

/-- Round trip: `ParseInt(FormatInt(i, 10), 10, 64)` gives `i` back for every `int64` value. -/
theorem ParseInt_FormatInt (i : Int) (hlo : -2 ^ 63 ≤ i) (hhi : i < 2 ^ 63) :
    ParseInt (FormatInt i) = some i := by
  cases i with
  | ofNat n =>
    obtain ⟨c, cs, h1, h2, h3⟩ := formatNat_spec n
    obtain ⟨hp, hm⟩ := digit_ne_sign c h2
    have hn : ¬ (n ≥ 2 ^ 63) := by
      have : (n : Int) < 2 ^ 63 := hhi
      omega
    have hn2 : n < 9223372036854775808 := by norm_num at hn; omega
    simp [ParseInt, FormatInt, h1, hp, hm, ParseUint, h3, hn2]
  | negSucc n =>
    obtain ⟨c, cs, h1, h2, h3⟩ := formatNat_spec (n + 1)
    have hn : ¬ (n + 1 > 2 ^ 63) := by
      have : -2 ^ 63 ≤ Int.negSucc n := hlo
      rw [Int.negSucc_eq] at this
      omega
    have hn2 : n ≤ 9223372036854775807 := by norm_num at hn; omega
    simp [ParseInt, FormatInt, h1, ParseUint, h3, hn2, Int.negSucc_eq]

/-! ## Lemmas: the build event store -/

/-- Unfolding of `GetStoredConfig` against a store that answers, with the key map replaced by the store. -/
theorem GetStoredConfig_unfold (json : Json) (c : EtcdClient) (build : String) :
    c.GetStoredConfig json true build =
      match c.kvs.lookup ("echocicd/builds/" ++ build ++ "/name") with
      | none => .error "failed to find build name"
      | some name =>
      match c.kvs.lookup ("echocicd/builds/" ++ build ++ "/version") with
      | none => .error "failed to find build version"
      | some version =>
      match c.kvs.lookup ("echocicd/builds/" ++ build ++ "/timestamp") with
      | none => .error "failed to find build timestamp"
      | some timestamp =>
      match ParseInt timestamp with
      | none => .error ("failed to parse timestamp " ++ timestamp)
      | some t =>
      match c.kvs.lookup ("echocicd/builds/" ++ build ++ "/tag") with
      | none => .error "failed to find build tag"
      | some tag =>
      match c.kvs.lookup ("echocicd/builds/" ++ build ++ "/registry") with
      | none => .error "failed to find build registry"
      | some registry =>
      match c.kvs.lookup ("echocicd/builds/" ++ build ++ "/exec") with
      | none => .error "failed to find build exec"
      | some execRaw =>
      match json.unmarshalExec execRaw with
      | .error e => .error ("failed to parse exec config: " ++ e)
      | .ok execConfig =>
        .ok { Name := name, Version := version, Timestamp := t, Tag := tag,
              Registry := registry, Exec := execConfig } := by
  simp only [EtcdClient.GetStoredConfig, EtcdClient.Get, if_true, keyMap_lookup]

/-- Success of `GetStoredConfig`, entry by entry. -/
theorem GetStoredConfig_eq_ok_iff (json : Json) (c : EtcdClient) (k : String) (b : PublishedBuild) :
    c.GetStoredConfig json true k = .ok b ↔
      ∃ name version ts t tag registry raw e,
        c.kvs.lookup ("echocicd/builds/" ++ k ++ "/name") = some name ∧
        c.kvs.lookup ("echocicd/builds/" ++ k ++ "/version") = some version ∧
        c.kvs.lookup ("echocicd/builds/" ++ k ++ "/timestamp") = some ts ∧
        ParseInt ts = some t ∧
        c.kvs.lookup ("echocicd/builds/" ++ k ++ "/tag") = some tag ∧
        c.kvs.lookup ("echocicd/builds/" ++ k ++ "/registry") = some registry ∧
        c.kvs.lookup ("echocicd/builds/" ++ k ++ "/exec") = some raw ∧
        json.unmarshalExec raw = .ok e ∧
        b = { Name := name, Version := version, Timestamp := t, Tag := tag,
              Registry := registry, Exec := e } := by
  rw [GetStoredConfig_unfold]
  constructor
  · intro h
    repeat' (split at h <;> try contradiction)
    rename_i _ name h1 _ version h2 _ ts h3 _ t h4 _ tag h5 _ registry h6 _ raw h7 _ e h8
    injection h with h
    exact ⟨name, version, ts, t, tag, registry, raw, e, h1, h2, h3, h4, h5, h6, h7, h8, h.symm⟩
  · rintro ⟨name, version, ts, t, tag, registry, raw, e, h1, h2, h3, h4, h5, h6, h7, h8, rfl⟩
    simp only [h1, h2, h3, h4, h5, h6, h7, h8]

theorem Except.isOk_iff_exists {ε α : Type} (r : Except ε α) : r.isOk = true ↔ ∃ a, r = .ok a := by
  cases r <;> simp [Except.isOk, Except.toBool]

theorem Except.isOk_eq_false_iff {ε α : Type} (r : Except ε α) :
    r.isOk = false ↔ ∀ a, r ≠ .ok a := by
  cases r <;> simp [Except.isOk, Except.toBool]

theorem Put_puts (c : EtcdClient) (a : Bool) (k v : String) :
    (c.Put a k v).1.puts = c.puts ++ [(k, v)] := by
  unfold EtcdClient.Put; cases a <;> rfl

theorem Put_lookup (c : EtcdClient) (a : Bool) (k v k2 : String) :
    (c.Put a k v).1.kvs.lookup k2 = if a = true ∧ k2 = k then some v else c.kvs.lookup k2 := by
  unfold EtcdClient.Put
  cases a
  · simp
  · simp [GoMap.lookup_set]

theorem Put_err_isSome (c : EtcdClient) (a : Bool) (k v : String) :
    (CollapseToErr (c.Put a k v)).isSome = !a := by
  unfold EtcdClient.Put CollapseToErr; cases a <;> rfl

theorem errorsJoin_isSome (errs : List (Option String)) :
    (errorsJoin errs).isSome = errs.any Option.isSome := by
  unfold errorsJoin
  induction errs with
  | nil => rfl
  | cons e t ih =>
    cases e with
    | none => simpa [List.filterMap_cons] using ih
    | some x => simp [List.filterMap_cons]

theorem key_eq_iff (p a b : String) : (p ++ a = p ++ b) ↔ a = b :=
  String.append_left_cancel_iff p a b

theorem exists_lt_seven (p : Nat → Prop) :
    (∃ i, i < 7 ∧ p i) ↔ p 0 ∨ p 1 ∨ p 2 ∨ p 3 ∨ p 4 ∨ p 5 ∨ p 6 := by
  constructor
  · rintro ⟨i, hi, h⟩
    interval_cases i <;> simp [h]
  · rintro (h | h | h | h | h | h | h)
    exacts [⟨0, by decide, h⟩, ⟨1, by decide, h⟩, ⟨2, by decide, h⟩, ⟨3, by decide, h⟩,
      ⟨4, by decide, h⟩, ⟨5, by decide, h⟩, ⟨6, by decide, h⟩]

/-- With the exec spec serialised, the error of `WriteBuildInfo` is non-nil exactly when a
write failed. -/
theorem WriteBuildInfo_err_isSome (json : Json) (putOk : Nat → Bool) (now : Int)
    (c : EtcdClient) (repo name hash tag registry : String) (config : ExecProperties)
    (j : String) (hj : json.marshalExec config = .ok j) :
    (c.WriteBuildInfo json putOk now repo name hash tag registry config).2.isSome = true ↔
      ∃ i, i < 7 ∧ putOk i = false := by
  rw [exists_lt_seven]
  simp [EtcdClient.WriteBuildInfo, hj, errorsJoin_isSome, Put_err_isSome]

/-! ## Lemmas: the regular-expression matcher -/

namespace Regex

theorem nullable_iff (r : Regex) : r.nullable = true ↔ r.Matches [] := by
  induction r with
  | zero => simp [nullable, Matches]
  | one => simp [nullable, Matches]
  | cls p => simp [nullable, Matches]
  | alt a b iha ihb => simp [nullable, Matches, iha, ihb]
  | seq a b iha ihb =>
    simp only [nullable, Matches, Bool.and_eq_true, iha, ihb]
    constructor
    · rintro ⟨h1, h2⟩; exact ⟨[], [], rfl, h1, h2⟩
    · rintro ⟨t, u, h, h1, h2⟩
      obtain ⟨rfl, rfl⟩ := List.append_eq_nil.mp h.symm
      exact ⟨h1, h2⟩
  | star a _ =>
    simp only [nullable, Matches, true_iff]
    exact ⟨[], rfl, by simp⟩

theorem star_cons_split (a : Regex) (c : Char) (x : List Char) (S : List (List Char))
    (hS : c :: x = S.flatten) (ha : ∀ t ∈ S, a.Matches t) :
    ∃ t u, x = t ++ u ∧ a.Matches (c :: t) ∧ (star a).Matches u := by
  induction S with
  | nil => simp at hS
  | cons s S ih =>
    cases s with
    | nil =>
      exact ih (by simpa using hS) (fun t ht => ha t (List.mem_cons_of_mem _ ht))
    | cons c2 t =>
      simp only [List.flatten_cons, List.cons_append, List.cons.injEq] at hS
      obtain ⟨rfl, rfl⟩ := hS
      exact ⟨t, S.flatten, rfl, ha _ (List.mem_cons_self _ _),
        S, rfl, fun t ht => ha t (List.mem_cons_of_mem _ ht)⟩

theorem deriv_iff (r : Regex) (c : Char) (x : List Char) :
    (r.deriv c).Matches x ↔ r.Matches (c :: x) := by
  induction r generalizing x with
  | zero => simp [deriv, Matches]
  | one => simp [deriv, Matches]
  | cls p =>
    by_cases hp : p c = true
    · simp only [deriv, hp, if_true, Matches]
      constructor
      · rintro rfl; exact ⟨c, hp, rfl⟩
      · rintro ⟨c2, -, h⟩; simpa using (List.cons.inj h).2
    · simp only [deriv, hp, Matches, false_iff]
      rintro ⟨c2, h2, h⟩
      simp only [List.cons.injEq] at h
      exact hp (h.1 ▸ h2)
  | alt a b iha ihb => simp [deriv, Matches, iha, ihb]
  | seq a b iha ihb =>
    have main : (∃ t u, x = t ++ u ∧ a.Matches (c :: t) ∧ b.Matches u) ∨
        (a.Matches [] ∧ b.Matches (c :: x)) ↔
        ∃ t u, c :: x = t ++ u ∧ a.Matches t ∧ b.Matches u := by
      constructor
      · rintro (⟨t, u, rfl, h1, h2⟩ | ⟨h1, h2⟩)
        · exact ⟨c :: t, u, rfl, h1, h2⟩
        · exact ⟨[], c :: x, rfl, h1, h2⟩
      · rintro ⟨t, u, h, h1, h2⟩
        cases t with
        | nil => right; simp only [List.nil_append] at h; subst h; exact ⟨h1, h2⟩
        | cons c2 t =>
          simp only [List.cons_append, List.cons.injEq] at h
          obtain ⟨rfl, rfl⟩ := h
          left; exact ⟨t, u, rfl, h1, h2⟩
    by_cases hn : a.nullable = true
    · simp only [deriv, hn, if_true, Matches, iha, ihb]
      rw [← main]
      have := (nullable_iff a).mp hn
      simp [this]
    · simp only [deriv, hn, Matches, iha]
      rw [← main]
      have : ¬ a.Matches [] := fun h => hn ((nullable_iff a).mpr h)
      simp [this]
  | star a iha =>
    simp only [deriv]
    constructor
    · rintro ⟨t, u, rfl, h1, S, rfl, h2⟩
      refine ⟨(c :: t) :: S, rfl, ?_⟩
      intro s hs
      rcases List.mem_cons.mp hs with rfl | hs
      · exact (iha t).mp h1
      · exact h2 s hs
    · rintro ⟨S, hS, h2⟩
      obtain ⟨t, u, hx, h1, h3⟩ := star_cons_split a c x S hS h2
      exact ⟨t, u, hx, (iha t).mpr h1, h3⟩

/-- The matcher decides the denotation. -/
theorem rmatch_iff (r : Regex) (x : List Char) : r.rmatch x = true ↔ r.Matches x := by
  induction x generalizing r with
  | nil => simpa [rmatch] using nullable_iff r
  | cons c cs ih => rw [rmatch, ih, deriv_iff]

theorem matches_lit (cs x : List Char) : (lit cs).Matches x ↔ x = cs := by
  induction cs generalizing x with
  | nil => simp [lit, Matches]
  | cons c cs ih =>
    simp only [lit, Matches, ih]
    constructor
    · rintro ⟨t, u, rfl, ⟨c2, h, rfl⟩, rfl⟩
      simp only [beq_iff_eq] at h
      subst h; rfl
    · rintro rfl
      exact ⟨[c], cs, rfl, ⟨c, by simp, rfl⟩, rfl⟩

theorem matches_star_cls (p : Char → Bool) (x : List Char) :
    (star (cls p)).Matches x ↔ ∀ c ∈ x, p c = true := by
  simp only [Matches]
  constructor
  · rintro ⟨S, rfl, h⟩ c hc
    obtain ⟨s, hs, hcs⟩ := List.mem_flatten.mp hc
    obtain ⟨c2, hp, rfl⟩ := h s hs
    rw [List.mem_singleton.mp hcs]
    exact hp
  · intro h
    refine ⟨x.map (fun c => [c]), ?_, ?_⟩
    · clear h
      induction x with
      | nil => rfl
      | cons c cs ih => simp only [List.map_cons, List.flatten_cons, ← ih]; rfl
    · intro t ht
      obtain ⟨c, hc, rfl⟩ := List.mem_map.mp ht
      exact ⟨c, h c hc, rfl⟩

theorem matches_plus_cls (p : Char → Bool) (x : List Char) :
    (plus (cls p)).Matches x ↔ x ≠ [] ∧ ∀ c ∈ x, p c = true := by
  unfold plus
  rw [Matches]
  simp only [matches_star_cls]
  constructor
  · rintro ⟨t, u, rfl, ⟨c, hc, rfl⟩, hu⟩
    refine ⟨by simp, ?_⟩
    intro c2 h2
    rcases List.mem_append.mp h2 with h2 | h2
    · rw [List.mem_singleton.mp h2]; exact hc
    · exact hu c2 h2
  · rintro ⟨hne, h⟩
    cases x with
    | nil => exact absurd rfl hne
    | cons c cs =>
      exact ⟨[c], cs, rfl, ⟨c, h c (List.mem_cons_self _ _), rfl⟩,
        fun c2 h2 => h c2 (List.mem_cons_of_mem _ h2)⟩

theorem matches_lit_plus_lit (pre suf : List Char) (p : Char → Bool) (x : List Char) :
    (seq (lit pre) (seq (plus (cls p)) (lit suf))).Matches x ↔
      ∃ k : List Char, k ≠ [] ∧ (∀ c ∈ k, p c = true) ∧ x = pre ++ k ++ suf := by
  show (∃ t u, x = t ++ u ∧ (lit pre).Matches t ∧
    ∃ t2 u2, u = t2 ++ u2 ∧ (plus (cls p)).Matches t2 ∧ (lit suf).Matches u2) ↔ _
  simp only [matches_lit, matches_plus_cls]
  constructor
  · rintro ⟨t, u, rfl, rfl, k, s, rfl, ⟨hk, hc⟩, rfl⟩
    exact ⟨k, hk, hc, by simp⟩
  · rintro ⟨k, hk, hc, rfl⟩
    exact ⟨_, _, by simp, rfl, k, _, rfl, ⟨hk, hc⟩, rfl⟩

end Regex

/-- The build-key expression accepts exactly `echocicd/builds/<k>/exec` with `k` non-empty
and free of `/`. -/
theorem buildKey_rmatch_iff (x : List Char) :
    buildKey.rmatch x = true ↔
      ∃ k : List Char, k ≠ [] ∧ '/' ∉ k ∧ x = "echocicd/builds/".data ++ k ++ "/exec".data := by
  rw [Regex.rmatch_iff, buildKey, Regex.matches_lit_plus_lit]
  constructor
  · rintro ⟨k, hk, hc, rfl⟩
    refine ⟨k, hk, ?_, rfl⟩
    intro hmem
    simpa using hc _ hmem
  · rintro ⟨k, hk, hc, rfl⟩
    refine ⟨k, hk, ?_, rfl⟩
    intro c hcm
    simp only [bne_iff_ne, ne_eq]
    rintro rfl
    exact hc hcm

/-! ## Lemmas: the watch loop -/

theorem indexRune_append (k rest : List Char) (sep : Char) (hk : sep ∉ k) :
    indexRune (k ++ sep :: rest) sep = some k.length := by
  induction k with
  | nil => simp [indexRune]
  | cons c cs ih =>
    simp only [List.mem_cons, not_or] at hk
    have hne : ¬ c = sep := fun h => hk.1 h.symm
    simp [indexRune, hne, ih hk.2]

/-- On a key `echocicd/builds/<k>/exec` with `k` free of `/`, the two slices of
`WatchForBuild` give `k`. -/
theorem extract_project (key : String) (k : List Char) (hk : '/' ∉ k)
    (hkey : key.data = "echocicd/builds/".data ++ k ++ "/exec".data) :
    sliceFrom key 16 = some ⟨k ++ "/exec".data⟩ ∧
    sliceTo ⟨k ++ "/exec".data⟩ (Index ⟨k ++ "/exec".data⟩ '/') = some ⟨k⟩ := by
  constructor
  · unfold sliceFrom
    rw [hkey]
    have hlen : 16 ≤ ("echocicd/builds/".data ++ k ++ "/exec".data).length := by
      have h16 : "echocicd/builds/".data.length = 16 := by decide
      rw [List.length_append, List.length_append, h16]
      omega
    rw [if_pos hlen]
    have hd : ("echocicd/builds/".data ++ k ++ "/exec".data).drop 16 = k ++ "/exec".data := by
      rw [List.append_assoc]
      exact List.drop_left' (by decide)
    rw [hd]
  · have hi : indexRune (k ++ "/exec".data) '/' = some k.length :=
      indexRune_append k "exec".data '/' hk
    unfold sliceTo Index
    simp only [hi]
    have hle : (0 : Int) ≤ (k.length : Int) ∧ (k.length : Int) ≤ ((k ++ "/exec".data).length : Nat) := by
      constructor
      · exact Int.natCast_nonneg _
      · simp only [List.length_append]; omega
    rw [if_pos hle]
    simp

theorem execEntryProject_eq_some_iff (key k : String) :
    execEntryProject key = some k ↔
      key = "echocicd/builds/" ++ k ++ "/exec" ∧ k ≠ "" ∧ '/' ∉ k.data := by
  unfold execEntryProject
  constructor
  · intro h
    simp only at h
    split at h
    · rename_i hc
      obtain ⟨h1, h2, h3⟩ := hc
      injection h with h
      subst h
      refine ⟨String.ext (by simpa [String.data_append] using h1), ?_, h3⟩
      intro hk
      exact h2 (congrArg String.data hk)
    · cases h
  · rintro ⟨rfl, h2, h3⟩
    have hmid : (("echocicd/builds/" ++ k ++ "/exec").data.drop 16).take
        (("echocicd/builds/" ++ k ++ "/exec").data.length - 21) = k.data := by
      simp only [String.data_append, List.append_assoc]
      rw [List.drop_left' (by decide)]
      have : ("echocicd/builds/".data ++ (k.data ++ "/exec".data)).length - 21 = k.data.length := by
        have h16 : "echocicd/builds/".data.length = 16 := by decide
        have h5 : "/exec".data.length = 5 := by decide
        rw [List.length_append, List.length_append, h16, h5]
        omega
      rw [this, List.take_left']
      rfl
    simp only [hmid]
    have hne : k.data ≠ [] := fun h => h2 (String.ext h)
    rw [if_pos ⟨by simp [String.data_append], hne, h3⟩]

theorem notification_eq_some_iff (json : Json) (d : Delivered) (b : PublishedBuild) :
    notification json d = some b ↔
      ∃ k, d.event.Typ = EventType.PUT ∧ d.event.Key = "echocicd/builds/" ++ k ++ "/exec" ∧
        k ≠ "" ∧ '/' ∉ k.data ∧ d.store.GetStoredConfig json d.answered k = .ok b := by
  unfold notification
  constructor
  · intro h
    split at h
    · rename_i hput
      split at h
      · rename_i k hk
        obtain ⟨h1, h2, h3⟩ := (execEntryProject_eq_some_iff _ _).mp hk
        split at h
        · rename_i b2 hb
          injection h with h
          subst h
          exact ⟨k, hput, h1, h2, h3, hb⟩
        · cases h
      · cases h
    · cases h
  · rintro ⟨k, hput, h1, h2, h3, hb⟩
    have hk := (execEntryProject_eq_some_iff d.event.Key k).mpr ⟨h1, h2, h3⟩
    simp only [hput, if_true, hk, hb]

/-- One event in synchronous mode: the handler runs exactly when the event announces an
artifact, on that artifact; otherwise nothing happens. -/
theorem watchEvent_sync {σ : Type} (json : Json) (handler : PublishedBuild → σ → σ)
    (st : WatchState σ) (hp : st.panicked = false) (d : Delivered) :
    watchEvent json handler false st d =
      match notification json d with
      | some b => { st with world := handler b st.world }
      | none => st := by
  unfold watchEvent notification
  simp only [hp, Bool.false_eq_true, if_false]
  by_cases hput : d.event.Typ = EventType.PUT
  · by_cases hm : buildKey.rmatch d.event.Key.data = true
    · obtain ⟨k, hk1, hk2, hk3⟩ := (buildKey_rmatch_iff _).mp hm
      obtain ⟨e1, e2⟩ := extract_project d.event.Key k hk2 hk3
      have hproj : execEntryProject d.event.Key = some ⟨k⟩ := by
        rw [execEntryProject_eq_some_iff]
        refine ⟨String.ext (by simpa [String.data_append] using hk3), ?_, hk2⟩
        intro h
        exact hk1 (congrArg String.data h)
      simp only [hput, hm, beq_self_eq_true, Bool.and_self, if_true, e1, e2, hproj]
      cases d.store.GetStoredConfig json d.answered ⟨k⟩ <;> rfl
    · have hproj : execEntryProject d.event.Key = none := by
        cases hq : execEntryProject d.event.Key with
        | none => rfl
        | some k =>
          exfalso
          obtain ⟨h1, h2, h3⟩ := (execEntryProject_eq_some_iff _ _).mp hq
          apply hm
          rw [buildKey_rmatch_iff]
          refine ⟨k.data, fun h => h2 (String.ext h), h3, ?_⟩
          rw [h1]
          simp [String.data_append]
      simp [hput, hm, hproj]
  · have : (d.event.Typ == EventType.PUT) = false := by simpa using hput
    simp [this, hput]

theorem foldl_watchEvent_sync {σ : Type} (json : Json) (handler : PublishedBuild → σ → σ)
    (events : List Delivered) (st : WatchState σ) (hp : st.panicked = false) :
    events.foldl (watchEvent json handler false) st =
      { st with
        world := (events.filterMap (notification json)).foldl (fun w b => handler b w) st.world
      } := by
  induction events generalizing st with
  | nil => rfl
  | cons d ds ih =>
    rw [List.foldl_cons, watchEvent_sync json handler st hp d]
    cases hn : notification json d with
    | none => simp only [List.filterMap_cons, hn]; exact ih st hp
    | some b =>
      simp only [List.filterMap_cons, hn, List.foldl_cons]
      exact ih _ hp

theorem watchLoop_sync {σ : Type} (json : Json) (handler : PublishedBuild → σ → σ)
    (responses : List (List Delivered)) (tail : List Select)
    (htail : tail = [] ∨ ∃ rest, tail = Select.done :: rest)
    (st : WatchState σ) (hp : st.panicked = false) :
    watchLoop json handler false (responses.map Select.response ++ tail) st =
      { st with
        world :=
          (responses.flatten.filterMap (notification json)).foldl (fun w b => handler b w)
            st.world } := by
  induction responses generalizing st with
  | nil =>
    rcases htail with rfl | ⟨rest, rfl⟩ <;> rfl
  | cons r rs ih =>
    simp only [List.map_cons, List.cons_append, watchLoop, List.flatten_cons,
      List.filterMap_append, List.foldl_append]
    rw [foldl_watchEvent_sync json handler r st hp]
    exact ih _ hp

/-! ## Lemmas: the webhook handler -/

/-- The two allow-list tests of the handler together mean `RefAllowed`. -/
theorem refTests_iff (allowedRefs : GoMap (List String)) (repo ref : String) :
    ((!(allowedRefs.lookup repo).isSome && !(allowedRefs.lookup "*").isSome) = false ∧
      (!((allowedRefs.lookup repo).getD []).contains ref &&
        !((allowedRefs.lookup "*").getD []).contains ref) = false) ↔
      RefAllowed allowedRefs repo ref := by
  unfold RefAllowed
  cases h1 : allowedRefs.lookup repo <;> cases h2 : allowedRefs.lookup "*" <;> simp
  tauto

/-- The handler after the method and body checks have passed. -/
theorem hookHandler_decoded (json : Json) (allowedRefs : GoMap (List String)) (request : Request)
    (channel : List PushPayload) (body : String) (p : PushPayload)
    (hm : request.Method = "POST") (hb : request.Body = .ok body)
    (hp : json.unmarshalPush body = .ok p) :
    (¬ RefAllowed allowedRefs p.Repository.FullName p.Ref →
      hookHandler json allowedRefs request channel = { status := some 403, channel := channel }) ∧
    (RefAllowed allowedRefs p.Repository.FullName p.Ref →
      hookHandler json allowedRefs request channel =
        if request.Header "X-GitHub-Event" != "push" then { status := some 400, channel := channel }
        else
          match chanSend channel p with
          | none => { status := none, channel := channel }
          | some channel2 => { status := some 200, channel := channel2 }) := by
  have hiff := refTests_iff allowedRefs p.Repository.FullName p.Ref
  unfold hookHandler
  simp only [hm, bne_self_eq_false, Bool.false_eq_true, if_false, hb, hp]
  constructor
  · intro hna
    have hn : ¬ ((!(allowedRefs.lookup p.Repository.FullName).isSome &&
          !(allowedRefs.lookup "*").isSome) = false ∧
        (!((allowedRefs.lookup p.Repository.FullName).getD []).contains p.Ref &&
          !((allowedRefs.lookup "*").getD []).contains p.Ref) = false) := fun h => hna (hiff.mp h)
    by_cases h1 : (!(allowedRefs.lookup p.Repository.FullName).isSome &&
        !(allowedRefs.lookup "*").isSome) = true
    · rw [if_pos h1]
    · rw [if_neg h1]
      have h2 : (!((allowedRefs.lookup p.Repository.FullName).getD []).contains p.Ref &&
          !((allowedRefs.lookup "*").getD []).contains p.Ref) = true := by
        by_contra h2
        exact hn ⟨Bool.eq_false_iff.mpr h1, Bool.eq_false_iff.mpr h2⟩
      rw [if_pos h2]
  · intro ha
    obtain ⟨h1, h2⟩ := hiff.mpr ha
    rw [h1, h2]
    simp only [Bool.false_eq_true, if_false]

/-! ## Lemmas: container cleanup -/

theorem labelMatches_project (c : Container) (name : String) :
    labelMatches c ("echo-project=" ++ name) = (c.Labels.lookup "echo-project" == some name) := by
  have hd : ("echo-project=" ++ name).data =
      'e' :: 'c' :: 'h' :: 'o' :: '-' :: 'p' :: 'r' :: 'o' :: 'j' :: 'e' :: 'c' :: 't' :: '=' ::
        name.data := by
    rw [String.data_append]; rfl
  unfold labelMatches
  rw [hd]
  simp [List.takeWhile_cons, List.dropWhile_cons]

theorem labelMatches_owner (c : Container) :
    labelMatches c "managed-by=echocicd" = (c.Labels.lookup "managed-by" == some "echocicd") := by
  rfl

/-- The filters of `CleanupExistingContainers` select the containers carrying both labels. -/
theorem cleanup_filter_eq (name : String) (cs : List Container) :
    cs.filter (fun c => (true || c.State == "running") &&
        ["echo-project=" ++ name, "managed-by=echocicd"].all (labelMatches c)) =
      cs.filter (fun c => decide (Owned name c)) := by
  apply List.filter_congr
  intro c _
  simp only [Bool.true_or, Bool.true_and, List.all_cons, List.all_nil, Bool.and_true,
    labelMatches_project, labelMatches_owner, Owned]
  by_cases h1 : c.Labels.lookup "echo-project" = some name <;>
    by_cases h2 : c.Labels.lookup "managed-by" = some "echocicd" <;> simp [h1, h2]

theorem CleanupExistingContainers_unfold (d : Docker) (r : Replies) (name : String) :
    d.CleanupExistingContainers r name =
      match r.listErr with
      | some e =>
        ({ d with calls := d.calls ++
            [DockerCall.ContainerList true ["echo-project=" ++ name, "managed-by=echocicd"]] },
          some ("failed to list containers with filters: " ++ e))
      | none =>
        cleanupLoop r (d.containers.filter (fun c => decide (Owned name c)))
          { d with calls := d.calls ++
            [DockerCall.ContainerList true ["echo-project=" ++ name, "managed-by=echocicd"]] } := by
  unfold Docker.CleanupExistingContainers Docker.ContainerList
  cases r.listErr with
  | some e => rfl
  | none => simp only [cleanup_filter_eq]

/-- One round of the cleanup loop, by the outcome of its stop and remove requests. -/
theorem cleanupLoop_cons (r : Replies) (t : Container) (rest : List Container) (d : Docker) :
    cleanupLoop r (t :: rest) d =
      if t.State = "running" ∨ t.State = "restarting" then
        match r.stopErr t.ID with
        | some e =>
          ({ d with calls := d.calls ++ [DockerCall.ContainerStop t.ID 60] },
            some ("failed to stop container " ++ t.ID ++ ": " ++ e))
        | none =>
          match r.removeErr t.ID with
          | some e =>
            ({ containers := d.containers.map
                (fun c => if c.ID = t.ID then { c with State := "exited" } else c),
               calls := d.calls ++ [DockerCall.ContainerStop t.ID 60] ++
                [DockerCall.ContainerRemove t.ID true] },
              some ("faield to remove container " ++ t.ID ++ ": " ++ e))
          | none =>
            cleanupLoop r rest
              { containers := (d.containers.map
                  (fun c => if c.ID = t.ID then { c with State := "exited" } else c)).filter
                  (fun c => c.ID != t.ID),
                calls := d.calls ++ [DockerCall.ContainerStop t.ID 60] ++
                  [DockerCall.ContainerRemove t.ID true] }
      else
        match r.removeErr t.ID with
        | some e =>
          ({ d with calls := d.calls ++ [DockerCall.ContainerRemove t.ID true] },
            some ("faield to remove container " ++ t.ID ++ ": " ++ e))
        | none =>
          cleanupLoop r rest
            { containers := d.containers.filter (fun c => c.ID != t.ID),
              calls := d.calls ++ [DockerCall.ContainerRemove t.ID true] } := by
  rw [cleanupLoop]
  by_cases hs : t.State = "running" ∨ t.State = "restarting"
  · have hb : (t.State == "running" || t.State == "restarting") = true := by simpa using hs
    simp only [hb, hs, if_true, Docker.ContainerStop, Docker.ContainerRemove]
    cases r.stopErr t.ID with
    | some e => rfl
    | none =>
      cases r.removeErr t.ID with
      | some e => rfl
      | none => rfl
  · have hb : (t.State == "running" || t.State == "restarting") = false := by simpa using hs
    simp only [hb, hs, if_false, Docker.ContainerRemove, Bool.false_eq_true]
    cases r.removeErr t.ID with
    | some e => rfl
    | none => rfl

/-- After a cleanup loop that reports no error, no remaining container has the id of a
handled one, and every remaining container comes from an earlier one with the same id and
labels. -/
theorem cleanupLoop_ok (r : Replies) (ts : List Container) (d d1 : Docker)
    (h : cleanupLoop r ts d = (d1, none)) :
    ∀ c ∈ d1.containers, c.ID ∉ ts.map Container.ID ∧
      ∃ c0 ∈ d.containers, c0.ID = c.ID ∧ c0.Labels = c.Labels := by
  induction ts generalizing d with
  | nil =>
    simp only [cleanupLoop, Prod.mk.injEq, and_true] at h
    subst h
    intro c hc
    exact ⟨by simp, c, hc, rfl, rfl⟩
  | cons t rest ih =>
    rw [cleanupLoop_cons] at h
    split at h
    · split at h
      · simp at h
      · split at h
        · simp at h
        · intro c hc
          obtain ⟨h1, c0, hc0, hid, hlab⟩ := ih _ h c hc
          simp only [List.mem_filter, List.mem_map, bne_iff_ne, ne_eq] at hc0
          obtain ⟨⟨c00, hc00, rfl⟩, hne⟩ := hc0
          refine ⟨?_, c00, hc00, ?_, ?_⟩
          · simp only [List.map_cons, List.mem_cons, not_or]
            refine ⟨?_, h1⟩
            rw [← hid]; exact hne
          · rw [← hid]; split <;> rfl
          · rw [← hlab]; split <;> rfl
    · split at h
      · simp at h
      · intro c hc
        obtain ⟨h1, c0, hc0, hid, hlab⟩ := ih _ h c hc
        simp only [List.mem_filter, bne_iff_ne, ne_eq] at hc0
        refine ⟨?_, c0, hc0.1, hid, hlab⟩
        simp only [List.map_cons, List.mem_cons, not_or]
        refine ⟨?_, h1⟩
        rw [← hid]; exact hc0.2

/-- A cleanup that lists no container only sends the list request. -/
theorem cleanup_nothing_listed (d : Docker) (r : Replies) (name : String)
    (hl : r.listErr = none) (hnone : ∀ c ∈ d.containers, ¬ Owned name c) :
    d.CleanupExistingContainers r name =
      ({ containers := d.containers,
         calls := d.calls ++
          [DockerCall.ContainerList true ["echo-project=" ++ name, "managed-by=echocicd"]] },
        none) := by
  rw [CleanupExistingContainers_unfold, hl]
  have : d.containers.filter (fun c => decide (Owned name c)) = [] := by
    rw [List.filter_eq_nil_iff]
    intro c hc
    simpa using hnone c hc
  simp only [this, cleanupLoop]

/-- After a cleanup that reports no error, no container carries both labels. -/
theorem cleanup_ok_none_owned (d d1 : Docker) (r : Replies) (name : String)
    (h : d.CleanupExistingContainers r name = (d1, none)) :
    ∀ c ∈ d1.containers, ¬ Owned name c := by
  rw [CleanupExistingContainers_unfold] at h
  split at h
  · simp at h
  · intro c hc hown
    obtain ⟨hnot, c0, hc0, hid, hlab⟩ := cleanupLoop_ok r _ _ d1 h c hc
    apply hnot
    rw [List.mem_map]
    refine ⟨c0, ?_, hid⟩
    rw [List.mem_filter]
    refine ⟨hc0, ?_⟩
    simp only [decide_eq_true_eq, Owned, hlab]
    exact hown

theorem cleanupCalls_cons (t : Container) (ts : List Container) :
    cleanupCalls (t :: ts) =
      (if t.State = "running" ∨ t.State = "restarting" then [DockerCall.ContainerStop t.ID 60]
       else []) ++ DockerCall.ContainerRemove t.ID true :: cleanupCalls ts := by
  unfold cleanupCalls
  rw [List.flatMap_cons]
  by_cases hs : t.State = "running" ∨ t.State = "restarting"
  · have hb : (t.State == "running" || t.State == "restarting") = true := by simpa using hs
    simp [hb, hs]
  · have hb : (t.State == "running" || t.State == "restarting") = false := by simpa using hs
    simp [hb, hs]

theorem cleanupCalls_append (xs ys : List Container) :
    cleanupCalls (xs ++ ys) = cleanupCalls xs ++ cleanupCalls ys := by
  unfold cleanupCalls
  rw [List.flatMap_append]

theorem mem_cleanupCalls (ts : List Container) (call : DockerCall) (h : call ∈ cleanupCalls ts) :
    ∃ t ∈ ts, (call = DockerCall.ContainerStop t.ID 60 ∧
        (t.State = "running" ∨ t.State = "restarting")) ∨
      call = DockerCall.ContainerRemove t.ID true := by
  induction ts with
  | nil => simp [cleanupCalls] at h
  | cons t ts ih =>
    rw [cleanupCalls_cons] at h
    rcases List.mem_append.mp h with h | h
    · split at h
      · rename_i hs
        exact ⟨t, List.mem_cons_self _ _, Or.inl ⟨List.mem_singleton.mp h, hs⟩⟩
      · simp at h
    · rcases List.mem_cons.mp h with h | h
      · exact ⟨t, List.mem_cons_self _ _, Or.inr h⟩
      · obtain ⟨t2, ht2, h2⟩ := ih h
        exact ⟨t2, List.mem_cons_of_mem _ ht2, h2⟩

/-- Whatever fails, the requests of a cleanup loop are an initial part of `cleanupCalls`. -/
theorem cleanupLoop_calls_prefix (r : Replies) (ts : List Container) (d : Docker) :
    ∃ k, (cleanupLoop r ts d).1.calls = d.calls ++ (cleanupCalls ts).take k := by
  induction ts generalizing d with
  | nil => exact ⟨0, by simp [cleanupLoop]⟩
  | cons t rest ih =>
    rw [cleanupLoop_cons, cleanupCalls_cons]
    by_cases hs : t.State = "running" ∨ t.State = "restarting"
    · simp only [hs, if_true]
      cases r.stopErr t.ID with
      | some e => exact ⟨1, by simp⟩
      | none =>
        cases r.removeErr t.ID with
        | some e => exact ⟨2, by simp⟩
        | none =>
          obtain ⟨k, hk⟩ := ih
            { containers := (d.containers.map
                (fun c => if c.ID = t.ID then { c with State := "exited" } else c)).filter
                (fun c => c.ID != t.ID),
              calls := d.calls ++ [DockerCall.ContainerStop t.ID 60] ++
                [DockerCall.ContainerRemove t.ID true] }
          exact ⟨k + 2, by rw [hk]; simp⟩
    · simp only [hs, if_false]
      cases r.removeErr t.ID with
      | some e => exact ⟨1, by simp⟩
      | none =>
        obtain ⟨k, hk⟩ := ih
          { containers := d.containers.filter (fun c => c.ID != t.ID),
            calls := d.calls ++ [DockerCall.ContainerRemove t.ID true] }
        exact ⟨k + 1, by rw [hk]; simp⟩

/-- A cleanup loop whose first containers `pre` meet no failure goes on with the rest,
having sent `cleanupCalls pre`. -/
theorem cleanupLoop_append_ok (r : Replies) (pre rest : List Container) (d : Docker)
    (hok : ∀ c ∈ pre, r.stopErr c.ID = none ∧ r.removeErr c.ID = none) :
    ∃ d2 : Docker, cleanupLoop r (pre ++ rest) d = cleanupLoop r rest d2 ∧
      d2.calls = d.calls ++ cleanupCalls pre := by
  induction pre generalizing d with
  | nil => exact ⟨d, rfl, by simp [cleanupCalls]⟩
  | cons t pre ih =>
    obtain ⟨hs1, hr1⟩ := hok t (List.mem_cons_self _ _)
    have hok2 : ∀ c ∈ pre, r.stopErr c.ID = none ∧ r.removeErr c.ID = none :=
      fun c hc => hok c (List.mem_cons_of_mem _ hc)
    rw [List.cons_append, cleanupLoop_cons, cleanupCalls_cons, hs1, hr1]
    by_cases hs : t.State = "running" ∨ t.State = "restarting"
    · simp only [hs, if_true]
      obtain ⟨d2, h1, h2⟩ := ih
        { containers := (d.containers.map
            (fun c => if c.ID = t.ID then { c with State := "exited" } else c)).filter
            (fun c => c.ID != t.ID),
          calls := d.calls ++ [DockerCall.ContainerStop t.ID 60] ++
            [DockerCall.ContainerRemove t.ID true] } hok2
      exact ⟨d2, h1, by rw [h2]; simp⟩
    · simp only [hs, if_false]
      obtain ⟨d2, h1, h2⟩ := ih
        { containers := d.containers.filter (fun c => c.ID != t.ID),
          calls := d.calls ++ [DockerCall.ContainerRemove t.ID true] } hok2
      exact ⟨d2, h1, by rw [h2]; simp⟩

/-! ## Lemmas: the create request -/

theorem List.lookup_map_snd {V W : Type} (l : List (String × V)) (g : V → W) (k : String) :
    (l.map (fun kv => (kv.1, g kv.2))).lookup k = (l.lookup k).map g := by
  induction l with
  | nil => rfl
  | cons e t ih =>
    obtain ⟨a, b⟩ := e
    by_cases hk : k = a
    · subst hk; simp [List.lookup_cons]
    · have : (k == a) = false := by simpa using hk
      simp [List.lookup_cons, this, ih]

/-- A Go map filled by ranging over another map reads like that map, value by value. -/
theorem GoMap.lookup_range_set {V W : Type} (m : GoMap V) (g : V → W) (k : String) :
    (m.entries.foldl (fun acc kv => acc.set kv.1 (g kv.2)) (GoMap.empty : GoMap W)).lookup k =
      (m.lookup k).map g := by
  have h := GoMap.lookup_foldl_set (m.entries.map (fun kv => (kv.1, g kv.2)))
    (by simpa [List.map_map, Function.comp_def] using m.nodup) (GoMap.empty : GoMap W) k
  rw [List.foldl_map] at h
  rw [h, List.lookup_map_snd]
  unfold GoMap.lookup
  cases List.lookup k m.entries <;> rfl

theorem GoMap.mem_keys_iff {V : Type} (m : GoMap V) (k : String) :
    k ∈ m.keys ↔ (m.lookup k).isSome = true := by
  unfold GoMap.keys GoMap.lookup
  generalize m.entries = l
  induction l with
  | nil => simp
  | cons e t ih =>
    obtain ⟨a, b⟩ := e
    by_cases hk : k = a
    · subst hk; simp [List.lookup_cons]
    · have : (k == a) = false := by simpa using hk
      simp [List.lookup_cons, this, hk, ← ih]

theorem foldl_binds (f : VolumeMount → String) (vs : List VolumeMount) (acc : List String) :
    vs.foldl (fun binds v => binds ++ [f v]) acc = acc ++ vs.map f := by
  induction vs generalizing acc with
  | nil => simp
  | cons v vs ih => simp [List.foldl_cons, ih]

theorem drop_calls (xs ys : List DockerCall) : (xs ++ ys).drop xs.length = ys :=
  List.drop_left' rfl

/-- Resolving the image only sends inspect and pull requests; an image it returns was
returned by one of the two inspections, and an image found by the first is returned. -/
theorem resolveImage_spec (d : Docker) (r : Replies) (json : Json) (build : PublishedBuild)
    (auth : String) :
    ∃ X, (d.resolveImage r json build auth).1.calls = d.calls ++ X ∧
      (∀ c ∈ X, ∀ cfg hc, c ≠ DockerCall.ContainerCreate cfg hc) ∧
      (∀ img, (d.resolveImage r json build auth).2 = .ok img →
        r.inspectFirst = .ok img ∨ r.inspectSecond = .ok img) ∧
      (∀ img, r.inspectFirst = .ok img → (d.resolveImage r json build auth).2 = .ok img) := by
  unfold Docker.resolveImage Docker.ImageInspectWithRaw Docker.ImagePull
  cases h1 : r.inspectFirst with
  | ok img =>
    exact ⟨[DockerCall.ImageInspectWithRaw build.Tag], rfl, by simp,
      fun i hi => Or.inl (by simpa using hi), fun i hi => by simpa using hi⟩
  | error e =>
    cases h2 : r.pull with
    | error e2 =>
      exact ⟨[DockerCall.ImageInspectWithRaw build.Tag, DockerCall.ImagePull build.Tag auth],
        by simp, by simp, by simp, by simp⟩
    | ok response =>
      cases h3 : ScanForDockerError json response with
      | some e3 =>
        exact ⟨[DockerCall.ImageInspectWithRaw build.Tag, DockerCall.ImagePull build.Tag auth],
          by simp [h3], by simp, by simp [h3], by simp⟩
      | none =>
        cases h4 : r.inspectSecond with
        | error e4 =>
          exact ⟨[DockerCall.ImageInspectWithRaw build.Tag, DockerCall.ImagePull build.Tag auth,
            DockerCall.ImageInspectWithRaw build.Tag], by simp [h3], by simp, by simp [h3],
            by simp⟩
        | ok img =>
          exact ⟨[DockerCall.ImageInspectWithRaw build.Tag, DockerCall.ImagePull build.Tag auth,
            DockerCall.ImageInspectWithRaw build.Tag], by simp [h3], by simp,
            fun i hi => Or.inr (by simpa [h3] using hi), by simp⟩

/-! ## Lemmas: running the container -/

/-- The image resolution of `RunContainer`, path by path: the requests sent and the result. -/
theorem resolveImage_eq (d : Docker) (r : Replies) (json : Json) (build : PublishedBuild)
    (auth : String) :
    d.resolveImage r json build auth =
      match r.inspectFirst with
      | .ok img =>
        ({ containers := d.containers,
           calls := d.calls ++ [DockerCall.ImageInspectWithRaw build.Tag] }, .ok img)
      | .error _ =>
        match r.pull with
        | .error e =>
          ({ containers := d.containers,
             calls := d.calls ++ [DockerCall.ImageInspectWithRaw build.Tag,
               DockerCall.ImagePull build.Tag auth] },
            .error ("failed to pull docker image: " ++ e))
        | .ok response =>
          match ScanForDockerError json response with
          | some e =>
            ({ containers := d.containers,
               calls := d.calls ++ [DockerCall.ImageInspectWithRaw build.Tag,
                 DockerCall.ImagePull build.Tag auth] },
              .error ("failed to pull docker image: " ++ e))
          | none =>
            match r.inspectSecond with
            | .error e =>
              ({ containers := d.containers,
                 calls := d.calls ++ [DockerCall.ImageInspectWithRaw build.Tag,
                   DockerCall.ImagePull build.Tag auth,
                   DockerCall.ImageInspectWithRaw build.Tag] },
                .error ("could not inspect container: " ++ e))
            | .ok img =>
              ({ containers := d.containers,
                 calls := d.calls ++ [DockerCall.ImageInspectWithRaw build.Tag,
                   DockerCall.ImagePull build.Tag auth,
                   DockerCall.ImageInspectWithRaw build.Tag] }, .ok img) := by
  unfold Docker.resolveImage Docker.ImageInspectWithRaw Docker.ImagePull
  cases r.inspectFirst with
  | ok img => rfl
  | error e1 =>
    cases r.pull with
    | error e2 => simp
    | ok response =>
      cases hs : ScanForDockerError json response with
      | some e3 => simp [hs]
      | none =>
        cases r.inspectSecond with
        | error e4 => simp [hs]
        | ok img => simp [hs]

/-- After the image resolution, `RunContainer` path by path: the engine, the requests sent
and the result. -/
theorem RunContainer_after_resolve (d : Docker) (r : Replies) (json : Json)
    (build : PublishedBuild) (registryAuths : GoMap String) :
    d.RunContainer r json build registryAuths =
      match d.resolveImage r json build ((registryAuths.lookup build.Registry).getD "") with
      | (d1, .error e) => (d1, .error e)
      | (d1, .ok img) =>
        match img.Config with
        | none => (d1, .error "image has no config, cannot determine a start command")
        | some ic =>
          match r.create with
          | .error e =>
            ({ containers := d1.containers,
               calls := d1.calls ++ [DockerCall.ContainerCreate
                 (createRequest build img.ID ic.Cmd).1 (createRequest build img.ID ic.Cmd).2] },
              .error ("failed to create the container: " ++ e))
          | .ok created =>
            if created.Warnings.length > 0 then
              ({ containers := d1.containers ++
                  [{ ID := created.ID, State := "created",
                     Labels := (createRequest build img.ID ic.Cmd).1.Labels }],
                 calls := d1.calls ++ [DockerCall.ContainerCreate
                   (createRequest build img.ID ic.Cmd).1 (createRequest build img.ID ic.Cmd).2] },
                .error ("received warnings while creating container: [" ++
                  " ".intercalate created.Warnings ++ "]"))
            else
              match r.startErr with
              | some e =>
                ({ containers := d1.containers ++
                    [{ ID := created.ID, State := "created",
                       Labels := (createRequest build img.ID ic.Cmd).1.Labels }],
                   calls := d1.calls ++ [DockerCall.ContainerCreate
                     (createRequest build img.ID ic.Cmd).1 (createRequest build img.ID ic.Cmd).2,
                     DockerCall.ContainerStart created.ID] },
                  .error ("failed to start created container: " ++ e))
              | none =>
                ({ containers := (d1.containers ++
                    [({ ID := created.ID, State := "created",
                        Labels := (createRequest build img.ID ic.Cmd).1.Labels } : Container)]).map
                    (fun c : Container =>
                      if c.ID = created.ID then { c with State := "running" } else c),
                   calls := d1.calls ++ [DockerCall.ContainerCreate
                     (createRequest build img.ID ic.Cmd).1 (createRequest build img.ID ic.Cmd).2,
                     DockerCall.ContainerStart created.ID] },
                  .ok created.ID) := by
  unfold Docker.RunContainer
  cases registryAuths.lookup build.Registry
  all_goals
    simp only [Option.getD]
    generalize d.resolveImage r json build _ = res
    obtain ⟨d1, res2⟩ := res
    cases res2 with
    | error e => rfl
    | ok img =>
      simp only
      cases img.Config with
      | none => rfl
      | some ic =>
        simp only [Docker.ContainerCreate, Docker.ContainerStart]
        cases r.create with
        | error e => rfl
        | ok created =>
          simp only
          by_cases hw : created.Warnings.length > 0
          · simp only [hw, if_true]
          · simp only [hw, if_false]
            cases r.startErr with
            | some e => simp
            | none => simp

/-- The requests of the image resolution and its result, by the engine's answers: the
local inspection alone when it finds the image; otherwise the inspection and a pull, followed
by a second inspection when the pull and the scan of its response succeed. -/
theorem resolveImage_paths (d : Docker) (r : Replies) (json : Json) (build : PublishedBuild)
    (auth : String) :
    (∃ img, r.inspectFirst = .ok img ∧
      (d.resolveImage r json build auth).1.calls =
        d.calls ++ [DockerCall.ImageInspectWithRaw build.Tag] ∧
      (d.resolveImage r json build auth).2 = .ok img) ∨
    ((∃ e, r.inspectFirst = .error e) ∧
      (((d.resolveImage r json build auth).1.calls =
          d.calls ++ [DockerCall.ImageInspectWithRaw build.Tag,
            DockerCall.ImagePull build.Tag auth] ∧
        (d.resolveImage r json build auth).2.isOk = false ∧
        ((r.pull).isOk = false ∨
          ∃ response, r.pull = .ok response ∧ (ScanForDockerError json response).isSome = true)) ∨
       ((d.resolveImage r json build auth).1.calls =
          d.calls ++ [DockerCall.ImageInspectWithRaw build.Tag,
            DockerCall.ImagePull build.Tag auth, DockerCall.ImageInspectWithRaw build.Tag] ∧
        (∃ response, r.pull = .ok response ∧ ScanForDockerError json response = none) ∧
        (((r.inspectSecond).isOk = false ∧ (d.resolveImage r json build auth).2.isOk = false) ∨
          ∃ img, r.inspectSecond = .ok img ∧ (d.resolveImage r json build auth).2 = .ok img)))) := by
  rw [resolveImage_eq]
  cases h1 : r.inspectFirst with
  | ok img => exact Or.inl ⟨img, rfl, rfl, rfl⟩
  | error e1 =>
    refine Or.inr ⟨⟨e1, rfl⟩, ?_⟩
    cases h2 : r.pull with
    | error e2 => exact Or.inl ⟨rfl, rfl, Or.inl rfl⟩
    | ok response =>
      cases h3 : ScanForDockerError json response with
      | some e3 =>
        refine Or.inl ⟨by simp [h3], by simp [h3]; rfl, Or.inr ⟨response, rfl, by simp [h3]⟩⟩
      | none =>
        cases h4 : r.inspectSecond with
        | error e4 =>
          exact Or.inr ⟨by simp [h3], ⟨response, rfl, h3⟩, Or.inl ⟨rfl, by simp [h3]; rfl⟩⟩
        | ok img =>
          exact Or.inr ⟨by simp [h3], ⟨response, rfl, h3⟩, Or.inr ⟨img, rfl, by simp [h3]⟩⟩

/-- What `RunContainer` does after the image resolution, by the engine's answers: nothing
more when the resolution fails or the image has no config; otherwise one create request with
`createRequest`, followed by one start request exactly when the create is answered without
error and without warnings; the container id is returned exactly when that start succeeds. -/
theorem RunContainer_paths (d : Docker) (r : Replies) (json : Json) (build : PublishedBuild)
    (registryAuths : GoMap String) :
    ∃ post,
      (d.RunContainer r json build registryAuths).1.calls =
        (d.resolveImage r json build ((registryAuths.lookup build.Registry).getD "")).1.calls ++
          post ∧
      ((post = [] ∧ (d.RunContainer r json build registryAuths).2.isOk = false ∧
          ((d.resolveImage r json build
              ((registryAuths.lookup build.Registry).getD "")).2.isOk = false ∨
            ∃ img, (d.resolveImage r json build
              ((registryAuths.lookup build.Registry).getD "")).2 = .ok img ∧ img.Config = none)) ∨
        ∃ img ic,
          (d.resolveImage r json build ((registryAuths.lookup build.Registry).getD "")).2 =
            .ok img ∧
          img.Config = some ic ∧
          ((post = [DockerCall.ContainerCreate (createRequest build img.ID ic.Cmd).1
                (createRequest build img.ID ic.Cmd).2] ∧
              (d.RunContainer r json build registryAuths).2.isOk = false ∧
              ((r.create).isOk = false ∨
                ∃ created, r.create = .ok created ∧ created.Warnings.length > 0)) ∨
            ∃ created, r.create = .ok created ∧ ¬ created.Warnings.length > 0 ∧
              post = [DockerCall.ContainerCreate (createRequest build img.ID ic.Cmd).1
                (createRequest build img.ID ic.Cmd).2, DockerCall.ContainerStart created.ID] ∧
              ((r.startErr = none ∧
                  (d.RunContainer r json build registryAuths).2 = .ok created.ID) ∨
                ((r.startErr).isSome = true ∧
                  (d.RunContainer r json build registryAuths).2.isOk = false)))) := by
  rw [RunContainer_after_resolve]
  generalize d.resolveImage r json build ((registryAuths.lookup build.Registry).getD "") = res
  obtain ⟨d1, res2⟩ := res
  cases res2 with
  | error e => exact ⟨[], by simp, Or.inl ⟨rfl, rfl, Or.inl rfl⟩⟩
  | ok img =>
    dsimp only
    cases hc : img.Config with
    | none => exact ⟨[], by simp, Or.inl ⟨rfl, rfl, Or.inr ⟨img, rfl, hc⟩⟩⟩
    | some ic =>
      cases hcr : r.create with
      | error e =>
        exact ⟨_, rfl, Or.inr ⟨img, ic, rfl, hc, Or.inl ⟨rfl, rfl, Or.inl rfl⟩⟩⟩
      | ok created =>
        by_cases hw : created.Warnings.length > 0
        · refine ⟨[DockerCall.ContainerCreate (createRequest build img.ID ic.Cmd).1
            (createRequest build img.ID ic.Cmd).2], by simp [hw], Or.inr ⟨img, ic, rfl, hc, Or.inl
              ⟨rfl, by simp [hw]; rfl, Or.inr ⟨created, rfl, hw⟩⟩⟩⟩
        · cases hs : r.startErr with
          | some e =>
            refine ⟨[DockerCall.ContainerCreate (createRequest build img.ID ic.Cmd).1
              (createRequest build img.ID ic.Cmd).2, DockerCall.ContainerStart created.ID],
              by simp [hw], Or.inr ⟨img, ic, rfl, hc, Or.inr
                ⟨created, rfl, hw, rfl, Or.inr ⟨rfl, by simp [hw]; rfl⟩⟩⟩⟩
          | none =>
            refine ⟨[DockerCall.ContainerCreate (createRequest build img.ID ic.Cmd).1
              (createRequest build img.ID ic.Cmd).2, DockerCall.ContainerStart created.ID],
              by simp [hw], Or.inr ⟨img, ic, rfl, hc, Or.inr
                ⟨created, rfl, hw, rfl, Or.inl ⟨rfl, by simp [hw]⟩⟩⟩⟩

/-- After the image resolution `RunContainer` sends create and start requests only. -/
theorem RunContainer_post_kinds (d : Docker) (r : Replies) (json : Json)
    (build : PublishedBuild) (registryAuths : GoMap String) :
    ∃ post,
      (d.RunContainer r json build registryAuths).1.calls =
        (d.resolveImage r json build ((registryAuths.lookup build.Registry).getD "")).1.calls ++
          post ∧
      ∀ call ∈ post, (∃ cfg hc, call = DockerCall.ContainerCreate cfg hc) ∨
        ∃ id, call = DockerCall.ContainerStart id := by
  obtain ⟨post, hcalls, hpost⟩ := RunContainer_paths d r json build registryAuths
  refine ⟨post, hcalls, ?_⟩
  intro call hcall
  rcases hpost with ⟨rfl, -⟩ | ⟨img, ic, -, -, ⟨rfl, -⟩ | ⟨created, -, -, rfl, -⟩⟩
  · simp at hcall
  · simp only [List.mem_singleton] at hcall
    exact Or.inl ⟨_, _, hcall⟩
  · simp only [List.mem_cons, List.mem_singleton, List.not_mem_nil, or_false] at hcall
    rcases hcall with h | h
    · exact Or.inl ⟨_, _, h⟩
    · exact Or.inr ⟨_, h⟩

/-- Every request of one `RunContainer` run is an inspect, pull, create or start; the first
is the local inspection, and a pull carries the auth string of the artifact's registry. -/
theorem RunContainer_calls_kinds (d : Docker) (r : Replies) (json : Json)
    (build : PublishedBuild) (registryAuths : GoMap String) :
    ∃ tail,
      (d.RunContainer r json build registryAuths).1.calls =
        d.calls ++ DockerCall.ImageInspectWithRaw build.Tag :: tail ∧
      (∀ call ∈ tail, call.isRunRequest = true) ∧
      (∀ ref a, DockerCall.ImagePull ref a ∈ tail →
        a = (registryAuths.lookup build.Registry).getD "") := by
  obtain ⟨post, hcalls, hpost⟩ := RunContainer_post_kinds d r json build registryAuths
  have hpostrun : ∀ call ∈ post, call.isRunRequest = true := by
    intro call hc
    rcases hpost call hc with ⟨cfg, hc2, rfl⟩ | ⟨id, rfl⟩ <;> rfl
  have hnp : ∀ ref a, DockerCall.ImagePull ref a ∉ post := by
    intro ref a h
    rcases hpost _ h with ⟨cfg, hc, h2⟩ | ⟨id, h2⟩ <;> cases h2
  rcases resolveImage_paths d r json build ((registryAuths.lookup build.Registry).getD "") with
    ⟨img, -, hc, -⟩ | ⟨-, ⟨hc, -⟩ | ⟨hc, -⟩⟩
  · refine ⟨post, by rw [hcalls, hc]; simp, hpostrun, ?_⟩
    intro ref a h
    exact absurd h (hnp ref a)
  · refine ⟨DockerCall.ImagePull build.Tag ((registryAuths.lookup build.Registry).getD "") ::
      post, by rw [hcalls, hc]; simp, ?_, ?_⟩
    · intro call hcall
      rcases List.mem_cons.mp hcall with rfl | h
      · rfl
      · exact hpostrun call h
    · intro ref a h
      rcases List.mem_cons.mp h with h | h
      · injection h with h1 h2
      · exact absurd h (hnp ref a)
  · refine ⟨DockerCall.ImagePull build.Tag ((registryAuths.lookup build.Registry).getD "") ::
      DockerCall.ImageInspectWithRaw build.Tag :: post, by rw [hcalls, hc]; simp, ?_, ?_⟩
    · intro call hcall
      rcases List.mem_cons.mp hcall with rfl | h
      · rfl
      · rcases List.mem_cons.mp h with rfl | h
        · rfl
        · exact hpostrun call h
    · intro ref a h
      rcases List.mem_cons.mp h with h | h
      · injection h with h1 h2
      · rcases List.mem_cons.mp h with h | h
        · cases h
        · exact absurd h (hnp ref a)

/-! ## Lemmas: the agent -/

/-- The requests of one cleanup are the list request with the two label filters, then stop
and remove requests only. -/
theorem cleanup_calls_kinds (d : Docker) (r : Replies) (name : String) :
    ∃ cl,
      (d.CleanupExistingContainers r name).1.calls =
        d.calls ++
          DockerCall.ContainerList true ["echo-project=" ++ name, "managed-by=echocicd"] :: cl ∧
      ∀ call ∈ cl, call.isCleanupRequest = true := by
  rw [CleanupExistingContainers_unfold]
  cases r.listErr with
  | some e => exact ⟨[], by simp, by simp⟩
  | none =>
    obtain ⟨k, hk⟩ := cleanupLoop_calls_prefix r
      (d.containers.filter (fun c => decide (Owned name c)))
      { d with calls := d.calls ++
        [DockerCall.ContainerList true ["echo-project=" ++ name, "managed-by=echocicd"]] }
    refine ⟨_, by rw [hk]; simp; rfl, ?_⟩
    intro call hcall
    obtain ⟨t, -, h⟩ := mem_cleanupCalls _ call (List.mem_of_mem_take hcall)
    rcases h with ⟨rfl, -⟩ | rfl <;> rfl

/-- The requests of one handler run: those of the cleanup, then, only when the cleanup
returned no error, those of one `RunContainer` run on the engine the cleanup left. -/
theorem agentHandler_calls (json : Json) (engine : Docker → Replies)
    (registryAuth : GoMap String) (config : PublishedBuild) (conn : Docker) :
    ((conn.CleanupExistingContainers (engine conn) config.Name).2.isSome = true →
      agentHandler json engine registryAuth config conn =
        (conn.CleanupExistingContainers (engine conn) config.Name).1) ∧
    ((conn.CleanupExistingContainers (engine conn) config.Name).2 = none →
      agentHandler json engine registryAuth config conn =
        ((conn.CleanupExistingContainers (engine conn) config.Name).1.RunContainer
          (engine (conn.CleanupExistingContainers (engine conn) config.Name).1)
          json config registryAuth).1) := by
  unfold agentHandler
  generalize conn.CleanupExistingContainers (engine conn) config.Name = res
  obtain ⟨d1, err⟩ := res
  cases err with
  | none => simp
  | some e => simp

/-- A complete publish followed by a fetch at the key-safe repo name gives the published
fields back, whatever the store held before. -/
theorem fetch_after_publish (json : Json) (putOk : Nat → Bool) (now : Int)
    (c : EtcdClient) (repo name hash tag registry : String) (config : ExecProperties)
    (j : String) (hlo : -2 ^ 63 ≤ now) (hhi : now < 2 ^ 63)
    (hj : json.marshalExec config = .ok j) (hdec : json.unmarshalExec j = .ok config)
    (hput : ∀ i, i < 7 → putOk i = true) :
    (c.WriteBuildInfo json putOk now repo name hash tag registry config).1.GetStoredConfig
        json true (ReplaceAll repo "/" "__") =
      .ok { Name := name, Version := hash, Timestamp := now, Tag := tag,
            Registry := registry, Exec := config } := by
  rw [GetStoredConfig_eq_ok_iff]
  refine ⟨name, hash, FormatInt now, now, tag, registry, j, config, ?_, ?_, ?_,
    ParseInt_FormatInt now hlo hhi, ?_, ?_, ?_, hdec, rfl⟩ <;>
  simp [EtcdClient.WriteBuildInfo, hj, Put_lookup, key_eq_iff, hput]

theorem domain_key_ne (host : String) :
    "domain:" ++ host ≠ "managed-by" ∧ "domain:" ++ host ≠ "echo-project" := by
  have hd : ("domain:" ++ host).data.head? = some 'd' := by
    rw [String.data_append]; rfl
  constructor
  · intro h
    rw [h] at hd
    revert hd
    decide
  · intro h
    rw [h] at hd
    revert hd
    decide

/-- The labels of the create request: the owner marker, the project marker carrying the
build's name, the domain label when the exec spec has a domain hint, and nothing else. -/
theorem createRequest_labels (build : PublishedBuild) (imgID : String) (imgCmd : List String) :
    (createRequest build imgID imgCmd).1.Labels.lookup "managed-by" = some "echocicd" ∧
    (createRequest build imgID imgCmd).1.Labels.lookup "echo-project" = some build.Name ∧
    (∀ dom, build.Exec.Domain = some dom →
      (createRequest build imgID imgCmd).1.Labels.lookup ("domain:" ++ dom.Host) =
        some (Itoa dom.Port)) ∧
    (∀ k, ((createRequest build imgID imgCmd).1.Labels.lookup k).isSome = true ↔
      k = "managed-by" ∨ k = "echo-project" ∨
        ∃ dom, build.Exec.Domain = some dom ∧ k = "domain:" ++ dom.Host) := by
  have hbase : ∀ k, (GoMap.ofList [("managed-by", "echocicd"), ("echo-project", build.Name)]).lookup k
      = if k = "echo-project" then some build.Name
        else if k = "managed-by" then some "echocicd" else none := by
    intro k
    simp [GoMap.ofList, GoMap.lookup_set, GoMap.lookup_empty]
  cases hdom : build.Exec.Domain with
  | none =>
    simp only [createRequest, hdom, hbase]
    refine ⟨by simp, by simp, by simp, ?_⟩
    intro k
    by_cases h1 : k = "echo-project"
    · simp [h1]
    · by_cases h2 : k = "managed-by"
      · simp [h2]
      · simp [h1, h2]
  | some dom =>
    obtain ⟨hn1, hn2⟩ := domain_key_ne dom.Host
    simp only [createRequest, hdom, GoMap.lookup_set, hbase]
    refine ⟨?_, ?_, ?_, ?_⟩
    · rw [if_neg (Ne.symm hn1)]; simp
    · rw [if_neg (Ne.symm hn2)]; simp
    · intro d2 hd2
      injection hd2 with hd2
      subst hd2
      simp
    · intro k
      by_cases h0 : k = "domain:" ++ dom.Host
      · simp [h0]
      · by_cases h1 : k = "echo-project"
        · subst h1
          simp [Ne.symm hn2]
        · by_cases h2 : k = "managed-by"
          · subst h2
            simp [Ne.symm hn1]
          · simp [h0, h1, h2]

/-- Every create request of a handler run is the `createRequest` of the handled build. -/
theorem agentHandler_create_mem (json : Json) (engine : Docker → Replies)
    (registryAuth : GoMap String) (config : PublishedBuild) (conn : Docker)
    (cfg : ContainerConfig) (hc : HostConfig)
    (hmem : DockerCall.ContainerCreate cfg hc ∈
      (agentHandler json engine registryAuth config conn).calls.drop conn.calls.length) :
    ∃ imgID imgCmd, cfg = (createRequest config imgID imgCmd).1 ∧
      hc = (createRequest config imgID imgCmd).2 := by
  obtain ⟨cl, hcl, hkinds⟩ := cleanup_calls_kinds conn (engine conn) config.Name
  obtain ⟨hfail, hok⟩ := agentHandler_calls json engine registryAuth config conn
  have hnotcl : DockerCall.ContainerCreate cfg hc ∉
      DockerCall.ContainerList true ["echo-project=" ++ config.Name, "managed-by=echocicd"] ::
        cl := by
    intro h
    rcases List.mem_cons.mp h with h | h
    · cases h
    · have := hkinds _ h
      simp [DockerCall.isCleanupRequest] at this
  cases hres : (conn.CleanupExistingContainers (engine conn) config.Name).2 with
  | some e =>
    rw [hfail (by rw [hres]; rfl), hcl, drop_calls] at hmem
    exact absurd hmem hnotcl
  | none =>
    rw [hok hres] at hmem
    obtain ⟨post, hcalls, hpost⟩ := RunContainer_paths
      (conn.CleanupExistingContainers (engine conn) config.Name).1
      (engine (conn.CleanupExistingContainers (engine conn) config.Name).1)
      json config registryAuth
    obtain ⟨pre, hpre, hprekind⟩ : ∃ pre,
        ((conn.CleanupExistingContainers (engine conn) config.Name).1.resolveImage
          (engine (conn.CleanupExistingContainers (engine conn) config.Name).1) json config
          ((registryAuth.lookup config.Registry).getD "")).1.calls =
          (conn.CleanupExistingContainers (engine conn) config.Name).1.calls ++ pre ∧
        DockerCall.ContainerCreate cfg hc ∉ pre := by
      rcases resolveImage_paths (conn.CleanupExistingContainers (engine conn) config.Name).1
        (engine (conn.CleanupExistingContainers (engine conn) config.Name).1) json config
        ((registryAuth.lookup config.Registry).getD "") with
        ⟨img, -, h, -⟩ | ⟨-, ⟨h, -⟩ | ⟨h, -⟩⟩ <;> exact ⟨_, h, by simp⟩
    rw [hcalls, hpre, hcl, List.append_assoc, List.append_assoc, drop_calls] at hmem
    rcases List.mem_append.mp hmem with h | h
    · exact absurd h hnotcl
    · rcases List.mem_append.mp h with h | h
      · exact absurd h hprekind
      · rcases hpost with ⟨rfl, -⟩ | ⟨img, ic, -, -, ⟨rfl, -⟩ | ⟨created, -, -, rfl, -⟩⟩
        · simp at h
        · simp only [List.mem_singleton, DockerCall.ContainerCreate.injEq] at h
          exact ⟨img.ID, ic.Cmd, h.1, h.2⟩
        · simp only [List.mem_cons, List.mem_singleton, DockerCall.ContainerCreate.injEq,
            reduceCtorEq, List.not_mem_nil, or_false] at h
          exact ⟨img.ID, ic.Cmd, h.1, h.2⟩

/-! ## Lemmas: decoding a status line -/

theorem saveError_eq_none (saved : Option String) (err : String) :
    saveError saved err = none ↔ False := by
  cases saved <;> simp [saveError]

theorem storeString_saved (v : JsonValue) (field current : String) (saved : Option String) :
    (storeString v field current saved).2 = none ↔ saved = none ∧ v.isStringOrNull = true := by
  cases v <;> simp [storeString, JsonValue.isStringOrNull, saveError_eq_none]

theorem storeDetailMember_saved (acc : ErrorDetail × Option String)
    (member : String × JsonValue) :
    (storeDetailMember acc member).2 = none ↔ acc.2 = none ∧ detailMemberFits member = true := by
  unfold storeDetailMember detailMemberFits
  by_cases h : fieldMatches "message" member.1 = true
  · simp [h, storeString_saved]
  · simp [h]

theorem foldl_storeDetailMember_saved (members : List (String × JsonValue))
    (acc : ErrorDetail × Option String) :
    (members.foldl storeDetailMember acc).2 = none ↔
      acc.2 = none ∧ members.all detailMemberFits = true := by
  induction members generalizing acc with
  | nil => simp
  | cons m ms ih =>
    rw [List.foldl_cons, ih, storeDetailMember_saved]
    simp [and_assoc]

theorem storeErrorDetail_saved (v : JsonValue) (current : ErrorDetail) (saved : Option String) :
    (storeErrorDetail v current saved).2 = none ↔
      saved = none ∧
      (match v with
        | .null => true
        | .object members => members.all detailMemberFits
        | _ => false) = true := by
  cases v <;> simp [storeErrorDetail, saveError_eq_none, foldl_storeDetailMember_saved]

theorem storeLineMember_saved (acc : ErrorLine × Option String) (member : String × JsonValue) :
    (storeLineMember acc member).2 = none ↔ acc.2 = none ∧ memberFits member = true := by
  unfold storeLineMember memberFits
  by_cases h : fieldMatches "error" member.1 = true
  · simp [h, storeString_saved]
  · by_cases h2 : fieldMatches "errorDetail" member.1 = true
    · simp [h, h2, storeErrorDetail_saved]
    · simp [h, h2]

theorem foldl_storeLineMember_saved (members : List (String × JsonValue))
    (acc : ErrorLine × Option String) :
    (members.foldl storeLineMember acc).2 = none ↔
      acc.2 = none ∧ members.all memberFits = true := by
  induction members generalizing acc with
  | nil => simp
  | cons m ms ih =>
    rw [List.foldl_cons, ih, storeLineMember_saved]
    simp [and_assoc]

theorem storeLineMember_Error (acc : ErrorLine × Option String) (member : String × JsonValue) :
    (storeLineMember acc member).1.Error = (errorStrings [member]).getLastD acc.1.Error := by
  unfold storeLineMember errorStrings
  by_cases h : fieldMatches "error" member.1 = true
  · cases hv : member.2 <;> simp [h, hv, storeString]
  · by_cases h2 : fieldMatches "errorDetail" member.1 = true
    · simp [h, h2]
    · simp [h, h2]

theorem errorStrings_cons (m : String × JsonValue) (ms : List (String × JsonValue)) :
    errorStrings (m :: ms) = errorStrings [m] ++ errorStrings ms := by
  unfold errorStrings
  rw [← List.filterMap_append]
  rfl

theorem getLastD_append (xs ys : List String) (d : String) :
    (xs ++ ys).getLastD d = ys.getLastD (xs.getLastD d) := by
  induction ys using List.reverseRecOn with
  | nil => simp
  | append_singleton ys y _ =>
    rw [← List.append_assoc]
    simp [List.getLastD_eq_getLast?]

theorem foldl_storeLineMember_Error (members : List (String × JsonValue))
    (acc : ErrorLine × Option String) :
    (members.foldl storeLineMember acc).1.Error = (errorStrings members).getLastD acc.1.Error := by
  induction members generalizing acc with
  | nil => simp [errorStrings]
  | cons m ms ih =>
    rw [List.foldl_cons, ih, storeLineMember_Error, errorStrings_cons m ms, getLastD_append]

/-- What `json.Unmarshal` makes of a final line, read off the JSON value it holds. -/
theorem UnmarshalErrorLine_reportedAsFailure (line : String) :
    ((UnmarshalErrorLine line).isOk = false ∨
      ∃ l, UnmarshalErrorLine line = .ok l ∧ l.Error ≠ "") ↔
    reportedAsFailure line = true := by
  unfold UnmarshalErrorLine reportedAsFailure
  cases hv : checkValid line.data with
  | error e => simp [Except.isOk, Except.toBool]
  | ok v =>
    cases v with
    | null => simp [decodeErrorLine, Except.isOk, Except.toBool]
    | bool b => simp [decodeErrorLine, Except.isOk, Except.toBool]
    | number t => simp [decodeErrorLine, Except.isOk, Except.toBool]
    | string s => simp [decodeErrorLine, Except.isOk, Except.toBool]
    | array items => simp [decodeErrorLine, Except.isOk, Except.toBool]
    | object members =>
      have hs := foldl_storeLineMember_saved members
        ({ Error := "", ErrorDetail := { Message := "" } }, none)
      have he := foldl_storeLineMember_Error members
        ({ Error := "", ErrorDetail := { Message := "" } }, none)
      simp only [decodeErrorLine]
      generalize members.foldl storeLineMember
        ({ Error := "", ErrorDetail := { Message := "" } }, none) = r at hs he
      obtain ⟨l, saved⟩ := r
      simp only at hs he
      cases saved with
      | some e =>
        have hf : ¬ members.all memberFits = true := fun h => by
          have h2 := hs.mpr ⟨by simp, h⟩
          simp at h2
        simp only [Bool.not_eq_true] at hf
        simp [Except.isOk, Except.toBool, hf]
      | none =>
        have hf : members.all memberFits = true := (hs.mp (by simp)).2
        simp only [errorField, ← he]
        simp [Except.isOk, Except.toBool, hf]

/-- The scan of a stream that ended without a scan failure, for any codec. -/
theorem ScanForDockerError_isSome_iff (json : Json) (reader : ResponseStream)
    (hscan : reader.scanErr = none) :
    (ScanForDockerError json reader).isSome = true ↔
      (json.unmarshalErrorLine (reader.lines.getLastD "")).isOk = false ∨
      ∃ line, json.unmarshalErrorLine (reader.lines.getLastD "") = .ok line ∧
        line.Error ≠ "" := by
  have hlast : ∀ (ls : List String) (init : String),
      ls.foldl (fun _ line => line) init = ls.getLastD init := by
    intro ls
    induction ls with
    | nil => intro init; rfl
    | cons l ls ih => intro init; rw [List.foldl_cons, ih]; cases ls <;> simp [List.getLastD]
  unfold ScanForDockerError
  simp only [hlast, hscan]
  cases hdec : json.unmarshalErrorLine (reader.lines.getLastD "") with
  | error e => simp [Except.isOk, Except.toBool]
  | ok line =>
    by_cases herr : line.Error = ""
    · simp [herr, Except.isOk, Except.toBool]
    · simp [herr, Except.isOk, Except.toBool]

/-- Only the last line of a stream is looked at. -/
theorem ScanForDockerError_last_line (json : Json) (earlier : List String) (final : String)
    (scanErr : Option String) :
    ScanForDockerError json { lines := earlier ++ [final], scanErr := scanErr } =
      ScanForDockerError json { lines := [final], scanErr := scanErr } := by
  unfold ScanForDockerError
  simp
/-- The depth check of `pushParseState`: a value that would be the 10001st open one is
rejected. -/
theorem pushParseState_max_depth (s : Scanner) (newParseState : ParseState) (successState : Step)
    (h : s.parseState.length = maxNestingDepth) :
    s.pushParseState newParseState successState = .error "exceeded max depth" := by
  simp [Scanner.pushParseState, h]

/-- Status lines that `json.Unmarshal` accepts for an `ErrorLine`: `null`, objects with
any other members, keys in any case or escaped, the last `error` member winning, `null`
members leaving a field as it is, surrogate escapes. -/
theorem UnmarshalErrorLine_accepts :
    UnmarshalErrorLine " null " = .ok { Error := "", ErrorDetail := { Message := "" } } ∧
    UnmarshalErrorLine "\x7b \x7d" = .ok { Error := "", ErrorDetail := { Message := "" } } ∧
    UnmarshalErrorLine "\x7b\"status\":\"Pulling\",\"progressDetail\":\x7b\"current\":12,\"total\":3.5e2\x7d,\"id\":[true,false,null]\x7d" =
      .ok { Error := "", ErrorDetail := { Message := "" } } ∧
    UnmarshalErrorLine "\x7b\"errorDetail\":\x7b\"message\":\"pull access denied\"\x7d,\"error\":\"pull access denied\"\x7d" =
      .ok { Error := "pull access denied", ErrorDetail := { Message := "pull access denied" } } ∧
    UnmarshalErrorLine "\x7b\"ERROR\":\"x\",\"ErrorDetail\":null\x7d" =
      .ok { Error := "x", ErrorDetail := { Message := "" } } ∧
    UnmarshalErrorLine "\x7b\"\\u0065rror\":\"x\"\x7d" =
      .ok { Error := "x", ErrorDetail := { Message := "" } } ∧
    UnmarshalErrorLine "\x7b\"error\":\"a\",\"error\":\"\"\x7d" =
      .ok { Error := "", ErrorDetail := { Message := "" } } ∧
    UnmarshalErrorLine "\x7b\"error\":\"a\",\"error\":null\x7d" =
      .ok { Error := "a", ErrorDetail := { Message := "" } } ∧
    UnmarshalErrorLine "\x7b\"error \":1,\"a\":\x7b\"error\":\"deep\"\x7d\x7d" =
      .ok { Error := "", ErrorDetail := { Message := "" } } ∧
    UnmarshalErrorLine "\x7b\"error\":\"\\u00e9\\n\\/\\ud83d\\ude00\\ud83dx\"\x7d" =
      .ok { Error := "é\n/😀\ufffdx", ErrorDetail := { Message := "" } } := by
  decide

/-- Status lines that `json.Unmarshal` rejects for an `ErrorLine`: texts that are not
JSON, values that are neither `null` nor an object, members of the wrong type. -/
theorem UnmarshalErrorLine_rejects :
    (UnmarshalErrorLine "").isOk = false ∧
    (UnmarshalErrorLine "  ").isOk = false ∧
    (UnmarshalErrorLine "nul").isOk = false ∧
    (UnmarshalErrorLine "null x").isOk = false ∧
    (UnmarshalErrorLine "\x7b\"error\":\"x\"\x7d\x7b\x7d").isOk = false ∧
    (UnmarshalErrorLine "\x7b\"a\":1,\x7d").isOk = false ∧
    (UnmarshalErrorLine "\x7b\"a\":[1\x7d\x7d").isOk = false ∧
    (UnmarshalErrorLine "\x7b\"status\":\"a\tb\"\x7d").isOk = false ∧
    (UnmarshalErrorLine "\x7b\"status\":\"a\\qb\"\x7d").isOk = false ∧
    (UnmarshalErrorLine "\x7b\"status\":01\x7d").isOk = false ∧
    (UnmarshalErrorLine "\x7b\"status\":1.\x7d").isOk = false ∧
    (UnmarshalErrorLine "true").isOk = false ∧
    (UnmarshalErrorLine "-1.5e+3").isOk = false ∧
    (UnmarshalErrorLine "\"error\"").isOk = false ∧
    (UnmarshalErrorLine "[\x7b\"error\":\"\"\x7d]").isOk = false ∧
    (UnmarshalErrorLine "\x7b\"error\":1\x7d").isOk = false ∧
    (UnmarshalErrorLine "\x7b\"error\":1,\"error\":\"\"\x7d").isOk = false ∧
    (UnmarshalErrorLine "\x7b\"Error\":\x7b\x7d\x7d").isOk = false ∧
    (UnmarshalErrorLine "\x7b\"errorDetail\":[]\x7d").isOk = false ∧
    (UnmarshalErrorLine "\x7b\"errorDetail\":\x7b\"Message\":1\x7d\x7d").isOk = false ∧
    (UnmarshalErrorLine "\x7b\"errorDetail\":\x7b\"meſſage\":true\x7d\x7d").isOk = false := by
  decide

/-! # The claims -/

/-- C1. For every codec, prior store state `c` and artifact, when the exec spec serialises
to `j`, `j` decodes back to the exec spec, the publish time is an `int64` and all seven
writes succeed, `WriteBuildInfo` returns no error and `GetStoredConfig` on the key-safe
repo name (`/` replaced by `__`) returns Name, Version, Tag, Registry and Exec as published
and Timestamp equal to the publish time. As `c` is arbitrary, this covers a store that
already holds an artifact under the same key: after a first publish (complete or partial)
followed by this one, the fetched artifact is this one, field for field. -/
theorem publish_then_fetch (json : Json) (putOk : Nat → Bool) (now : Int)
    (c : EtcdClient) (repo name hash tag registry : String) (config : ExecProperties)
    (j : String) (hlo : -2 ^ 63 ≤ now) (hhi : now < 2 ^ 63)
    (hj : json.marshalExec config = .ok j) (hdec : json.unmarshalExec j = .ok config)
    (hput : ∀ i, i < 7 → putOk i = true) :
    (c.WriteBuildInfo json putOk now repo name hash tag registry config).2 = none ∧
    (c.WriteBuildInfo json putOk now repo name hash tag registry config).1.GetStoredConfig
        json true (ReplaceAll repo "/" "__") =
      .ok { Name := name, Version := hash, Timestamp := now, Tag := tag,
            Registry := registry, Exec := config } ∧
    ∀ (putOk1 : Nat → Bool) (now1 : Int) (repo1 name1 hash1 tag1 registry1 : String)
      (config1 : ExecProperties),
      ReplaceAll repo1 "/" "__" = ReplaceAll repo "/" "__" →
      ((c.WriteBuildInfo json putOk1 now1 repo1 name1 hash1 tag1 registry1 config1).1.WriteBuildInfo
          json putOk now repo name hash tag registry config).1.GetStoredConfig
        json true (ReplaceAll repo "/" "__") =
      .ok { Name := name, Version := hash, Timestamp := now, Tag := tag,
            Registry := registry, Exec := config } := by
  have key : ∀ c0 : EtcdClient,
      (c0.WriteBuildInfo json putOk now repo name hash tag registry config).1.GetStoredConfig
        json true (ReplaceAll repo "/" "__") =
      .ok { Name := name, Version := hash, Timestamp := now, Tag := tag,
            Registry := registry, Exec := config } := by
    intro c0
    rw [GetStoredConfig_eq_ok_iff]
    refine ⟨name, hash, FormatInt now, now, tag, registry, j, config, ?_, ?_, ?_,
      ParseInt_FormatInt now hlo hhi, ?_, ?_, ?_, hdec, rfl⟩ <;>
    simp [EtcdClient.WriteBuildInfo, hj, Put_lookup, key_eq_iff, hput]
  refine ⟨?_, key c, fun putOk1 now1 repo1 name1 hash1 tag1 registry1 config1 _ => key _⟩
  have h := WriteBuildInfo_err_isSome json putOk now c repo name hash tag registry config j hj
  cases hr : (c.WriteBuildInfo json putOk now repo name hash tag registry config).2 with
  | none => rfl
  | some e =>
    rw [hr] at h
    obtain ⟨i, hi, hf⟩ := h.mp rfl
    rw [hput i hi] at hf
    cases hf

theorem publish_then_fetch_witness :
    (-2 ^ 63 ≤ (1700000000123 : Int) ∧ (1700000000123 : Int) < 2 ^ 63 ∧
      sampleJson.marshalExec sampleExec = .ok sampleExecBlob ∧
      sampleJson.unmarshalExec sampleExecBlob = .ok sampleExec) ∧
    (emptyClient.WriteBuildInfo sampleJson (fun _ => true) 1700000000123
        "org/app" "app" "abc" "app:abc" "registry.example.org" sampleExec).2 = none ∧
    (emptyClient.WriteBuildInfo sampleJson (fun _ => true) 1700000000123
        "org/app" "app" "abc" "app:abc" "registry.example.org" sampleExec).1.GetStoredConfig
        sampleJson true (ReplaceAll "org/app" "/" "__") =
      .ok { Name := "app", Version := "abc", Timestamp := 1700000000123, Tag := "app:abc",
            Registry := "registry.example.org", Exec := sampleExec } ∧
    ((emptyClient.WriteBuildInfo sampleJson (fun _ => true) 1600000000000
        "org/app" "old-app" "000" "old-app:000" "" sampleExec).1.WriteBuildInfo
        sampleJson (fun _ => true) 1700000000123
        "org/app" "app" "abc" "app:abc" "registry.example.org" sampleExec).1.GetStoredConfig
        sampleJson true (ReplaceAll "org/app" "/" "__") =
      .ok { Name := "app", Version := "abc", Timestamp := 1700000000123, Tag := "app:abc",
            Registry := "registry.example.org", Exec := sampleExec } :=
  ⟨⟨by decide, by decide, by decide, by decide⟩,
   (publish_then_fetch sampleJson (fun _ => true) 1700000000123 emptyClient
      "org/app" "app" "abc" "app:abc" "registry.example.org" sampleExec sampleExecBlob
      (by decide) (by decide) (by decide) (by decide) (fun _ _ => rfl)).1,
   (publish_then_fetch sampleJson (fun _ => true) 1700000000123 emptyClient
      "org/app" "app" "abc" "app:abc" "registry.example.org" sampleExec sampleExecBlob
      (by decide) (by decide) (by decide) (by decide) (fun _ _ => rfl)).2.1,
   (publish_then_fetch sampleJson (fun _ => true) 1700000000123 emptyClient
      "org/app" "app" "abc" "app:abc" "registry.example.org" sampleExec sampleExecBlob
      (by decide) (by decide) (by decide) (by decide) (fun _ _ => rfl)).2.2
      (fun _ => true) 1600000000000 "org/app" "old-app" "000" "old-app:000" "" sampleExec rfl⟩

/-- C2. For every codec, store state and project key `k`, `GetStoredConfig(k)` (its read
answered) succeeds if and only if the six entries `echocicd/builds/k/name`, `/version`,
`/timestamp`, `/tag`, `/registry`, `/exec` are present, the timestamp entry parses as a
base-10 64-bit integer and the exec entry decodes; it fails when one of the six is absent
or the exec blob does not decode; and two stores that agree on the six entries give the
same result, whatever else they hold. -/
theorem GetStoredConfig_succeeds_iff (json : Json) (c : EtcdClient) (k : String) :
    ((c.GetStoredConfig json true k).isOk = true ↔
      (∀ f ∈ requiredFields, (c.kvs.lookup ("echocicd/builds/" ++ k ++ f)).isSome = true) ∧
      (∃ ts, c.kvs.lookup ("echocicd/builds/" ++ k ++ "/timestamp") = some ts ∧
        (ParseInt ts).isSome = true) ∧
      (∃ raw, c.kvs.lookup ("echocicd/builds/" ++ k ++ "/exec") = some raw ∧
        (json.unmarshalExec raw).isOk = true)) ∧
    (∀ f ∈ requiredFields, c.kvs.lookup ("echocicd/builds/" ++ k ++ f) = none →
      (c.GetStoredConfig json true k).isOk = false) ∧
    (∀ raw, c.kvs.lookup ("echocicd/builds/" ++ k ++ "/exec") = some raw →
      (json.unmarshalExec raw).isOk = false → (c.GetStoredConfig json true k).isOk = false) ∧
    (∀ c2 : EtcdClient,
      (∀ f ∈ requiredFields, c2.kvs.lookup ("echocicd/builds/" ++ k ++ f) =
        c.kvs.lookup ("echocicd/builds/" ++ k ++ f)) →
      c2.GetStoredConfig json true k = c.GetStoredConfig json true k) := by
  refine ⟨?_, ?_, ?_, ?_⟩
  · rw [Except.isOk_iff_exists]
    simp only [requiredFields, List.forall_mem_cons, List.not_mem_nil, false_imp_iff,
      implies_true, and_true, GetStoredConfig_eq_ok_iff, Option.isSome_iff_exists,
      Except.isOk_iff_exists]
    constructor
    · rintro ⟨b, name, version, ts, t, tag, registry, raw, e, h1, h2, h3, h4, h5, h6, h7, h8, rfl⟩
      exact ⟨⟨⟨_, h1⟩, ⟨_, h2⟩, ⟨_, h3⟩, ⟨_, h5⟩, ⟨_, h6⟩, ⟨_, h7⟩⟩, ⟨ts, h3, t, h4⟩, ⟨raw, h7, e, h8⟩⟩
    · rintro ⟨⟨⟨name, h1⟩, ⟨version, h2⟩, -, ⟨tag, h5⟩, ⟨registry, h6⟩, -⟩, ⟨ts, h3, t, h4⟩,
        ⟨raw, h7, e, h8⟩⟩
      exact ⟨_, name, version, ts, t, tag, registry, raw, e, h1, h2, h3, h4, h5, h6, h7, h8, rfl⟩
  · intro f hf hnone
    rw [Except.isOk_eq_false_iff]
    intro b hb
    obtain ⟨name, version, ts, t, tag, registry, raw, e, h1, h2, h3, h4, h5, h6, h7, h8, -⟩ :=
      (GetStoredConfig_eq_ok_iff json c k b).mp hb
    simp only [requiredFields, List.mem_cons, List.mem_singleton, List.not_mem_nil, or_false] at hf
    rcases hf with rfl | rfl | rfl | rfl | rfl | rfl <;> simp_all
  · intro raw hraw hbad
    rw [Except.isOk_eq_false_iff]
    intro b hb
    obtain ⟨name, version, ts, t, tag, registry, raw2, e, h1, h2, h3, h4, h5, h6, h7, h8, -⟩ :=
      (GetStoredConfig_eq_ok_iff json c k b).mp hb
    rw [hraw] at h7
    cases h7
    rw [h8] at hbad
    simp [Except.isOk, Except.toBool] at hbad
  · intro c2 h
    simp only [requiredFields, List.forall_mem_cons, List.not_mem_nil, false_imp_iff,
      implies_true, and_true] at h
    obtain ⟨h1, h2, h3, h4, h5, h6⟩ := h
    rw [GetStoredConfig_unfold, GetStoredConfig_unfold, h1, h2, h3, h4, h5, h6]

theorem GetStoredConfig_succeeds_iff_witness :
    (publishedClient.GetStoredConfig sampleJson true "org__app").isOk = true ∧
    (emptyClient.GetStoredConfig sampleJson true "org__app").isOk = false :=
  ⟨(GetStoredConfig_succeeds_iff sampleJson publishedClient "org__app").1.mpr
      ⟨by decide, ⟨"1700000000123", by decide, by decide⟩, ⟨sampleExecBlob, by decide, by decide⟩⟩,
   (GetStoredConfig_succeeds_iff sampleJson emptyClient "org__app").2.1 "/name" (by decide)
      (by decide)⟩

/-- C3. Whatever the outcome of each of the seven writes (`putOk`), `WriteBuildInfo` sends
all seven `Put` requests, in source order, a failed one not stopping the later ones; it
returns a non-nil error if and only if at least one write failed; and every write that
succeeded is in the store afterwards with the new value (nothing is rolled back), also when
an error is returned. `j` is the serialised exec spec. -/
theorem WriteBuildInfo_attempts_all_no_rollback (json : Json) (putOk : Nat → Bool) (now : Int)
    (c : EtcdClient) (repo name hash tag registry : String) (config : ExecProperties)
    (j : String) (hj : json.marshalExec config = .ok j) :
    (c.WriteBuildInfo json putOk now repo name hash tag registry config).1.puts =
      c.puts ++ publishedEntries repo name hash tag registry j now ∧
    ((c.WriteBuildInfo json putOk now repo name hash tag registry config).2.isSome = true ↔
      ∃ i, i < 7 ∧ putOk i = false) ∧
    ∀ i k v, (publishedEntries repo name hash tag registry j now)[i]? = some (k, v) →
      putOk i = true →
      (c.WriteBuildInfo json putOk now repo name hash tag registry config).1.kvs.lookup k =
        some v := by
  refine ⟨?_, ?_, ?_⟩
  · simp [EtcdClient.WriteBuildInfo, hj, Put_puts, publishedEntries]
  · exact WriteBuildInfo_err_isSome json putOk now c repo name hash tag registry config j hj
  · intro i k v hi hok
    have hlt : i < 7 := by
      by_contra hge
      have : (publishedEntries repo name hash tag registry j now)[i]? = none := by
        apply List.getElem?_eq_none
        simp [publishedEntries]; omega
      rw [this] at hi; cases hi
    interval_cases i <;>
      simp only [publishedEntries, List.getElem?_cons_zero, List.getElem?_cons_succ,
        Option.some.injEq, Prod.mk.injEq] at hi <;>
      obtain ⟨rfl, rfl⟩ := hi <;>
      simp [EtcdClient.WriteBuildInfo, hj, Put_lookup, key_eq_iff, hok]

theorem WriteBuildInfo_attempts_all_no_rollback_witness :
    sampleJson.marshalExec sampleExec = .ok sampleExecBlob ∧
    (emptyClient.WriteBuildInfo sampleJson (fun i => decide (i ≠ 4)) 1700000000123
        "org/app" "app" "abc" "app:abc" "" sampleExec).1.puts =
      emptyClient.puts ++ publishedEntries "org/app" "app" "abc" "app:abc" "" sampleExecBlob
        1700000000123 ∧
    ((emptyClient.WriteBuildInfo sampleJson (fun i => decide (i ≠ 4)) 1700000000123
        "org/app" "app" "abc" "app:abc" "" sampleExec).2.isSome = true ↔
      ∃ i, i < 7 ∧ (fun i => decide (i ≠ 4)) i = false) ∧
    ∀ i k v, (publishedEntries "org/app" "app" "abc" "app:abc" "" sampleExecBlob
        1700000000123)[i]? = some (k, v) →
      (fun i => decide (i ≠ 4)) i = true →
      (emptyClient.WriteBuildInfo sampleJson (fun i => decide (i ≠ 4)) 1700000000123
        "org/app" "app" "abc" "app:abc" "" sampleExec).1.kvs.lookup k = some v :=
  ⟨by decide, WriteBuildInfo_attempts_all_no_rollback sampleJson (fun i => decide (i ≠ 4))
    1700000000123 emptyClient "org/app" "app" "abc" "app:abc" "" sampleExec sampleExecBlob
    (by decide)⟩

/-- C4. In synchronous mode, for every sequence of watch responses read before the context
is cancelled (or while the loop is still waiting), the handler has been run, in event
order, exactly once for each event that announces an artifact, on that artifact, and for
no other event; the loop does not panic. An event announces the artifact `b` if and only if
it is a PUT on a key `echocicd/builds/<k>/exec` with `k` non-empty and free of `/` and
`GetStoredConfig(k)`, on the store as it is when the event is handled, succeeds with `b`. -/
theorem WatchForBuild_sync_notifies {σ : Type} (json : Json) (handler : PublishedBuild → σ → σ)
    (responses : List (List Delivered)) (rest : List Select) (w : σ) :
    (∀ d b, notification json d = some b ↔
      ∃ k, d.event.Typ = EventType.PUT ∧ d.event.Key = "echocicd/builds/" ++ k ++ "/exec" ∧
        k ≠ "" ∧ '/' ∉ k.data ∧ d.store.GetStoredConfig json d.answered k = .ok b) ∧
    WatchForBuild json handler false (responses.map Select.response ++ Select.done :: rest) w =
      { world := (responses.flatten.filterMap (notification json)).foldl
          (fun w b => handler b w) w,
        spawned := [], panicked := false } ∧
    WatchForBuild json handler false (responses.map Select.response) w =
      { world := (responses.flatten.filterMap (notification json)).foldl
          (fun w b => handler b w) w,
        spawned := [], panicked := false } := by
  refine ⟨notification_eq_some_iff json, ?_, ?_⟩
  · exact watchLoop_sync json handler responses _ (Or.inr ⟨rest, rfl⟩)
      { world := w, spawned := [], panicked := false } rfl
  · have h := watchLoop_sync json handler responses [] (Or.inl rfl)
      { world := w, spawned := [], panicked := false } rfl
    rw [List.append_nil] at h
    exact h

theorem WatchForBuild_sync_notifies_witness :
    WatchForBuild sampleJson (fun b w => w ++ [b.Name]) false
        ([sampleEvents].map Select.response ++ Select.done :: []) [] =
      { world := ["app"], spawned := [], panicked := false } :=
  ((WatchForBuild_sync_notifies sampleJson (fun b w => w ++ [b.Name]) [sampleEvents] [] []).2.1).trans
    (by decide)

/-- C5. For every request to `/hook`, allow-list and channel buffer, the status is that of
the first failing check, in the order: method is POST (else 405); the body is read and
decodes as a push event (else 500); the ref is allowed (else 403); the `X-GitHub-Event`
header is `push` (else 400); and when all pass the event is sent to the channel and the
status is 200 (with a full buffer the handler is suspended at the send, nothing written).
The channel holds the decoded event, appended, exactly when the status is 200; on every
other outcome it is unchanged. -/
theorem hookHandler_first_failing_check (json : Json) (allowedRefs : GoMap (List String))
    (request : Request) (channel : List PushPayload) :
    (request.Method ≠ "POST" →
      hookHandler json allowedRefs request channel = { status := some 405, channel := channel }) ∧
    (request.Method = "POST" →
      (¬ ∃ body p, request.Body = .ok body ∧ json.unmarshalPush body = .ok p) →
      hookHandler json allowedRefs request channel = { status := some 500, channel := channel }) ∧
    (∀ body p, request.Method = "POST" → request.Body = .ok body →
      json.unmarshalPush body = .ok p →
      (¬ RefAllowed allowedRefs p.Repository.FullName p.Ref →
        hookHandler json allowedRefs request channel =
          { status := some 403, channel := channel }) ∧
      (RefAllowed allowedRefs p.Repository.FullName p.Ref →
        request.Header "X-GitHub-Event" ≠ "push" →
        hookHandler json allowedRefs request channel =
          { status := some 400, channel := channel }) ∧
      (RefAllowed allowedRefs p.Repository.FullName p.Ref →
        request.Header "X-GitHub-Event" = "push" →
        (channel.length < 100 →
          hookHandler json allowedRefs request channel =
            { status := some 200, channel := channel ++ [p] }) ∧
        (¬ channel.length < 100 →
          hookHandler json allowedRefs request channel =
            { status := none, channel := channel })) ∧
      ((hookHandler json allowedRefs request channel).status = some 200 ↔
        (hookHandler json allowedRefs request channel).channel = channel ++ [p])) ∧
    ((hookHandler json allowedRefs request channel).status ≠ some 200 →
      (hookHandler json allowedRefs request channel).channel = channel) := by
  have hdec : ∀ body p, request.Method = "POST" → request.Body = .ok body →
      json.unmarshalPush body = .ok p →
      (¬ RefAllowed allowedRefs p.Repository.FullName p.Ref →
        hookHandler json allowedRefs request channel =
          { status := some 403, channel := channel }) ∧
      (RefAllowed allowedRefs p.Repository.FullName p.Ref →
        request.Header "X-GitHub-Event" ≠ "push" →
        hookHandler json allowedRefs request channel =
          { status := some 400, channel := channel }) ∧
      (RefAllowed allowedRefs p.Repository.FullName p.Ref →
        request.Header "X-GitHub-Event" = "push" →
        (channel.length < 100 →
          hookHandler json allowedRefs request channel =
            { status := some 200, channel := channel ++ [p] }) ∧
        (¬ channel.length < 100 →
          hookHandler json allowedRefs request channel =
            { status := none, channel := channel })) := by
    intro body p hm hb hp
    obtain ⟨h403, hpass⟩ := hookHandler_decoded json allowedRefs request channel body p hm hb hp
    refine ⟨h403, ?_, ?_⟩
    · intro ha he
      rw [hpass ha]
      simp [he]
    · intro ha he
      constructor
      · intro hroom
        rw [hpass ha]
        simp [he, chanSend, hroom]
      · intro hfull
        rw [hpass ha]
        simp [he, chanSend, hfull]
  have h405 : request.Method ≠ "POST" →
      hookHandler json allowedRefs request channel = { status := some 405, channel := channel } := by
    intro hm
    unfold hookHandler
    simp [hm]
  have h500 : request.Method = "POST" →
      (¬ ∃ body p, request.Body = .ok body ∧ json.unmarshalPush body = .ok p) →
      hookHandler json allowedRefs request channel = { status := some 500, channel := channel } := by
    intro hm hno
    unfold hookHandler
    simp only [hm, bne_self_eq_false, Bool.false_eq_true, if_false]
    cases hb : request.Body with
    | error e => rfl
    | ok body =>
      cases hp : json.unmarshalPush body with
      | error e => simp only [hp]
      | ok p => exact absurd ⟨body, p, hb, hp⟩ hno
  refine ⟨h405, h500, ?_, ?_⟩
  · intro body p hm hb hp
    obtain ⟨h403, h400, h200⟩ := hdec body p hm hb hp
    refine ⟨h403, h400, h200, ?_⟩
    by_cases ha : RefAllowed allowedRefs p.Repository.FullName p.Ref
    · by_cases he : request.Header "X-GitHub-Event" = "push"
      · by_cases hroom : channel.length < 100
        · rw [(h200 ha he).1 hroom]; simp
        · rw [(h200 ha he).2 hroom]; simp
      · rw [h400 ha he]; simp
    · rw [h403 ha]; simp
  · by_cases hm : request.Method = "POST"
    · by_cases hex : ∃ body p, request.Body = .ok body ∧ json.unmarshalPush body = .ok p
      · obtain ⟨body, p, hb, hp⟩ := hex
        obtain ⟨h403, h400, h200⟩ := hdec body p hm hb hp
        by_cases ha : RefAllowed allowedRefs p.Repository.FullName p.Ref
        · by_cases he : request.Header "X-GitHub-Event" = "push"
          · by_cases hroom : channel.length < 100
            · rw [(h200 ha he).1 hroom]; simp
            · rw [(h200 ha he).2 hroom]; simp
          · rw [h400 ha he]; simp
        · rw [h403 ha]; simp
      · rw [h500 hm hex]; simp
    · rw [h405 hm]; simp

theorem hookHandler_first_failing_check_witness :
    hookHandler sampleJson sampleAllowedRefs sampleRequest [] =
      { status := some 200, channel := [] ++ [samplePush] } :=
  (((hookHandler_first_failing_check sampleJson sampleAllowedRefs sampleRequest []).2.2.1
    samplePushBody samplePush (by decide) (by decide) (by decide)).2.2.1
    (Or.inl ⟨["refs/heads/main"], by decide, by decide⟩) (by decide)).1 (by decide)

/-- C6. For every allow-list, and every POST request whose body decodes to a push event
for repository `p.Repository.FullName` and ref `p.Ref`: the request is answered 403 if and
only if the ref is neither in the list stored under that repository name nor in the list
stored under `*`. With the allow-list `org/app ↦ [refs/heads/main]`, `refs/heads/main` for
`org/app` is not answered 403 and `refs/heads/feature-x` for `org/app` is; and a ref in the
list under `*` is not answered 403, whatever the repository's own entry. -/
theorem hookHandler_ref_check (json : Json) (allowedRefs : GoMap (List String))
    (request : Request) (channel : List PushPayload) (body : String) (p : PushPayload)
    (hm : request.Method = "POST") (hb : request.Body = .ok body)
    (hp : json.unmarshalPush body = .ok p) :
    ((hookHandler json allowedRefs request channel).status = some 403 ↔
      ¬ ((∃ l, allowedRefs.lookup p.Repository.FullName = some l ∧ p.Ref ∈ l) ∨
         (∃ l, allowedRefs.lookup "*" = some l ∧ p.Ref ∈ l))) ∧
    (p.Repository.FullName = "org/app" → p.Ref = "refs/heads/main" →
      (hookHandler json sampleAllowedRefs request channel).status ≠ some 403) ∧
    (p.Repository.FullName = "org/app" → p.Ref = "refs/heads/feature-x" →
      (hookHandler json sampleAllowedRefs request channel).status = some 403) ∧
    (∀ l, allowedRefs.lookup "*" = some l → p.Ref ∈ l →
      (hookHandler json allowedRefs request channel).status ≠ some 403) := by
  have main : ∀ table : GoMap (List String),
      ((hookHandler json table request channel).status = some 403 ↔
        ¬ RefAllowed table p.Repository.FullName p.Ref) := by
    intro table
    obtain ⟨h403, hpass⟩ := hookHandler_decoded json table request channel body p hm hb hp
    constructor
    · intro hs ha
      rw [hpass ha] at hs
      by_cases he : (request.Header "X-GitHub-Event" != "push") = true
      · simp [he] at hs
      · simp only [he, if_false] at hs
        cases hc : chanSend channel p <;> simp [hc] at hs
    · intro hna
      rw [h403 hna]
  refine ⟨main allowedRefs, ?_, ?_, ?_⟩
  · intro hrepo href hs
    refine (main sampleAllowedRefs).mp hs (Or.inl ⟨["refs/heads/main"], ?_, ?_⟩)
    · rw [hrepo]; decide
    · rw [href]; decide
  · intro hrepo href
    refine (main sampleAllowedRefs).mpr ?_
    rintro (⟨l, hl, hmem⟩ | ⟨l, hl, hmem⟩)
    · rw [hrepo] at hl
      have : sampleAllowedRefs.lookup "org/app" = some ["refs/heads/main"] := by decide
      rw [this] at hl
      injection hl with hl
      subst hl
      rw [href] at hmem
      revert hmem
      decide
    · have : sampleAllowedRefs.lookup "*" = none := by decide
      rw [this] at hl
      cases hl
  · intro l hl hmem hs
    exact (main allowedRefs).mp hs (Or.inr ⟨l, hl, hmem⟩)

theorem hookHandler_ref_check_witness :
    (hookHandler sampleJson sampleAllowedRefs sampleRequest []).status ≠ some 403 :=
  (hookHandler_ref_check sampleJson sampleAllowedRefs sampleRequest [] samplePushBody samplePush
    (by decide) (by decide) (by decide)).2.1 (by decide) (by decide)

/-- C7 as stated fails: the POST request with body `not json` is answered 500, so it is not
true that every POST request with a body that does not decode is answered 400. -/
theorem malformed_body_not_400 :
    (hookHandler sampleJson sampleAllowedRefs notJsonRequest []).status = some 500 ∧
    ¬ (∀ (json : Json) (allowedRefs : GoMap (List String)) (request : Request)
        (channel : List PushPayload) (body : String),
        request.Method = "POST" → request.Body = .ok body →
        (json.unmarshalPush body).isOk = false →
        (hookHandler json allowedRefs request channel).status = some 400) := by
  refine ⟨by decide, ?_⟩
  intro h
  have h400 := h sampleJson sampleAllowedRefs notJsonRequest [] "not json" (by decide) (by decide)
    (by decide)
  revert h400
  decide

/-- C7, amended. For every POST request to `/hook` whose body is read but does not decode
as a push event, the handler answers 500 and leaves the channel unchanged. -/
theorem malformed_body_500 (json : Json) (allowedRefs : GoMap (List String)) (request : Request)
    (channel : List PushPayload) (body : String)
    (hm : request.Method = "POST") (hb : request.Body = .ok body)
    (hbad : (json.unmarshalPush body).isOk = false) :
    hookHandler json allowedRefs request channel = { status := some 500, channel := channel } := by
  unfold hookHandler
  simp only [hm, bne_self_eq_false, Bool.false_eq_true, if_false, hb]
  cases hp : json.unmarshalPush body with
  | error e => simp only
  | ok p => rw [hp] at hbad; simp [Except.isOk, Except.toBool] at hbad

theorem malformed_body_500_witness :
    hookHandler sampleJson sampleAllowedRefs notJsonRequest [] =
      { status := some 500, channel := [] } :=
  malformed_body_500 sampleJson sampleAllowedRefs notJsonRequest [] "not json"
    (by decide) (by decide) (by decide)

/-- C8. For every engine state and project key: if a first `CleanupExistingContainers`
returns no error, then the engine holds no container carrying both labels
`echo-project=<key>` and `managed-by=echocicd`, and a second call whose list request is
answered sends that list request and nothing else (no stop, no remove), returns no error
and leaves the containers as they are. In the same way a call made when no container
carries both labels only sends the list request and returns no error. -/
theorem cleanup_twice_is_noop (d : Docker) (r1 r2 : Replies) (name : String)
    (hl : r2.listErr = none) :
    (∀ d1, d.CleanupExistingContainers r1 name = (d1, none) →
      (∀ c ∈ d1.containers, ¬ Owned name c) ∧
      d1.CleanupExistingContainers r2 name =
        ({ containers := d1.containers,
           calls := d1.calls ++
            [DockerCall.ContainerList true ["echo-project=" ++ name, "managed-by=echocicd"]] },
          none)) ∧
    ((∀ c ∈ d.containers, ¬ Owned name c) →
      d.CleanupExistingContainers r2 name =
        ({ containers := d.containers,
           calls := d.calls ++
            [DockerCall.ContainerList true ["echo-project=" ++ name, "managed-by=echocicd"]] },
          none)) := by
  constructor
  · intro d1 h1
    have hnone := cleanup_ok_none_owned d d1 r1 name h1
    exact ⟨hnone, cleanup_nothing_listed d1 r2 name hl hnone⟩
  · exact cleanup_nothing_listed d r2 name hl

theorem cleanup_twice_is_noop_witness :
    ((sampleDocker.CleanupExistingContainers sampleReplies "org__app").1.CleanupExistingContainers
        sampleReplies "org__app") =
      ({ containers := (sampleDocker.CleanupExistingContainers sampleReplies "org__app").1.containers,
         calls := (sampleDocker.CleanupExistingContainers sampleReplies "org__app").1.calls ++
          [DockerCall.ContainerList true ["echo-project=" ++ "org__app", "managed-by=echocicd"]] },
        none) :=
  ((cleanup_twice_is_noop sampleDocker sampleReplies sampleReplies "org__app" rfl).1
    (sampleDocker.CleanupExistingContainers sampleReplies "org__app").1 (by decide)).2

/-- C9. `CleanupExistingContainers` handles the containers carrying both labels (stopped
ones included) in list order. When its requests are answered it sends exactly: for each
listed container, a stop with timeout 60 if the state is `running` or `restarting`, then a
forced remove. When the stop of a listed container fails (the containers before it met no
failure), the call returns that stop error and has sent nothing after the failed stop:
no remove for that container, no request for a later one. Whatever fails, the requests
sent after the list request are an initial part of that sequence, and every request of the
sequence targets a container of the engine that carries both labels. -/
theorem cleanup_in_list_order (d : Docker) (r : Replies) (name : String) :
    (r.listErr = none →
      ((∀ t ∈ d.containers.filter (fun c => decide (Owned name c)),
          r.stopErr t.ID = none ∧ r.removeErr t.ID = none) →
        (d.CleanupExistingContainers r name).2 = none ∧
        (d.CleanupExistingContainers r name).1.calls =
          d.calls ++
            DockerCall.ContainerList true ["echo-project=" ++ name, "managed-by=echocicd"] ::
            cleanupCalls (d.containers.filter (fun c => decide (Owned name c)))) ∧
      (∀ pre t post e,
        d.containers.filter (fun c => decide (Owned name c)) = pre ++ t :: post →
        (∀ c ∈ pre, r.stopErr c.ID = none ∧ r.removeErr c.ID = none) →
        (t.State = "running" ∨ t.State = "restarting") → r.stopErr t.ID = some e →
        (d.CleanupExistingContainers r name).2 =
          some ("failed to stop container " ++ t.ID ++ ": " ++ e) ∧
        (d.CleanupExistingContainers r name).1.calls =
          d.calls ++
            DockerCall.ContainerList true ["echo-project=" ++ name, "managed-by=echocicd"] ::
            (cleanupCalls pre ++ [DockerCall.ContainerStop t.ID 60]))) ∧
    (∃ k, (d.CleanupExistingContainers r name).1.calls =
      d.calls ++
        DockerCall.ContainerList true ["echo-project=" ++ name, "managed-by=echocicd"] ::
        (cleanupCalls (d.containers.filter (fun c => decide (Owned name c)))).take k) ∧
    (∀ call ∈ cleanupCalls (d.containers.filter (fun c => decide (Owned name c))),
      ∃ t ∈ d.containers, Owned name t ∧
        ((call = DockerCall.ContainerStop t.ID 60 ∧
            (t.State = "running" ∨ t.State = "restarting")) ∨
          call = DockerCall.ContainerRemove t.ID true)) := by
  refine ⟨?_, ?_, ?_⟩
  · intro hl
    constructor
    · intro hok
      rw [CleanupExistingContainers_unfold, hl]
      obtain ⟨d2, h1, h2⟩ := cleanupLoop_append_ok r _ []
        { d with calls := d.calls ++
          [DockerCall.ContainerList true ["echo-project=" ++ name, "managed-by=echocicd"]] } hok
      rw [List.append_nil] at h1
      simp only [h1, cleanupLoop, h2]
      simp
    · intro pre t post e hlist hok hs he
      rw [CleanupExistingContainers_unfold, hl]
      simp only [hlist]
      obtain ⟨d2, h1, h2⟩ := cleanupLoop_append_ok r pre (t :: post)
        { d with calls := d.calls ++
          [DockerCall.ContainerList true ["echo-project=" ++ name, "managed-by=echocicd"]] } hok
      rw [h1, cleanupLoop_cons, if_pos hs, he]
      simp [h2]
  · rw [CleanupExistingContainers_unfold]
    cases r.listErr with
    | some e => exact ⟨0, by simp⟩
    | none =>
      obtain ⟨k, hk⟩ := cleanupLoop_calls_prefix r
        (d.containers.filter (fun c => decide (Owned name c)))
        { d with calls := d.calls ++
          [DockerCall.ContainerList true ["echo-project=" ++ name, "managed-by=echocicd"]] }
      exact ⟨k, by rw [hk]; simp⟩
  · intro call hcall
    obtain ⟨t, ht, h⟩ := mem_cleanupCalls _ call hcall
    rw [List.mem_filter] at ht
    exact ⟨t, ht.1, by simpa using ht.2, h⟩

theorem cleanup_in_list_order_witness :
    ((sampleDocker.CleanupExistingContainers sampleReplies "org__app").2 = none ∧
      (sampleDocker.CleanupExistingContainers sampleReplies "org__app").1.calls =
        sampleDocker.calls ++
          DockerCall.ContainerList true ["echo-project=" ++ "org__app", "managed-by=echocicd"] ::
          cleanupCalls (sampleDocker.containers.filter (fun c => decide (Owned "org__app" c)))) ∧
    ((sampleDocker.CleanupExistingContainers stopFailsReplies "org__app").2 =
        some ("failed to stop container " ++ "a" ++ ": " ++ "timeout") ∧
      (sampleDocker.CleanupExistingContainers stopFailsReplies "org__app").1.calls =
        sampleDocker.calls ++
          DockerCall.ContainerList true ["echo-project=" ++ "org__app", "managed-by=echocicd"] ::
          (cleanupCalls [] ++ [DockerCall.ContainerStop "a" 60])) :=
  ⟨((cleanup_in_list_order sampleDocker sampleReplies "org__app").1 rfl).1
      (fun _ _ => ⟨rfl, rfl⟩),
   ((cleanup_in_list_order sampleDocker stopFailsReplies "org__app").1 rfl).2 []
      { ID := "a", State := "running",
        Labels := GoMap.ofList [("managed-by", "echocicd"), ("echo-project", "org__app")] }
      [{ ID := "b", State := "exited",
         Labels := GoMap.ofList [("managed-by", "echocicd"), ("echo-project", "org__app")] }]
      "timeout" (by decide) (by simp) (Or.inl rfl) (by decide)⟩

/-- C10. For every artifact and image (id `imgID`, default command `imgCmd`), the create
request built by `RunContainer` has: the command `imgCmd` followed by the artifact's extra
arguments; one bind string per volume, in order, `<host>:<bindTo>` with `:ro` appended
exactly when the volume is read-only; for each port mapping `k ↦ h` the single binding
`0.0.0.0:<decimal h>` under `k`, and no binding under any other port; and as exposed ports
exactly the container ports of the mapping. Every `ContainerCreate` that `RunContainer`
sends carries this request for an image returned by its inspection, and it is sent when the
first inspection finds an image with a config. -/
theorem createRequest_shape (build : PublishedBuild) (imgID : String) (imgCmd : List String) :
    (createRequest build imgID imgCmd).1.Cmd = imgCmd ++ build.Exec.Args ∧
    (createRequest build imgID imgCmd).2.Binds =
      build.Exec.Volumes.map
        (fun v => if v.ReadOnly then v.Host ++ ":" ++ v.BindTo ++ ":ro"
          else v.Host ++ ":" ++ v.BindTo) ∧
    (∀ k, (createRequest build imgID imgCmd).2.PortBindings.lookup k =
      (build.Exec.Ports.lookup k).map
        (fun h => [{ HostIP := "0.0.0.0", HostPort := Itoa h }])) ∧
    (∀ k, k ∈ (createRequest build imgID imgCmd).1.ExposedPorts.keys ↔
      k ∈ build.Exec.Ports.keys) ∧
    (∀ (d : Docker) (r : Replies) (json : Json) (registryAuths : GoMap String)
        (cfg : ContainerConfig) (hc : HostConfig),
      DockerCall.ContainerCreate cfg hc ∈
        (d.RunContainer r json build registryAuths).1.calls.drop d.calls.length →
      ∃ img ic, (r.inspectFirst = .ok img ∨ r.inspectSecond = .ok img) ∧
        img.Config = some ic ∧
        cfg = (createRequest build img.ID ic.Cmd).1 ∧
        hc = (createRequest build img.ID ic.Cmd).2) ∧
    (∀ (d : Docker) (r : Replies) (json : Json) (registryAuths : GoMap String)
        (img : ImageInspect) (ic : ImageConfig),
      r.inspectFirst = .ok img → img.Config = some ic →
      DockerCall.ContainerCreate (createRequest build img.ID ic.Cmd).1
          (createRequest build img.ID ic.Cmd).2 ∈
        (d.RunContainer r json build registryAuths).1.calls.drop d.calls.length) := by
  refine ⟨rfl, ?_, ?_, ?_, ?_, ?_⟩
  · simp only [createRequest]
    rw [foldl_binds (fun v => if v.ReadOnly then v.Host ++ ":" ++ v.BindTo ++ ":ro"
      else v.Host ++ ":" ++ v.BindTo)]
    simp
  · intro k
    simp only [createRequest]
    exact GoMap.lookup_range_set build.Exec.Ports
      (fun h => [({ HostIP := "0.0.0.0", HostPort := Itoa h } : PortBinding)]) k
  · intro k
    simp only [createRequest, ConvertToPorts]
    rw [GoMap.mem_keys_iff, GoMap.mem_keys_iff,
      GoMap.lookup_range_set build.Exec.Ports (fun _ => ()) k]
    cases build.Exec.Ports.lookup k <;> simp
  · intro d r json registryAuths cfg hc hmem
    obtain ⟨X, hX, hnc, hok, -⟩ := resolveImage_spec d r json build
      (match registryAuths.lookup build.Registry with
        | some v => v
        | none => "")
    unfold Docker.RunContainer at hmem
    simp only at hmem
    revert hmem hX hok
    generalize d.resolveImage r json build _ = res
    obtain ⟨d1, res2⟩ := res
    intro hmem hX hok
    simp only at hX
    cases res2 with
    | error e =>
      simp only [hX, drop_calls] at hmem
      exact absurd rfl (hnc _ hmem cfg hc)
    | ok img =>
      cases hcfg : img.Config with
      | none =>
        simp only [hcfg, hX, drop_calls] at hmem
        exact absurd rfl (hnc _ hmem cfg hc)
      | some ic =>
        refine ⟨img, ic, hok img rfl, hcfg, ?_⟩
        simp only [hcfg, Docker.ContainerCreate, Docker.ContainerStart] at hmem
        have hnotX : DockerCall.ContainerCreate cfg hc ∉ X := fun h => hnc _ h cfg hc rfl
        cases hcr : r.create with
        | error e =>
          simp only [hcr, hX, List.append_assoc, drop_calls, List.mem_append, List.mem_singleton,
            hnotX, false_or, DockerCall.ContainerCreate.injEq] at hmem
          exact hmem
        | ok created =>
          by_cases hw : created.Warnings.length > 0
          · simp only [hcr, hw, if_true, hX, List.append_assoc, drop_calls, List.mem_append,
              List.mem_singleton, hnotX, false_or, DockerCall.ContainerCreate.injEq] at hmem
            exact hmem
          · cases hs : r.startErr <;>
              simp only [hcr, hw, if_false, hs, hX, List.append_assoc, drop_calls, List.mem_append,
                List.mem_singleton, hnotX, false_or, DockerCall.ContainerCreate.injEq,
                List.mem_cons, List.mem_nil_iff, or_false, reduceCtorEq] at hmem <;>
              exact hmem
  · intro d r json registryAuths img ic h1 h2
    obtain ⟨X, hX, -, -, hfirst⟩ := resolveImage_spec d r json build
      (match registryAuths.lookup build.Registry with
        | some v => v
        | none => "")
    have hres := hfirst img h1
    unfold Docker.RunContainer
    simp only
    revert hX hres
    generalize d.resolveImage r json build _ = res
    obtain ⟨d1, res2⟩ := res
    intro hX hres
    simp only at hX hres
    subst hres
    simp only [h2, Docker.ContainerCreate, Docker.ContainerStart]
    cases r.create with
    | error e => simp [hX, List.append_assoc, drop_calls]
    | ok created =>
      by_cases hw : created.Warnings.length > 0
      · simp [hw, hX, List.append_assoc, drop_calls]
      · cases hs : r.startErr <;> simp [hw, hs, hX, List.append_assoc, drop_calls]

theorem createRequest_shape_witness :
    (createRequest sampleBuild "sha256:1" ["/bin/app"]).1.Cmd = ["/bin/app", "--verbose"] ∧
    (createRequest sampleBuild "sha256:1" ["/bin/app"]).2.Binds = ["/srv/data:/data:ro"] ∧
    (createRequest sampleBuild "sha256:1" ["/bin/app"]).2.PortBindings.lookup "80/tcp" =
      some [{ HostIP := "0.0.0.0", HostPort := "8080" }] :=
  ⟨(createRequest_shape sampleBuild "sha256:1" ["/bin/app"]).1.trans (by decide),
   (createRequest_shape sampleBuild "sha256:1" ["/bin/app"]).2.1.trans (by decide),
   ((createRequest_shape sampleBuild "sha256:1" ["/bin/app"]).2.2.1 "80/tcp").trans (by decide)⟩

/-- C11 as stated fails: repository `org/app` is published under the name `app`, so the
project key is `org__app`; the agent, notified, fetches the artifact and creates one
container, whose `echo-project` label is `app`, not the project key; its cleanup filtered on
`echo-project=app` too. -/
theorem echo_project_label_is_not_project_key :
    ReplaceAll "org/app" "/" "__" = "org__app" ∧
    publishedClient.GetStoredConfig sampleJson true "org__app" =
      .ok { Name := "app", Version := "abc", Timestamp := 1700000000123, Tag := "app:abc",
            Registry := "registry.example.org", Exec := sampleExec } ∧
    sampleAgentRun.world.containers.map (fun c => (c.ID, c.Labels.lookup "echo-project")) =
      [("c1", some "app")] ∧
    some "app" ≠ some (ReplaceAll "org/app" "/" "__") ∧
    sampleAgentRun.world.calls.head? =
      some (DockerCall.ContainerList true ["echo-project=app", "managed-by=echocicd"]) := by
  decide

/-- C11, amended. For every artifact published for a repository (all writes succeeding) and
then fetched at the key-safe repo name, the fetched artifact carries the published name, and
every container the agent's handler creates for it carries the label `managed-by=echocicd`,
the label `echo-project` equal to that published name, the label `domain:<host>=<port>`
exactly when the exec spec has a domain hint, and no other label; the handler's cleanup
filters on `echo-project=<that name>` and `managed-by=echocicd`. -/
theorem agent_labels_carry_published_name (json : Json) (putOk : Nat → Bool) (now : Int)
    (c : EtcdClient) (repo name hash tag registry : String) (config : ExecProperties)
    (j : String) (hlo : -2 ^ 63 ≤ now) (hhi : now < 2 ^ 63)
    (hj : json.marshalExec config = .ok j) (hdec : json.unmarshalExec j = .ok config)
    (hput : ∀ i, i < 7 → putOk i = true) :
    ∃ b,
      (c.WriteBuildInfo json putOk now repo name hash tag registry config).1.GetStoredConfig
        json true (ReplaceAll repo "/" "__") = .ok b ∧
      b.Name = name ∧ b.Exec = config ∧
      (∀ (engine : Docker → Replies) (registryAuth : GoMap String) (conn : Docker)
          (cfg : ContainerConfig) (hc : HostConfig),
        DockerCall.ContainerCreate cfg hc ∈
          (agentHandler json engine registryAuth b conn).calls.drop conn.calls.length →
        cfg.Labels.lookup "managed-by" = some "echocicd" ∧
        cfg.Labels.lookup "echo-project" = some name ∧
        (∀ dom, config.Domain = some dom →
          cfg.Labels.lookup ("domain:" ++ dom.Host) = some (Itoa dom.Port)) ∧
        (∀ k, (cfg.Labels.lookup k).isSome = true ↔
          k = "managed-by" ∨ k = "echo-project" ∨
            ∃ dom, config.Domain = some dom ∧ k = "domain:" ++ dom.Host)) ∧
      (∀ (engine : Docker → Replies) (registryAuth : GoMap String) (conn : Docker),
        ∃ tail,
          (agentHandler json engine registryAuth b conn).calls.drop conn.calls.length =
            DockerCall.ContainerList true ["echo-project=" ++ name, "managed-by=echocicd"] ::
              tail) := by
  refine ⟨{ Name := name, Version := hash, Timestamp := now, Tag := tag,
            Registry := registry, Exec := config },
    fetch_after_publish json putOk now c repo name hash tag registry config j hlo hhi hj hdec hput,
    rfl, rfl, ?_, ?_⟩
  · intro engine registryAuth conn cfg hc hmem
    obtain ⟨imgID, imgCmd, rfl, -⟩ :=
      agentHandler_create_mem json engine registryAuth _ conn cfg hc hmem
    exact createRequest_labels _ imgID imgCmd
  · intro engine registryAuth conn
    obtain ⟨cl, hcl, -⟩ := cleanup_calls_kinds conn (engine conn) name
    obtain ⟨hfail, hok⟩ := agentHandler_calls json engine registryAuth
      { Name := name, Version := hash, Timestamp := now, Tag := tag,
        Registry := registry, Exec := config } conn
    cases hres : (conn.CleanupExistingContainers (engine conn) name).2 with
    | some e =>
      rw [hfail (by rw [hres]; rfl), hcl, drop_calls]
      exact ⟨_, rfl⟩
    | none =>
      rw [hok hres]
      obtain ⟨tail, ht, -⟩ := RunContainer_calls_kinds
        (conn.CleanupExistingContainers (engine conn) name).1
        (engine (conn.CleanupExistingContainers (engine conn) name).1) json
        { Name := name, Version := hash, Timestamp := now, Tag := tag,
          Registry := registry, Exec := config } registryAuth
      rw [ht, hcl, List.append_assoc, drop_calls]
      exact ⟨_, rfl⟩

theorem agent_labels_carry_published_name_witness :
    ∃ b,
      (emptyClient.WriteBuildInfo sampleJson (fun _ => true) 1700000000123
          "org/app" "app" "abc" "app:abc" "registry.example.org" sampleExec).1.GetStoredConfig
        sampleJson true (ReplaceAll "org/app" "/" "__") = .ok b ∧
      b.Name = "app" ∧ b.Exec = sampleExec :=
  (agent_labels_carry_published_name sampleJson (fun _ => true) 1700000000123 emptyClient
    "org/app" "app" "abc" "app:abc" "registry.example.org" sampleExec sampleExecBlob
    (by decide) (by decide) (by decide) (by decide) (fun _ _ => rfl)).imp
    (fun _ h => ⟨h.1, h.2.1, h.2.2.1⟩)

/-- C12. For every artifact, engine and auth table, `RunContainer` starts with the local
inspection of the artifact's image reference. It sends an `ImagePull` exactly when that first
inspection fails, and then exactly one, for the same reference, with the auth string stored
under the artifact's registry in the auth table, or the empty string when the table has no
entry for that registry; when the first inspection finds the image, no pull is sent. -/
theorem RunContainer_pulls_iff_inspect_fails (d : Docker) (r : Replies) (json : Json)
    (build : PublishedBuild) (registryAuths : GoMap String) :
    (∃ tail, (d.RunContainer r json build registryAuths).1.calls.drop d.calls.length =
      DockerCall.ImageInspectWithRaw build.Tag :: tail) ∧
    ((∃ img, r.inspectFirst = .ok img) → ∀ ref a,
      DockerCall.ImagePull ref a ∉
        (d.RunContainer r json build registryAuths).1.calls.drop d.calls.length) ∧
    (∀ ref a,
      DockerCall.ImagePull ref a ∈
          (d.RunContainer r json build registryAuths).1.calls.drop d.calls.length ↔
        (∃ e, r.inspectFirst = .error e) ∧ ref = build.Tag ∧
          a = (registryAuths.lookup build.Registry).getD "") ∧
    ((∃ e, r.inspectFirst = .error e) →
      ((d.RunContainer r json build registryAuths).1.calls.drop d.calls.length).count
        (DockerCall.ImagePull build.Tag ((registryAuths.lookup build.Registry).getD "")) = 1) ∧
    (∀ v, registryAuths.lookup build.Registry = some v →
      (registryAuths.lookup build.Registry).getD "" = v) ∧
    (registryAuths.lookup build.Registry = none →
      (registryAuths.lookup build.Registry).getD "" = "") := by
  obtain ⟨post, hcalls, hpost⟩ := RunContainer_post_kinds d r json build registryAuths
  have hnp : ∀ ref a, DockerCall.ImagePull ref a ∉ post := by
    intro ref a h
    rcases hpost _ h with ⟨cfg, hc, h2⟩ | ⟨id, h2⟩ <;> cases h2
  refine ⟨?_, ?_, ?_, ?_, ?_, ?_⟩
  · rcases resolveImage_paths d r json build ((registryAuths.lookup build.Registry).getD "") with
      ⟨img, -, hc, -⟩ | ⟨-, ⟨hc, -⟩ | ⟨hc, -⟩⟩ <;>
    · rw [hcalls, hc, List.append_assoc, drop_calls]
      exact ⟨_, rfl⟩
  · rintro ⟨img0, h0⟩ ref a hmem
    rcases resolveImage_paths d r json build ((registryAuths.lookup build.Registry).getD "") with
      ⟨img, -, hc, -⟩ | ⟨⟨e, he⟩, -⟩
    · rw [hcalls, hc, List.append_assoc, drop_calls] at hmem
      simp only [List.cons_append, List.nil_append, List.mem_cons, reduceCtorEq, false_or] at hmem
      exact hnp ref a hmem
    · rw [h0] at he; cases he
  · intro ref a
    rcases resolveImage_paths d r json build ((registryAuths.lookup build.Registry).getD "") with
      ⟨img, h1, hc, -⟩ | ⟨⟨e, he⟩, ⟨hc, -⟩ | ⟨hc, -⟩⟩
    · rw [hcalls, hc, List.append_assoc, drop_calls]
      simp [hnp, h1]
    · rw [hcalls, hc, List.append_assoc, drop_calls]
      simp [hnp, he]
    · rw [hcalls, hc, List.append_assoc, drop_calls]
      simp [hnp, he]
  · rintro ⟨e0, h0⟩
    have hz : post.count (DockerCall.ImagePull build.Tag
        ((registryAuths.lookup build.Registry).getD "")) = 0 :=
      List.count_eq_zero.mpr (hnp _ _)
    rcases resolveImage_paths d r json build ((registryAuths.lookup build.Registry).getD "") with
      ⟨img, h1, -, -⟩ | ⟨-, ⟨hc, -⟩ | ⟨hc, -⟩⟩
    · rw [h0] at h1; cases h1
    · rw [hcalls, hc, List.append_assoc, drop_calls, List.count_append, hz]
      simp [List.count_cons]
    · rw [hcalls, hc, List.append_assoc, drop_calls, List.count_append, hz]
      simp [List.count_cons]
  · intro v hv
    rw [hv]; rfl
  · intro hn
    rw [hn]; rfl

theorem RunContainer_pulls_iff_inspect_fails_witness :
    DockerCall.ImagePull "registry.example.org/app:abc" "token" ∈
        (emptyDocker.RunContainer pullReplies sampleJson sampleBuild sampleAuths).1.calls.drop
          emptyDocker.calls.length ∧
    ∀ ref a, DockerCall.ImagePull ref a ∉
        (emptyDocker.RunContainer sampleReplies sampleJson sampleBuild sampleAuths).1.calls.drop
          emptyDocker.calls.length :=
  ⟨((RunContainer_pulls_iff_inspect_fails emptyDocker pullReplies sampleJson sampleBuild
      sampleAuths).2.2.1 "registry.example.org/app:abc" "token").mpr
      ⟨⟨"No such image", rfl⟩, by decide, by decide⟩,
   (RunContainer_pulls_iff_inspect_fails emptyDocker sampleReplies sampleJson sampleBuild
      sampleAuths).2.1 ⟨_, rfl⟩⟩


/-- C13. For every artifact and engine: when the create request is answered with a
non-empty warnings list, `RunContainer` returns an error (no container id) and sends no
start request. A start request is sent only for the id of a container whose creation was
answered without error and with an empty warnings list, right after the create request; a
container id is returned only in that case, when the start succeeds; and in that case the
start request is sent, and the id returned when the start succeeds. -/
theorem RunContainer_warnings_block_start (d : Docker) (r : Replies) (json : Json)
    (build : PublishedBuild) (registryAuths : GoMap String) :
    (∀ created, r.create = .ok created → created.Warnings ≠ [] →
      (d.RunContainer r json build registryAuths).2.isOk = false ∧
      ∀ id, DockerCall.ContainerStart id ∉
        (d.RunContainer r json build registryAuths).1.calls.drop d.calls.length) ∧
    (∀ id, DockerCall.ContainerStart id ∈
        (d.RunContainer r json build registryAuths).1.calls.drop d.calls.length →
      ∃ created, r.create = .ok created ∧ created.Warnings = [] ∧ id = created.ID ∧
        ∃ before cfg hc,
          (d.RunContainer r json build registryAuths).1.calls.drop d.calls.length =
            before ++ [DockerCall.ContainerCreate cfg hc, DockerCall.ContainerStart id]) ∧
    (∀ id, (d.RunContainer r json build registryAuths).2 = .ok id →
      ∃ created, r.create = .ok created ∧ created.Warnings = [] ∧ id = created.ID ∧
        r.startErr = none ∧
        DockerCall.ContainerStart id ∈
          (d.RunContainer r json build registryAuths).1.calls.drop d.calls.length) ∧
    (∀ img ic created,
      (d.resolveImage r json build ((registryAuths.lookup build.Registry).getD "")).2 = .ok img →
      img.Config = some ic → r.create = .ok created → created.Warnings = [] →
      DockerCall.ContainerStart created.ID ∈
        (d.RunContainer r json build registryAuths).1.calls.drop d.calls.length ∧
      (r.startErr = none → (d.RunContainer r json build registryAuths).2 = .ok created.ID)) := by
  obtain ⟨post, hcalls, hpost⟩ := RunContainer_paths d r json build registryAuths
  obtain ⟨pre, hpre, hprekind⟩ : ∃ pre,
      (d.resolveImage r json build ((registryAuths.lookup build.Registry).getD "")).1.calls =
        d.calls ++ pre ∧ ∀ id, DockerCall.ContainerStart id ∉ pre := by
    rcases resolveImage_paths d r json build ((registryAuths.lookup build.Registry).getD "") with
      ⟨img, -, hc, -⟩ | ⟨-, ⟨hc, -⟩ | ⟨hc, -⟩⟩ <;> exact ⟨_, hc, by simp⟩
  have hnew : (d.RunContainer r json build registryAuths).1.calls.drop d.calls.length =
      pre ++ post := by
    rw [hcalls, hpre, List.append_assoc, drop_calls]
  rw [hnew]
  have hlen : ∀ created : CreateResponse, created.Warnings.length > 0 ↔ created.Warnings ≠ [] :=
    fun created => List.length_pos
  refine ⟨?_, ?_, ?_, ?_⟩
  · intro created hcr hw
    rcases hpost with ⟨rfl, hres, -⟩ | ⟨img, ic, -, -, ⟨rfl, hres, -⟩ | ⟨c2, hc2, hw2, -⟩⟩
    · exact ⟨hres, fun id h => by simp [hprekind] at h⟩
    · exact ⟨hres, fun id h => by simp [hprekind] at h⟩
    · rw [hcr] at hc2
      injection hc2 with hc2
      subst hc2
      exact absurd ((hlen created).mpr hw) hw2
  · intro id hmem
    rcases hpost with ⟨rfl, -⟩ | ⟨img, ic, -, -, ⟨rfl, -⟩ | ⟨c2, hc2, hw2, rfl, -⟩⟩
    · simp [hprekind] at hmem
    · simp [hprekind] at hmem
    · have hid : id = c2.ID := by simpa [hprekind] using hmem
      subst hid
      refine ⟨c2, hc2, ?_, rfl, pre, _, _, rfl⟩
      by_contra hne
      exact hw2 ((hlen c2).mpr hne)
  · intro id hid
    rcases hpost with ⟨-, hres, -⟩ | ⟨img, ic, -, -, ⟨-, hres, -⟩ |
      ⟨c2, hc2, hw2, rfl, ⟨hs, hres⟩ | ⟨hs, hres⟩⟩⟩
    · rw [hid] at hres; cases hres
    · rw [hid] at hres; cases hres
    · rw [hid] at hres
      injection hres with hres
      subst hres
      refine ⟨c2, hc2, ?_, rfl, hs, by simp⟩
      by_contra hne
      exact hw2 ((hlen c2).mpr hne)
    · rw [hid] at hres; cases hres
  · intro img ic created himg hcfg hcr hw
    rcases hpost with ⟨-, -, hbad | ⟨img2, himg2, hcfg2⟩⟩ | ⟨img2, ic2, himg2, hcfg2, ⟨-, -, hbad | ⟨c2, hc2, hw2⟩⟩ |
      ⟨c2, hc2, hw2, rfl, hfin⟩⟩
    · rw [himg] at hbad; cases hbad
    · rw [himg] at himg2
      injection himg2 with himg2
      subst himg2
      rw [hcfg] at hcfg2; cases hcfg2
    · rw [hcr] at hbad; cases hbad
    · rw [hcr] at hc2
      injection hc2 with hc2
      subst hc2
      rw [hw] at hw2
      simp at hw2
    · rw [hcr] at hc2
      injection hc2 with hc2
      subst hc2
      refine ⟨by simp, ?_⟩
      intro hs
      rcases hfin with ⟨-, hres⟩ | ⟨hs2, -⟩
      · exact hres
      · rw [hs] at hs2; cases hs2

theorem RunContainer_warnings_block_start_witness :
    (emptyDocker.RunContainer warningReplies sampleJson sampleBuild sampleAuths).2.isOk = false ∧
    ∀ id, DockerCall.ContainerStart id ∉
        (emptyDocker.RunContainer warningReplies sampleJson sampleBuild sampleAuths).1.calls.drop
          emptyDocker.calls.length :=
  (RunContainer_warnings_block_start emptyDocker warningReplies sampleJson sampleBuild
    sampleAuths).1 { ID := "c1", Warnings := ["no swap limit support"] } rfl (by decide)


/-- C14. For every artifact handed to the agent's handler, the requests of the handler are
those of the cleanup for the artifact's name (the list request with the two label filters,
then stops and removes) followed by those of `RunContainer` (`run`). When the cleanup returns
an error, `run` is empty: no inspect, pull, create or start is sent, and the handler ends in
the engine state the cleanup left. When the cleanup succeeds, `run` is the request sequence of
one `RunContainer` run with the agent's registry-auth table, which begins with the local image
inspection. The handler always returns, and the watch loop runs it for every notification, in
order, whether earlier runs failed or not. -/
theorem agentHandler_cleanup_then_run (json : Json) (engine : Docker → Replies)
    (registryAuth : GoMap String) (config : PublishedBuild) (conn : Docker) :
    (∃ cl run,
      (agentHandler json engine registryAuth config conn).calls =
        conn.calls ++
          (DockerCall.ContainerList true ["echo-project=" ++ config.Name, "managed-by=echocicd"] ::
            cl) ++ run ∧
      (conn.CleanupExistingContainers (engine conn) config.Name).1.calls =
        conn.calls ++
          DockerCall.ContainerList true ["echo-project=" ++ config.Name, "managed-by=echocicd"] ::
            cl ∧
      (∀ call ∈ cl, call.isCleanupRequest = true) ∧
      (∀ call ∈ run, call.isRunRequest = true) ∧
      ((conn.CleanupExistingContainers (engine conn) config.Name).2.isSome = true →
        run = [] ∧
        agentHandler json engine registryAuth config conn =
          (conn.CleanupExistingContainers (engine conn) config.Name).1) ∧
      ((conn.CleanupExistingContainers (engine conn) config.Name).2 = none →
        agentHandler json engine registryAuth config conn =
          ((conn.CleanupExistingContainers (engine conn) config.Name).1.RunContainer
            (engine (conn.CleanupExistingContainers (engine conn) config.Name).1)
            json config registryAuth).1 ∧
        run =
          (((conn.CleanupExistingContainers (engine conn) config.Name).1.RunContainer
            (engine (conn.CleanupExistingContainers (engine conn) config.Name).1)
            json config registryAuth).1.calls.drop
              (conn.CleanupExistingContainers (engine conn) config.Name).1.calls.length) ∧
        (∃ tail, run = DockerCall.ImageInspectWithRaw config.Tag :: tail) ∧
        ∀ ref a, DockerCall.ImagePull ref a ∈ run →
          a = (registryAuth.lookup config.Registry).getD "")) ∧
    (∀ (responses : List (List Delivered)) (rest : List Select),
      LaunchAgent json engine registryAuth
          (responses.map Select.response ++ Select.done :: rest) conn =
        { world := (responses.flatten.filterMap (notification json)).foldl
            (fun w b => agentHandler json engine registryAuth b w) conn,
          spawned := [], panicked := false }) := by
  constructor
  · obtain ⟨cl, hcl, hkinds⟩ := cleanup_calls_kinds conn (engine conn) config.Name
    obtain ⟨hfail, hok⟩ := agentHandler_calls json engine registryAuth config conn
    cases hres : (conn.CleanupExistingContainers (engine conn) config.Name).2 with
    | some e =>
      have hh := hfail (by rw [hres]; rfl)
      refine ⟨cl, [], by rw [hh, hcl]; simp, hcl, hkinds, by simp, fun _ => ⟨rfl, hh⟩, ?_⟩
      intro h; cases h
    | none =>
      have hh := hok hres
      obtain ⟨tail, ht, htk, htp⟩ := RunContainer_calls_kinds
        (conn.CleanupExistingContainers (engine conn) config.Name).1
        (engine (conn.CleanupExistingContainers (engine conn) config.Name).1)
        json config registryAuth
      refine ⟨cl, DockerCall.ImageInspectWithRaw config.Tag :: tail, ?_, hcl, hkinds, ?_, ?_, ?_⟩
      · rw [hh, ht, hcl]
      · intro call hcall
        rcases List.mem_cons.mp hcall with rfl | h
        · rfl
        · exact htk call h
      · intro h; cases h
      · intro _
        refine ⟨hh, ?_, ⟨tail, rfl⟩, ?_⟩
        · rw [ht, drop_calls]
        · intro ref a h
          rcases List.mem_cons.mp h with h | h
          · cases h
          · exact htp ref a h
  · intro responses rest
    unfold LaunchAgent WatchForBuild
    exact watchLoop_sync json (agentHandler json engine registryAuth) responses _
      (Or.inr ⟨rest, rfl⟩) { world := conn, spawned := [], panicked := false } rfl

theorem agentHandler_cleanup_then_run_witness :
    LaunchAgent sampleJson (fun _ => listFailsReplies) sampleAuths
        ([sampleEvents].map Select.response ++ Select.done :: []) emptyDocker =
      { world := { containers := [],
                   calls := [DockerCall.ContainerList true
                     ["echo-project=app", "managed-by=echocicd"]] },
        spawned := [], panicked := false } :=
  ((agentHandler_cleanup_then_run sampleJson (fun _ => listFailsReplies) sampleAuths sampleBuild
    emptyDocker).2 [sampleEvents] []).trans (by decide)

/-- C15, counterexample. The final line `null` is JSON but not a JSON object, and the
stream is reported as a success: `json.Unmarshal` leaves the record as it is on `null`.
And the final line `{"errorDetail":"x"}` is a JSON object with no `error` member, yet the
stream is reported as a failure: the value of `errorDetail` is not an object. -/
theorem null_final_line_is_success :
    checkValid "null".data = .ok .null ∧
    isJsonObject "null" = false ∧
    UnmarshalErrorLine "null" = .ok { Error := "", ErrorDetail := { Message := "" } } ∧
    ScanForDockerError statusLineJson { lines := ["null"], scanErr := none } = none ∧
    checkValid "\x7b\"errorDetail\":\"x\"\x7d".data =
      .ok (.object [("errorDetail", .string "x")]) ∧
    isJsonObject "\x7b\"errorDetail\":\"x\"\x7d" = true ∧
    errorStrings [("errorDetail", .string "x")] = [] ∧
    (UnmarshalErrorLine "\x7b\"errorDetail\":\"x\"\x7d").isOk = false ∧
    (ScanForDockerError statusLineJson
      { lines := ["\x7b\"errorDetail\":\"x\"\x7d"], scanErr := none }).isSome = true :=
  ⟨rfl, by decide, by decide, by decide, rfl, by decide, by decide, by decide, by decide⟩

/-- C15, amended. For every response stream read without a scan failure, with status
lines decoded as `encoding/json` does, `ScanForDockerError` returns an error if and only
if `json.Unmarshal` of the final line (the empty string when there is no line) into an
`ErrorLine` fails or gives a non-empty `error` field; that is, if and only if the final
line is not JSON, or is a JSON value other than `null` and an object, or is an object with
an `error` or `errorDetail` member of the wrong type, or is an object whose `error` field
is not empty. Lines before the final one do not matter; a final line `null`, and a final
line that is an object with well-typed members and an empty `error` field, give success; a
non-empty `error` field on the final line gives an error; and an empty stream gives an
error. -/
theorem ScanForDockerError_final_line_unmarshal (json : Json) (reader : ResponseStream)
    (hjson : json.unmarshalErrorLine = UnmarshalErrorLine)
    (hscan : reader.scanErr = none) :
    ((ScanForDockerError json reader).isSome = true ↔
      (UnmarshalErrorLine (reader.lines.getLastD "")).isOk = false ∨
      ∃ line, UnmarshalErrorLine (reader.lines.getLastD "") = .ok line ∧ line.Error ≠ "") ∧
    (ScanForDockerError json reader).isSome = reportedAsFailure (reader.lines.getLastD "") ∧
    (∀ earlier final,
      ScanForDockerError json { lines := earlier ++ [final], scanErr := none } =
        ScanForDockerError json { lines := [final], scanErr := none }) ∧
    (∀ earlier final, (checkValid final.data).isOk = false →
      (ScanForDockerError json
        { lines := earlier ++ [final], scanErr := none }).isSome = true) ∧
    (∀ earlier final, (checkValid final.data).map JsonValue.typeName = .ok "null" →
      ScanForDockerError json { lines := earlier ++ [final], scanErr := none } = none) ∧
    (∀ earlier final members, checkValid final.data = .ok (.object members) →
      (ScanForDockerError json { lines := earlier ++ [final], scanErr := none } = none ↔
        members.all memberFits = true ∧ errorField members = "")) ∧
    (∀ earlier final v, checkValid final.data = .ok v →
      v.typeName ≠ "null" → v.typeName ≠ "object" →
      (ScanForDockerError json
        { lines := earlier ++ [final], scanErr := none }).isSome = true) ∧
    (ScanForDockerError json { lines := [], scanErr := none }).isSome = true := by
  have hiff : ∀ rd : ResponseStream, rd.scanErr = none →
      ((ScanForDockerError json rd).isSome = true ↔
        reportedAsFailure (rd.lines.getLastD "") = true) := by
    intro rd hrd
    rw [ScanForDockerError_isSome_iff json rd hrd, hjson]
    exact UnmarshalErrorLine_reportedAsFailure _
  have hfinal : ∀ (earlier : List String) (final : String),
      (earlier ++ [final]).getLastD "" = final := by
    intro earlier final
    simp [List.getLastD_eq_getLast?]
  have hline : ∀ (earlier : List String) (final : String),
      ((ScanForDockerError json { lines := earlier ++ [final], scanErr := none }).isSome = true ↔
        reportedAsFailure final = true) := by
    intro earlier final
    have h := hiff { lines := earlier ++ [final], scanErr := none } rfl
    simp only [hfinal] at h
    exact h
  refine ⟨?_, ?_, ?_, ?_, ?_, ?_, ?_, ?_⟩
  · rw [ScanForDockerError_isSome_iff json reader hscan, hjson]
  · have h := hiff reader hscan
    cases h1 : (ScanForDockerError json reader).isSome <;>
      cases h2 : reportedAsFailure (reader.lines.getLastD "") <;> simp_all
  · intro earlier final
    exact ScanForDockerError_last_line json earlier final none
  · intro earlier final hbad
    rw [hline]
    unfold reportedAsFailure
    cases hv : checkValid final.data with
    | error e => rfl
    | ok v => simp [hv, Except.isOk, Except.toBool] at hbad
  · intro earlier final hnull
    have h : reportedAsFailure final = false := by
      unfold reportedAsFailure
      cases hv : checkValid final.data with
      | error e => simp [hv, Except.map] at hnull
      | ok v => cases v <;> simp_all [Except.map, JsonValue.typeName]
    have h2 := hline earlier final
    rw [h] at h2
    cases hs : ScanForDockerError json { lines := earlier ++ [final], scanErr := none } with
    | none => rfl
    | some e => simp [hs] at h2
  · intro earlier final members hv
    have h : reportedAsFailure final =
        (!members.all memberFits || errorField members != "") := by
      unfold reportedAsFailure
      simp [hv]
    have h2 := hline earlier final
    rw [h] at h2
    cases hs : ScanForDockerError json { lines := earlier ++ [final], scanErr := none } with
    | none =>
      simp only [hs, Option.isSome_none, Bool.false_eq_true, false_iff] at h2
      simp only [true_iff]
      cases hf : members.all memberFits <;> simp_all
    | some e =>
      simp only [hs, Option.isSome_some, true_iff] at h2
      simp only [false_iff, reduceCtorEq]
      intro hcon
      simp [hcon.1, hcon.2] at h2
  · intro earlier final v hv hnn hno
    rw [hline]
    unfold reportedAsFailure
    cases v <;> simp_all [JsonValue.typeName]
  · have h := hiff { lines := [], scanErr := none } rfl
    rw [h]
    decide

theorem ScanForDockerError_final_line_unmarshal_witness :
    statusLineJson.unmarshalErrorLine = UnmarshalErrorLine ∧
    donePullStream.scanErr = none ∧
    (ScanForDockerError statusLineJson donePullStream).isSome =
      reportedAsFailure "\x7b\"status\":\"done\"\x7d" ∧
    reportedAsFailure "\x7b\"status\":\"done\"\x7d" = false ∧
    ScanForDockerError statusLineJson
      { lines := ["\x7b\"error\":\"denied\"\x7d"] ++ ["null"], scanErr := none } = none ∧
    (ScanForDockerError statusLineJson
        { lines := ["\x7b\"error\":\"denied\"\x7d"] ++ ["\x7b\"status\":\"done\"\x7d"],
          scanErr := none } = none ↔
      [("status", JsonValue.string "done")].all memberFits = true ∧
        errorField [("status", JsonValue.string "done")] = "") ∧
    (ScanForDockerError statusLineJson
      { lines := ["\x7b\"status\":\"done\"\x7d"] ++ ["[1]"], scanErr := none }).isSome = true ∧
    (ScanForDockerError statusLineJson { lines := [], scanErr := none }).isSome = true :=
  ⟨rfl, rfl,
   (ScanForDockerError_final_line_unmarshal statusLineJson donePullStream rfl rfl).2.1,
   by decide,
   (ScanForDockerError_final_line_unmarshal statusLineJson donePullStream rfl rfl).2.2.2.2.1
      ["\x7b\"error\":\"denied\"\x7d"] "null" (by decide),
   (ScanForDockerError_final_line_unmarshal statusLineJson donePullStream rfl rfl).2.2.2.2.2.1
      ["\x7b\"error\":\"denied\"\x7d"] "\x7b\"status\":\"done\"\x7d"
      [("status", .string "done")] rfl,
   (ScanForDockerError_final_line_unmarshal statusLineJson donePullStream rfl rfl).2.2.2.2.2.2.1
      ["\x7b\"status\":\"done\"\x7d"] "[1]" (.array [.number "1"]) rfl
      (by decide) (by decide),
   (ScanForDockerError_final_line_unmarshal statusLineJson donePullStream rfl rfl).2.2.2.2.2.2.2⟩
